import Mathlib

/-!
# go-pkgdec: a shallow embedding of the PKG streaming decryptor

The definitions below transcribe `pkg/aes.go`, `pkg/entries.go`, `pkg/file.go`,
`pkg/regfile.go`, `pkg/reader.go` and `pkg/unpack.go`.  Bytes are natural numbers,
Go's `int64` values are integers that are wrapped explicitly where the source can
overflow, a panic is `none`, and an `error` value is an element of `Err`.
-/

namespace Pkgdec

/-! ## Machine integers and byte strings -/

/-- Two's-complement wrap of an integer into the range of Go's `int64`. -/
def wrap64 (x : Int) : Int := (x + 2 ^ 63) % 2 ^ 64 - 2 ^ 63

/-- Go's conversion `byte(v)` of an `int64`: the low eight bits. -/
def toByte (v : Int) : Nat := (v % 256).toNat

/-- Value of a byte string read as a big-endian unsigned integer. -/
def beToNat (l : List Nat) : Nat := l.foldl (fun acc b => acc * 256 + b) 0

/-- The `len`-byte big-endian rendering of `v` (its low `8 * len` bits). -/
def natToBE : Nat → Nat → List Nat
  | 0, _ => []
  | len + 1, v => natToBE len (v / 256) ++ [v % 256]

/-! ## `pkg/aes.go` -/

/-- Loop of `addCTRCounter`; the first argument is `n` before the `n--` of an iteration,
so the iteration reads and writes `ctr[n-1]` and the loop stops after index `0`. -/
def addCTRCounterLoop : Nat → List Nat → Int → List Nat
  | 0, ctr, _ => ctr
  | n + 1, ctr, value =>
    let value1 := wrap64 (value + ((ctr.getD n 0 : Nat) : Int))
    addCTRCounterLoop n (ctr.set n (toByte value1)) (value1 >>> (8 : Nat))

/-- Transcription of `addCTRCounter(iv, value)`: `dup(iv)` followed by the loop from
`n = 16`.  Indexing `ctr[15]` panics when the slice is shorter than 16 bytes. -/
def addCTRCounter (iv : List Nat) (value : Int) : Option (List Nat) :=
  if iv.length < 16 then none else some (addCTRCounterLoop 16 iv value)

/-- An AES block cipher (`cipher.Block`): its 16-byte block encryption function. -/
structure Block where
  encrypt : List Nat → List Nat

/-- State of a `cipher.Stream` made by `cipher.NewCTR`: the cipher, the initial counter
block and the number of key-stream bytes already used. -/
structure CtrStream where
  block : Block
  iv : List Nat
  pos : Nat

/-- Byte `p` of the CTR key stream: byte `p % 16` of the encryption of the initial counter
block incremented `p / 16` times as a 128-bit big-endian integer (with wrap-around). -/
def keystreamByte (b : Block) (iv : List Nat) (p : Nat) : Nat :=
  (b.encrypt (natToBE 16 ((beToNat iv + p / 16) % 2 ^ 128))).getD (p % 16) 0

/-- XOR of `src` with the key stream from byte `p` on. -/
def xorFrom (b : Block) (iv : List Nat) : Nat → List Nat → List Nat
  | _, [] => []
  | p, x :: xs => (x ^^^ keystreamByte b iv p) :: xorFrom b iv (p + 1) xs

/-- Semantics of `Stream.XORKeyStream(dst, src)`: the output bytes and the advanced stream. -/
def CtrStream.xorKeyStream (s : CtrStream) (src : List Nat) : List Nat × CtrStream :=
  (xorFrom s.block s.iv s.pos src, { s with pos := s.pos + src.length })

/-- Semantics of `cipher.NewCTR(b, iv)`: it panics unless `len(iv)` is the block size. -/
def cipherNewCTR (b : Block) (iv : List Nat) : Option CtrStream :=
  if iv.length = 16 then some { block := b, iv := iv, pos := 0 } else none

/-- Transcription of `NewCTR(b, iv, counter)`. -/
def NewCTR (b : Block) (iv : List Nat) (counter : Int) : Option CtrStream :=
  (if counter > 0 then addCTRCounter iv counter else some iv).bind (cipherNewCTR b)

/-- Transcription of `AESCTRDecrypt(block, dst, src, iv, counter)`: the bytes written to `dst`. -/
def AESCTRDecrypt (block : Block) (src iv : List Nat) (counter : Int) : Option (List Nat) :=
  (NewCTR block iv counter).map (fun s => (s.xorKeyStream src).1)

/-! ## Errors, the input stream and the taps on it -/

/-- Go `error` values returned by the package. -/
inductive Err
  /-- The value `io.EOF`. -/
  | EOF
  /-- The value `io.ErrUnexpectedEOF`. -/
  | ErrUnexpectedEOF
  /-- The value `errors.New("pkg: invalid pkg header")`. -/
  | invalidPkgHeader
  /-- The value `errors.New("unknown file in package")`. -/
  | unknownFile
  /-- An error of the underlying input stream other than `io.EOF`. -/
  | io (code : Nat)
  /-- An error returned by a `pkgWriter`. -/
  | sink (code : Nat)
  /-- The `aes.KeySizeError` of `aes.NewCipher` for a key of `len` bytes. -/
  | keySize (len : Nat)
  /-- The value `errors.New("invalid PKG file")`. -/
  | invalidPKG
  /-- The value `errors.New("unsupported PKG type (no extended header)")`. -/
  | noExtendedHeader
  /-- The value `errors.New("PKG has no item entries")`. -/
  | noItems
  /-- The value `errors.New("invalid PKG extended header")`. -/
  | invalidExtHeader
  /-- The value `errors.New("the given offset is behind the current position")`. -/
  | seekBehind
  /-- The value `errors.New("invalid SFO header")`. -/
  | invalidSFO
  /-- The error `fmt.Errorf("unsupported package type: %v", pkgType)`. -/
  | unsupportedPackageType
  /-- The error `fmt.Errorf("unknown key type: %v", keyType)`. -/
  | unknownKeyType (keyType : Nat)
  /-- The value `errors.New("invalid license length")`. -/
  | invalidLicenseLength
  /-- The error `fmt.Errorf("zRIF content ID '%s' doesn't match pkg '%s'", rifid, cid)`. -/
  | licenseMismatch
  /-- An error of `base64` decoding (`base64.CorruptInputError`) or of the `flate`
  decompressor. -/
  | zrif (code : Nat)
  /-- The value `zlib.ErrHeader`. -/
  | zlibHeader
  /-- The value `zlib.ErrDictionary`. -/
  | zlibDictionary
  /-- The value `zlib.ErrChecksum`. -/
  | zlibChecksum
  deriving DecidableEq, Repr

/-- The forward-only input `r`: the bytes it has not delivered yet and the condition it
reports once they are exhausted (`io.EOF` for a stream that simply ends).  A `Read` with
a non-empty buffer delivers as many of the remaining bytes as fit and reports the final
condition only when no byte is left. -/
structure Source where
  data : List Nat
  fin : Err

/-- Everything the readers of one `Reader` share: the input, the bytes written to the
SHA-1 `hasher`, and the contents of `headBuffer` and `tailBuffer`. -/
structure World where
  src : Source
  hashed : List Nat
  headBuffer : List Nat
  tailBuffer : List Nat

/-- The reader objects built in `init`: `r` itself, `hashReader = TeeReader(r, hasher)`
and `headHashReader = TeeReader(hashReader, &headBuffer)`. -/
inductive Tap
  | raw
  | hash
  | headHash
  deriving DecidableEq, Repr

/-- Take `n` bytes off the input through reader `t`, optionally wrapped in
`TeeReader(·, &tailBuffer)`; every tee on the way records the bytes. -/
def World.deliver (w : World) (t : Tap) (toTail : Bool) (n : Nat) : List Nat × World :=
  let bytes := w.src.data.take n
  (bytes,
   { src := { w.src with data := w.src.data.drop n },
     hashed := if t = Tap.raw then w.hashed else w.hashed ++ bytes,
     headBuffer := if t = Tap.headHash then w.headBuffer ++ bytes else w.headBuffer,
     tailBuffer := if toTail then w.tailBuffer ++ bytes else w.tailBuffer })

/-- One `Read` call with a buffer of `k` bytes on the underlying stream: an empty buffer
reads nothing and reports no error, an exhausted stream reports its final condition, and
otherwise the next `k` bytes (or all that is left) are delivered without error. -/
def World.read (w : World) (t : Tap) (toTail : Bool) (k : Nat) :
    List Nat × Option Err × World :=
  if k = 0 then ([], none, w)
  else if w.src.data.isEmpty then ([], some w.src.fin, w)
  else ((w.deliver t toTail k).1, none, (w.deliver t toTail k).2)

/-- Contract of `io.CopyN(ioutil.Discard, reader, n)`: nothing is read for `n ≤ 0`;
otherwise `n` bytes are read, or all that is left together with the stream's final
condition.  Returns the number of bytes copied. -/
def World.copyN (w : World) (t : Tap) (toTail : Bool) (n : Int) :
    Nat × Option Err × World :=
  if n ≤ 0 then (0, none, w)
  else if n.toNat ≤ w.src.data.length then
    (n.toNat, none, (w.deliver t toTail n.toNat).2)
  else
    (w.src.data.length, some w.src.fin, (w.deliver t toTail w.src.data.length).2)

/-- Contract of `io.ReadFull(reader, buf)` with `len(buf) = k`: `io.EOF` only if no byte
was read, `io.ErrUnexpectedEOF` if the stream ended after some but not all bytes. -/
def World.readFull (w : World) (t : Tap) (toTail : Bool) (k : Nat) :
    List Nat × Option Err × World :=
  if k ≤ w.src.data.length then ((w.deliver t toTail k).1, none, (w.deliver t toTail k).2)
  else if w.src.data.isEmpty then ([], some w.src.fin, w)
  else
    ((w.deliver t toTail w.src.data.length).1,
     some (if w.src.fin = Err.EOF then Err.ErrUnexpectedEOF else w.src.fin),
     (w.deliver t toTail w.src.data.length).2)

/-- The `ctrStream` of `aes.go`: cipher, current stream, the `R` of its `StreamReader`
and the saved IV. -/
structure ctrStream where
  block : Block
  stream : CtrStream
  R : Tap
  iv : List Nat

/-- Constants and library functions that the sources under `pkg/` use but do not define:
SHA-1, the AES block function of a key, the fixed keys, Base64 and the DEFLATE codec. -/
structure Env where
  sha1 : List Nat → List Nat
  aes : List Nat → Block
  KeyPS3 : List Nat
  KeyPSP : List Nat
  VitaKey2 : List Nat
  KeyVita3 : List Nat
  KeyVita4 : List Nat
  /-- The function `base64.StdEncoding.EncodeToString`, as the bytes of the string. -/
  base64Encode : List Nat → List Nat
  /-- The function `base64.StdEncoding.DecodeString`. -/
  base64Decode : List Nat → Except Err (List Nat)
  /-- The package variable `rifDict`, the value of `expandZlibDict()`. -/
  rifDict : List Nat
  /-- The bytes a `flate.NewWriterDict(w, zlib.BestCompression, dict)` has written to `w`
  after `Write(data)` and `Close()`. -/
  deflate : List Nat → List Nat → List Nat
  /-- Reading a `flate.NewReaderDict(r, dict)` (or a `flate.NewReader(r)` without a
  dictionary) to its end on the bytes of `r`: the decompressed data and the bytes of `r`
  that follow the compressed stream. -/
  inflate : Option (List Nat) → List Nat → Except Err (List Nat × List Nat)

/-! ## `pkg/enums.go`, `pkg/headers.go` -/

def EntryTypePSP : Nat := 0x90

def FileTypeFile0 : Nat := 0
def FileTypeFile1 : Nat := 1
def FileTypeFileEdat : Nat := 2
def FileTypeFile3 : Nat := 3
def FileTypeDirectory : Nat := 4
def FileTypeFileDocinfo : Nat := 5
def FileTypeFilePbp : Nat := 6
def FileTypeFileModule : Nat := 14
def FileTypeFile15 : Nat := 15
def FileTypeFileKeystone : Nat := 16
def FileTypeFilePfs : Nat := 17
def FileTypeDirectoryPfs : Nat := 18
def FileTypeFileTemp : Nat := 19
def FileTypeFileInst : Nat := 20
def FileTypeFileClearsign : Nat := 21
def FileTypeFileSys : Nat := 22
def FileTypeFileDigs : Nat := 24

/-- The constants `PackageTypePSOne PackageType = 1 << iota` and following of `reader.go`;
a `PackageType` is a Go `int`. -/
def PackageTypePSOne : Nat := 1
def PackageTypePSP : Nat := 2
def PackageTypeVitaApp : Nat := 4
def PackageTypeVitaDLC : Nat := 8
def PackageTypeVitaPatch : Nat := 16
def PackageTypePSM : Nat := 32

/-- The struct `FileHeader` (the blank 12-byte field is not kept; `Type_` is the field `Type`). -/
structure FileHeader where
  Magic : List Nat
  Revision : Nat
  Type_ : Nat
  InfoOffset : Int
  InfoCount : Int
  HeaderSize : Int
  ItemCount : Int
  TotalSize : Int
  DataOffset : Int
  DataSize : Int
  ContentID : List Nat
  Digest : List Nat
  DataIV : List Nat
  HeaderCmacHash : List Nat
  HeaderNpdrmSignature : List Nat
  HeaderSha1Hash : List Nat

/-- The struct `ExtendedHeader` (blank fields are not kept). -/
structure ExtendedHeader where
  Magic : List Nat
  Unknown1 : Nat
  HeaderSize : Int
  DataSize : Int
  DataOffset : Int
  DataType : Nat
  PkgDataSize : Int
  DataType2 : Nat
  Unknown2 : Nat

/-- Transcription of `ExtendedHeader.KeyType`. -/
def ExtendedHeader.KeyType (h : ExtendedHeader) : Nat := h.DataType2 &&& 7

/-- The struct `Metadata`. -/
structure Metadata where
  DrmType : Nat
  ContentType : Nat
  PackageFlags : Nat
  IndexTableOffset : Nat
  IndexTableSize : Nat
  SfoOffset : Nat
  SfoSize : Nat

/-- The struct `ItemRecord`. -/
structure ItemRecord where
  FilenameOffset : Nat
  FilenameSize : Int
  DataOffset : Int
  DataSize : Int
  Flags : Nat
  Reserved : Nat
  deriving DecidableEq, Repr

/-- Transcription of `ItemRecord.KeyType`: `h.Flags >> 24 & 0xff`. -/
def ItemRecord.KeyType (h : ItemRecord) : Nat := (h.Flags >>> 24) &&& 0xff

/-! ## `pkg/entries.go`: file entries -/

/-- The struct `fileEntry`; a nil `Key` is `none`. -/
structure fileEntry where
  Name : List Nat
  Offset : Int
  Size : Int
  Flags : Nat
  Key : Option Block

/-- Transcription of `fileEntry.FileType`: `h.Flags & 0xff`. -/
def fileEntry.FileType (h : fileEntry) : Nat := h.Flags &&& 0xff

/-- Transcription of `fileEntry.KeyType`: `h.Flags >> 24 & 0xff`. -/
def fileEntry.KeyType (h : fileEntry) : Nat := (h.Flags >>> 24) &&& 0xff

/-- Transcription of `fileEntry.IsFile`: the cases of the `switch`, in source order. -/
def fileEntry.IsFile (h : fileEntry) : Bool :=
  decide (h.FileType ∈ [FileTypeFile0, FileTypeFile1, FileTypeFileEdat, FileTypeFile3,
    FileTypeFileDocinfo, FileTypeFilePbp, FileTypeFileModule, FileTypeFile15,
    FileTypeFileKeystone, FileTypeFilePfs, FileTypeFileTemp, FileTypeFileInst,
    FileTypeFileClearsign, FileTypeFileSys, FileTypeFileDigs])

/-- Transcription of `fileEntry.IsDirectory`. -/
def fileEntry.IsDirectory (h : fileEntry) : Bool :=
  decide (h.FileType ∈ [FileTypeDirectory, FileTypeDirectoryPfs])

/-! ## `pkg/regfile.go` and the `Reader` of `pkg/reader.go` -/

/-- The struct `regFileReader`; its `r` is a `cipher.StreamReader` with stream `S` over
reader `R`. -/
structure regFileReader where
  S : CtrStream
  R : Tap
  nb : Int

/-- The struct `indexData`. -/
structure indexData where
  itemRecords : List fileEntry
  idx : Nat

/-- What the field `Reader.reader` denotes: one of the tee readers, or `aesReader`. -/
inductive ReaderRef
  | tap (t : Tap)
  | aes
  deriving DecidableEq, Repr

/-- The struct `Reader` once `setupDecryption` has created `aesReader`.  `rawReader` is
always the input `r` (`Tap.raw`), `hasher` is `world.hashed`, and the two buffers live
in `world`. -/
structure Reader where
  world : World
  reader : ReaderRef
  current : Option regFileReader
  pad : Int
  err : Option Err
  index : indexData
  pkgType : Nat
  aesReader : ctrStream
  FileHeader : FileHeader
  extendedHeader : ExtendedHeader
  meta : Metadata
  SfoEntries : List (List Nat × List Nat)
  rif : List Nat
  FileHash : List Nat
  CalculatedHash : List Nat

/-- Transcription of `regFileReader.Read` for a buffer of `k` bytes: the bytes returned,
the error, the updated reader and world.  The slice expression `b[0:rfr.nb]` panics for
a negative `nb`. -/
def regFileReader.Read (rfr : regFileReader) (w : World) (k : Nat) :
    Option (List Nat × Option Err × regFileReader × World) :=
  if rfr.nb = 0 then some ([], some Err.EOF, rfr, w)
  else if (k : Int) > rfr.nb ∧ rfr.nb < 0 then none
  else
    let k1 := if (k : Int) > rfr.nb then rfr.nb.toNat else k
    let r := w.read rfr.R false k1
    let x := rfr.S.xorKeyStream r.1
    let nb1 := rfr.nb - (r.1.length : Int)
    let err := if r.2.1 = some Err.EOF ∧ nb1 > 0 then some Err.ErrUnexpectedEOF else r.2.1
    some (x.1, err, { rfr with S := x.2, nb := nb1 }, r.2.2)

/-- Contract of `bytes.Compare(a, b)`: the lexicographic comparison, `-1`, `0` or `1`. -/
def bytesCompare : List Nat → List Nat → Int
  | [], [] => 0
  | [], _ :: _ => -1
  | _ :: _, [] => 1
  | a :: as, b :: bs => if a < b then -1 else if b < a then 1 else bytesCompare as bs

/-- Transcription of `Reader.Valid`. -/
def Reader.Valid (pr : Reader) : Bool := bytesCompare pr.CalculatedHash pr.FileHash == 0

/-! ## `pkg/file.go` -/

/-- Transcription of `Reader.Read` for a buffer of `k` bytes. -/
def Reader.Read (pr : Reader) (k : Nat) : Option (List Nat × Option Err × Reader) :=
  match pr.err with
  | some e => some ([], some e, pr)
  | none =>
    match pr.current with
    | none => some ([], some Err.EOF, pr)
    | some cur =>
      (cur.Read pr.world k).map fun r =>
        let pr1 := { pr with current := some r.2.2.1, world := r.2.2.2 }
        (r.1, r.2.1,
          if r.2.1 ≠ none ∧ r.2.1 ≠ some Err.EOF then { pr1 with err := r.2.1 } else pr1)

/-- Transcription of `Reader.numBytes`. -/
def Reader.numBytes (pr : Reader) : Int :=
  match pr.current with
  | none => 0
  | some cur => cur.nb

/-- The call `io.CopyN(ioutil.Discard, pr.reader, n)`: through `aesReader` the bytes
also advance its key stream. -/
def Reader.discard (pr : Reader) (n : Int) : Nat × Option Err × Reader :=
  match pr.reader with
  | ReaderRef.tap t =>
    let r := pr.world.copyN t false n
    (r.1, r.2.1, { pr with world := r.2.2 })
  | ReaderRef.aes =>
    let r := pr.world.copyN pr.aesReader.R false n
    (r.1, r.2.1,
      { pr with
        world := r.2.2
        aesReader := { pr.aesReader with
          stream := { pr.aesReader.stream with pos := pr.aesReader.stream.pos + r.1 } } })

/-- Transcription of `Reader.skipUnread`. -/
def Reader.skipUnread (pr : Reader) : Option Err × Reader :=
  let dataSkip := pr.numBytes
  let totalSkip := wrap64 (dataSkip + pr.pad)
  let r := ({ pr with current := none, pad := 0 } : Reader).discard totalSkip
  (if r.2.1 = some Err.EOF ∧ (r.1 : Int) < dataSkip then some Err.ErrUnexpectedEOF else r.2.1,
   r.2.2)

/-- Transcription of `Reader.readTail`. -/
def Reader.readTail (env : Env) (pr : Reader) : Option Err × Reader :=
  let t := pr.aesReader.R
  let pr1 := { pr with reader := ReaderRef.tap t }
  let tailOffset := wrap64 (pr.FileHeader.DataOffset + pr.FileHeader.DataSize)
  let tailSize := wrap64 (pr.FileHeader.TotalSize - tailOffset)
  let c := pr1.world.copyN t true (wrap64 (tailSize - 0x20))
  if c.2.1.isSome then (c.2.1, { pr1 with world := c.2.2 })
  else
    let pr2 := { pr1 with world := c.2.2, CalculatedHash := env.sha1 c.2.2.hashed }
    let f := pr2.world.readFull Tap.raw true 0x20
    if f.2.1.isSome then (f.2.1, { pr2 with world := f.2.2 })
    else (none, { pr2 with world := f.2.2, FileHash := f.1.take 20 })

/-- Transcription of `Reader.readNextEntry`; the lookup fails exactly when
`e.idx >= len(e.itemRecords)`. -/
def Reader.readNextEntry (env : Env) (pr : Reader) : Except Err fileEntry × Reader :=
  match pr.index.itemRecords[pr.index.idx]? with
  | none =>
    let r := pr.readTail env
    match r.1 with
    | some e => (Except.error e, r.2)
    | none => (Except.error Err.EOF, r.2)
  | some entry =>
    (Except.ok entry, { pr with index := { pr.index with idx := pr.index.idx + 1 } })

/-- Transcription of `Reader.handleRegularFile`; `none` is a panic (index out of range,
or `cipher.NewCTR` on a nil `entry.Key`). -/
def Reader.handleRegularFile (pr : Reader) (entry : fileEntry) :
    Option (Option Err × Reader) :=
  let nb := if entry.IsDirectory then 0 else entry.Size
  if nb < 0 then some (some Err.invalidPkgHeader, pr)
  else if pr.index.idx = 0 then none
  else
    match pr.index.itemRecords[pr.index.idx - 1]? with
    | none => none
    | some c =>
      let curr := c.Offset
      let next :=
        match pr.index.itemRecords[pr.index.idx]? with
        | some e => e.Offset
        | none => pr.FileHeader.DataSize
      match entry.Key.bind
          (fun key => NewCTR key pr.FileHeader.DataIV (Int.tdiv entry.Offset 16)) with
      | none => none
      | some r =>
        some (none,
          { pr with
            pad := wrap64 (wrap64 (next - curr) - entry.Size)
            current := some { S := r, R := pr.aesReader.R, nb := nb } })

/-- Transcription of `Reader.next`. -/
def Reader.next (env : Env) (pr : Reader) : Option (Except Err fileEntry × Reader) :=
  match pr.skipUnread.1 with
  | some e => some (Except.error e, pr.skipUnread.2)
  | none =>
    match (pr.skipUnread.2.readNextEntry env).1 with
    | Except.error e => some (Except.error e, (pr.skipUnread.2.readNextEntry env).2)
    | Except.ok entry =>
      match (pr.skipUnread.2.readNextEntry env).2.handleRegularFile entry with
      | none => none
      | some (some e, pr1) => some (Except.error e, pr1)
      | some (none, pr1) => some (Except.ok entry, pr1)

/-- Transcription of `Reader.Next`. -/
def Reader.Next (env : Env) (pr : Reader) : Option (Except Err fileEntry × Reader) :=
  match pr.err with
  | some e => some (Except.error e, pr)
  | none =>
    (pr.next env).map fun r =>
      (r.1, { r.2 with err := match r.1 with
                              | Except.error e => some e
                              | Except.ok _ => none })

/-! ## `pkg/entries.go`: reading the file index -/

/-- Contract of `aes.NewCipher(key)`: a key of 16, 24 or 32 bytes gives a cipher. -/
def NewCipher (env : Env) (key : List Nat) : Except Err Block :=
  if key.length = 16 ∨ key.length = 24 ∨ key.length = 32 then Except.ok (env.aes key)
  else Except.error (Err.keySize key.length)

/-- Reinterpretation of a `bits`-bit unsigned value as a two's-complement signed one. -/
def toSigned (bits : Nat) (v : Nat) : Int :=
  if v < 2 ^ (bits - 1) then (v : Int) else (v : Int) - 2 ^ bits

/-- Decoding of one 32-byte big-endian `ItemRecord` by `binary.Read`. -/
def parseItemRecord (b : List Nat) : ItemRecord :=
  { FilenameOffset := beToNat (b.take 4)
    FilenameSize := toSigned 32 (beToNat ((b.drop 4).take 4))
    DataOffset := toSigned 64 (beToNat ((b.drop 8).take 8))
    DataSize := toSigned 64 (beToNat ((b.drop 16).take 8))
    Flags := beToNat ((b.drop 24).take 4)
    Reserved := beToNat ((b.drop 28).take 4) }

/-- Decoding of `n` consecutive item records. -/
def parseItemRecords : Nat → List Nat → List ItemRecord
  | 0, _ => []
  | n + 1, b => parseItemRecord (b.take 32) :: parseItemRecords n (b.drop 32)

/-- The call `io.ReadFull(pr.reader, buf)` with `len(buf) = k`; through `aesReader` the
bytes are decrypted with its stream. -/
def Reader.readFullReader (pr : Reader) (k : Nat) : List Nat × Option Err × Reader :=
  match pr.reader with
  | ReaderRef.tap t =>
    let r := pr.world.readFull t false k
    (r.1, r.2.1, { pr with world := r.2.2 })
  | ReaderRef.aes =>
    let r := pr.world.readFull pr.aesReader.R false k
    let x := pr.aesReader.stream.xorKeyStream r.1
    (x.1, r.2.1, { pr with world := r.2.2, aesReader := { pr.aesReader with stream := x.2 } })

/-- The key choice inside the loop of `readFileIndex` (the local `ctr`); `ps3ctr` is nil
unless the extended header's key type is 1. -/
def selectKey (pkgType : Nat) (primary : Block) (ps3ctr : Option Block) (rec : ItemRecord) :
    Option Block :=
  if pkgType = PackageTypePSP ∨ pkgType = PackageTypePSOne then
    if rec.KeyType = EntryTypePSP then some primary else ps3ctr
  else some primary

/-- The loop `for idx, entry := range itemRecords` of `readFileIndex`.  Names are
decrypted in place in `tableBuffer`; `none` is a panic (slice bounds out of range, or
`cipher.NewCTR` on a nil cipher). -/
def buildEntries (pkgType : Nat) (primary : Block) (ps3ctr : Option Block) (iv : List Nat)
    (recordListSize : Int) : List ItemRecord → List Nat → Option (List fileEntry)
  | [], _ => some []
  | rec :: rest, tableBuffer =>
    let counter : Int := ((rec.FilenameOffset / 16 : Nat) : Int)
    let tableOffset : Int := (rec.FilenameOffset : Int) - recordListSize
    let hi : Int := tableOffset + rec.FilenameSize
    if tableOffset < 0 ∨ hi < tableOffset ∨ hi > (tableBuffer.length : Int) then none
    else
      let encryptedName := (tableBuffer.drop tableOffset.toNat).take (hi - tableOffset).toNat
      match selectKey pkgType primary ps3ctr rec with
      | none => none
      | some ctr =>
        match AESCTRDecrypt ctr encryptedName iv counter with
        | none => none
        | some name =>
          (buildEntries pkgType primary ps3ctr iv recordListSize rest
              (tableBuffer.take tableOffset.toNat ++ name ++ tableBuffer.drop hi.toNat)).map
            fun es =>
              { Name := name, Size := rec.DataSize, Offset := rec.DataOffset,
                Flags := rec.Flags, Key := some ctr } :: es

/-- The variable `ps3ctr` of `readFileIndex`: the cipher of `KeyPS3` when the extended
header's key type is 1, and nil otherwise. -/
def ps3Cipher (env : Env) (ext : ExtendedHeader) : Except Err (Option Block) :=
  if ext.KeyType = 1 then (NewCipher env env.KeyPS3).map some else Except.ok none

/-- Transcription of `Reader.readFileIndex`; `none` is a panic (`make` with a negative
length, `itemRecords[0]` on an empty slice, or a panic of the loop). -/
def Reader.readFileIndex (env : Env) (pr : Reader) :
    Option (Except Err (List fileEntry) × Reader) :=
  if pr.FileHeader.ItemCount < 0 then none
  else
    let n := pr.FileHeader.ItemCount.toNat
    let rd := pr.readFullReader (32 * n)
    match rd.2.1 with
    | some e => some (Except.error e, rd.2.2)
    | none =>
      let itemRecords := parseItemRecords n rd.1
      let pr1 := rd.2.2
      let recordListSize : Int := ((32 * n : Nat) : Int)
      match itemRecords[0]? with
      | none => none
      | some r0 =>
        let tableSize := wrap64 (r0.DataOffset - (r0.FilenameOffset : Int))
        if tableSize < 0 then none
        else
          let rt := pr1.world.readFull pr1.aesReader.R false tableSize.toNat
          match rt.2.1 with
          | some e => some (Except.error e, { pr1 with world := rt.2.2 })
          | none =>
            match NewCTR pr1.aesReader.block pr1.aesReader.iv
                (Int.tdiv (wrap64 (recordListSize + tableSize)) 16) with
            | none => none
            | some st =>
              let pr2 := { pr1 with world := rt.2.2
                                    aesReader := { pr1.aesReader with stream := st } }
              match ps3Cipher env pr.extendedHeader with
              | Except.error e => some (Except.error e, pr2)
              | Except.ok ps3ctr =>
                match buildEntries pr.pkgType pr2.aesReader.block ps3ctr
                    pr.FileHeader.DataIV recordListSize itemRecords rt.1 with
                | none => none
                | some entries => some (Except.ok entries, pr2)

/-- The last statements of `init` after `readFileIndex` returned `entries`: the index is
installed at position 0 and `aesReader` is re-attached to `hashReader`. -/
def Reader.installIndex (pr : Reader) (entries : List fileEntry) : Reader :=
  { pr with index := { itemRecords := entries, idx := 0 }
            aesReader := { pr.aesReader with R := Tap.hash } }

/-! ## `pkg/sfo.go` -/

/-- Two's-complement wrap into the range of Go's `int32`. -/
def wrap32 (x : Int) : Int := (x + 2 ^ 31) % 2 ^ 32 - 2 ^ 31

/-- Value of a byte string read as a little-endian unsigned integer. -/
def leToNat (l : List Nat) : Nat := beToNat l.reverse

/-- The map `SfoEntries`, as an association list from key bytes to value bytes. -/
abbrev SfoMap := List (List Nat × List Nat)

/-- The map assignment `m[key] = value`. -/
def SfoMap.set : SfoMap → List Nat → List Nat → SfoMap
  | [], key, value => [(key, value)]
  | (k, v) :: rest, key, value =>
    if k = key then (key, value) :: rest else (k, v) :: SfoMap.set rest key value

/-- The map lookup `m[key]`, the empty string when the key is absent. -/
def SfoMap.get : SfoMap → List Nat → List Nat
  | [], _ => []
  | (k, v) :: rest, key => if k = key then v else SfoMap.get rest key

/-- The lookup `v, ok := m[key]`: `none` when the key is absent. -/
def SfoMap.lookup : SfoMap → List Nat → Option (List Nat)
  | [], _ => none
  | (k, v) :: rest, key => if k = key then some v else SfoMap.lookup rest key

/-- The struct `sfoIndexTableEntry`. -/
structure sfoIndexTableEntry where
  KeyOffset : Nat
  ParamFormat : Nat
  ParamLength : Nat
  ParamMaxLength : Nat
  DataOffset : Nat
  deriving DecidableEq, Repr

def utf8Special : Nat := 0x0004
def utf8 : Nat := 0x0204
def integer : Nat := 0x0404

def sfoMagic : List Nat := [0x00, 0x50, 0x53, 0x46]

/-- Decoding of one 16-byte little-endian `sfoIndexTableEntry`. -/
def parseSfoIndexEntry (b : List Nat) : sfoIndexTableEntry :=
  { KeyOffset := leToNat (b.take 2)
    ParamFormat := leToNat ((b.drop 2).take 2)
    ParamLength := leToNat ((b.drop 4).take 4)
    ParamMaxLength := leToNat ((b.drop 8).take 4)
    DataOffset := leToNat ((b.drop 12).take 4) }

/-- Decoding of `n` consecutive index entries. -/
def parseSfoIndex : Nat → List Nat → List sfoIndexTableEntry
  | 0, _ => []
  | n + 1, b => parseSfoIndexEntry (b.take 16) :: parseSfoIndex n (b.drop 16)

/-- The slice expression `s[lo:hi]` on a slice whose capacity is its length; `none` is
the panic "slice bounds out of range". -/
def sliceOf (s : List Nat) (lo hi : Int) : Option (List Nat) :=
  if lo < 0 ∨ hi < lo ∨ (s.length : Int) < hi then none
  else some ((s.drop lo.toNat).take (hi - lo).toNat)

/-- Contract of `bytes.IndexByte(b, 0)`: the index of the first zero byte, or `-1`. -/
def indexZero (b : List Nat) : Int :=
  match b.indexOf? 0 with
  | some i => (i : Int)
  | none => -1

/-- The key of an index entry: `keys[KeyOffset : int(KeyOffset)+n]` with
`n = bytes.IndexByte(keys[KeyOffset:], 0)`. -/
def sfoKey (keys : List Nat) (entry : sfoIndexTableEntry) : Option (List Nat) :=
  (sliceOf keys entry.KeyOffset keys.length).bind fun tail =>
    sliceOf keys entry.KeyOffset ((entry.KeyOffset : Int) + indexZero tail)

/-- Decimal rendering of `strconv.Itoa` for a non-negative value, as bytes. -/
def itoa (v : Nat) : List Nat := (Nat.toDigits 10 v).map Char.toNat

/-- The loop `for _, entry := range index` of `readSFO`; `none` is a panic. -/
def sfoEntriesLoop (keys values : List Nat) :
    List sfoIndexTableEntry → SfoMap → Option SfoMap
  | [], m => some m
  | entry :: rest, m =>
    if entry.ParamFormat = utf8Special then
      (sfoKey keys entry).bind fun key =>
        (sliceOf values entry.DataOffset
            (((entry.DataOffset + entry.ParamLength) % 2 ^ 32 : Nat) : Int)).bind fun value =>
          sfoEntriesLoop keys values rest (m.set key value)
    else if entry.ParamFormat = utf8 then
      (sfoKey keys entry).bind fun key =>
        (sliceOf values entry.DataOffset
            (((entry.DataOffset + entry.ParamLength + (2 ^ 32 - 1)) % 2 ^ 32 : Nat) : Int)).bind
          fun value => sfoEntriesLoop keys values rest (m.set key value)
    else if entry.ParamFormat = integer then
      (sfoKey keys entry).bind fun key =>
        (sliceOf values entry.DataOffset
            (((entry.DataOffset + entry.ParamLength) % 2 ^ 32 : Nat) : Int)).bind fun value =>
          if value.length < 4 then none
          else sfoEntriesLoop keys values rest (m.set key (itoa (leToNat (value.take 4))))
    else sfoEntriesLoop keys values rest m

/-- Result of `readSFO`: the count `n`, the error, the value of `pr.SfoEntries`
afterwards and the world. -/
structure SfoResult where
  n : Int
  err : Option Err
  entries : SfoMap
  world : World

/-- Transcription of `Reader.readSFO(r)` for a reader `r` that takes its bytes through
tap `t` of `w`; `old` is `pr.SfoEntries` before the call.  `none` is a panic (`make` with
a negative length, `index[len(index)-1]` on an empty slice, or a panic of the loop). -/
def readSFO (w : World) (t : Tap) (old : SfoMap) : Option SfoResult :=
  let h := w.readFull t false 20
  match h.2.1 with
  | some e => some ⟨0, some e, old, h.2.2⟩
  | none =>
    let magic := h.1.take 4
    let keyTableOffset := toSigned 32 (leToNat ((h.1.drop 8).take 4))
    let dataTableOffset := toSigned 32 (leToNat ((h.1.drop 12).take 4))
    let indexTableEntries := toSigned 32 (leToNat ((h.1.drop 16).take 4))
    if magic ≠ sfoMagic then some ⟨20, some Err.invalidSFO, old, h.2.2⟩
    else if indexTableEntries < 0 then none
    else
      let i := h.2.2.readFull t false (16 * indexTableEntries.toNat)
      match i.2.1 with
      | some e => some ⟨20, some e, old, i.2.2⟩
      | none =>
        let index := parseSfoIndex indexTableEntries.toNat i.1
        let n1 : Int := 20 + ((16 * indexTableEntries.toNat : Nat) : Int)
        let keysLen := wrap32 (dataTableOffset - keyTableOffset)
        if keysLen < 0 then none
        else
          let k := i.2.2.readFull t false keysLen.toNat
          match k.2.1 with
          | some e => some ⟨n1, some e, old, k.2.2⟩
          | none =>
            let n2 := n1 + keysLen
            match index.getLast? with
            | none => none
            | some last =>
              let valuesSize := (last.DataOffset + last.ParamMaxLength) % 2 ^ 32
              let v := k.2.2.readFull t false valuesSize
              match v.2.1 with
              | some e => some ⟨n2, some e, old, v.2.2⟩
              | none =>
                (sfoEntriesLoop k.1 v.1 index []).map fun m =>
                  ⟨n2 + (valuesSize : Int), none, m, v.2.2⟩

/-! ## `pkg/headers.go`: the accessors of `FileHeader` -/

/-- Transcription of `FileHeader.GetContentID`: `string(h.ContentID[:])`. -/
def FileHeader.GetContentID (h : FileHeader) : List Nat := h.ContentID

/-- Transcription of `FileHeader.GetTitleID`: `string(h.ContentID[7:16])`. -/
def FileHeader.GetTitleID (h : FileHeader) : Option (List Nat) := sliceOf h.ContentID 7 16

/-- Transcription of `FileHeader.GetContentName`: `h.GetContentID()[20:]`. -/
def FileHeader.GetContentName (h : FileHeader) : Option (List Nat) :=
  sliceOf h.GetContentID 20 h.GetContentID.length

/-! ## `pkg/reader.go`: `init` and its helpers -/

def IdentifierDRMType : Nat := 0x1
def IdentifierContentType : Nat := 0x2
def IdentifierPackageFlags : Nat := 0x3
def IdentifierFileIndexInfo : Nat := 0xd
def IdentifierSFO : Nat := 0xe

def ContentTypePS1 : Nat := 0x6
def ContentTypePSP : Nat := 0x7
def ContentTypePSPGo : Nat := 0xe
def ContentTypeMinis : Nat := 0xf
def ContentTypeNeoGeo : Nat := 0x10
def ContentTypeVitaApp : Nat := 0x15
def ContentTypeVitaDLC : Nat := 0x16
def ContentTypePSM1 : Nat := 0x18
def ContentTypePSM2 : Nat := 0x1c

/-- The variable `fileHeader` (the PKG magic). -/
def fileHeaderMagic : List Nat := [0x7F, 0x50, 0x4B, 0x47]

/-- The variable `extHeader` (the extended-header magic). -/
def extHeaderMagic : List Nat := [0x7F, 0x65, 0x78, 0x74]

/-- Bytes `[lo, lo + len)` of `b`. -/
def field (b : List Nat) (lo len : Nat) : List Nat := (b.drop lo).take len

/-- Decoding of the 192-byte big-endian `FileHeader` by `binary.Read`. -/
def parseFileHeader (b : List Nat) : FileHeader :=
  { Magic := field b 0 4
    Revision := beToNat (field b 4 2)
    Type_ := beToNat (field b 6 2)
    InfoOffset := toSigned 32 (beToNat (field b 8 4))
    InfoCount := toSigned 32 (beToNat (field b 12 4))
    HeaderSize := toSigned 32 (beToNat (field b 16 4))
    ItemCount := toSigned 32 (beToNat (field b 20 4))
    TotalSize := toSigned 64 (beToNat (field b 24 8))
    DataOffset := toSigned 64 (beToNat (field b 32 8))
    DataSize := toSigned 64 (beToNat (field b 40 8))
    ContentID := field b 48 36
    Digest := field b 96 16
    DataIV := field b 112 16
    HeaderCmacHash := field b 128 16
    HeaderNpdrmSignature := field b 144 40
    HeaderSha1Hash := field b 184 8 }

/-- Decoding of the 64-byte big-endian `ExtendedHeader` by `binary.Read`. -/
def parseExtendedHeader (b : List Nat) : ExtendedHeader :=
  { Magic := field b 0 4
    Unknown1 := beToNat (field b 4 4)
    HeaderSize := toSigned 32 (beToNat (field b 8 4))
    DataSize := toSigned 32 (beToNat (field b 12 4))
    DataOffset := toSigned 32 (beToNat (field b 16 4))
    DataType := beToNat (field b 20 4)
    PkgDataSize := toSigned 64 (beToNat (field b 24 8))
    DataType2 := beToNat (field b 36 4)
    Unknown2 := beToNat (field b 40 4) }

/-- Transcription of `Reader.seekAhead(cur, offset)` while `pr.reader` is the reader `t`:
the returned `pos` (zero on an error), the error and the world. -/
def seekAhead (w : World) (t : Tap) (cur offset : Int) : Int × Option Err × World :=
  let count := wrap64 (offset - cur)
  if count < 0 then (0, some Err.seekBehind, w)
  else if count = 0 then (wrap64 (cur + count), none, w)
  else
    let c := w.copyN t false count
    match c.2.1 with
    | some e => (0, some e, c.2.2)
    | none => (wrap64 (cur + count), none, c.2.2)

/-- Decoding of `n` big-endian `uint32` words. -/
def parseWords : Nat → List Nat → List Nat
  | 0, _ => []
  | n + 1, b => beToNat (b.take 4) :: parseWords n (b.drop 4)

/-- The `switch info.Type` of `readMetadata`; `none` is the panic of indexing `buf`
out of range. -/
def applyInfo (meta : Metadata) (type : Nat) (buf : List Nat) : Option Metadata :=
  if type = IdentifierDRMType then
    buf[0]?.map fun v => { meta with DrmType := v }
  else if type = IdentifierContentType then
    buf[0]?.map fun v => { meta with ContentType := v }
  else if type = IdentifierPackageFlags then
    buf[0]?.map fun v => { meta with PackageFlags := v }
  else if type = IdentifierFileIndexInfo then
    buf[0]?.bind fun v0 => buf[1]?.map fun v1 =>
      { meta with IndexTableOffset := v0, IndexTableSize := v1 }
  else if type = IdentifierSFO then
    buf[0]?.bind fun v0 => buf[1]?.map fun v1 => { meta with SfoOffset := v0, SfoSize := v1 }
  else some meta

/-- Result of `readMetadata`: the position, the error, the metadata and the world. -/
structure MetaResult where
  pos : Int
  err : Option Err
  meta : Metadata
  world : World

/-- The loop `for i := 0; i < int(pr.FileHeader.InfoCount); i++` of `readMetadata`, with
the number of iterations still to run. -/
def readMetadataLoop : Nat → World → Int → Metadata → Option MetaResult
  | 0, w, pos, meta => some ⟨pos, none, meta, w⟩
  | n + 1, w, pos, meta =>
    let h := w.readFull Tap.headHash false 8
    match h.2.1 with
    | some e => some ⟨pos, some e, meta, h.2.2⟩
    | none =>
      let type := beToNat (h.1.take 4)
      let size := toSigned 32 (beToNat ((h.1.drop 4).take 4))
      let pos1 := wrap64 (pos + 8)
      if size > 0 then
        let words := (Int.tdiv size 4).toNat
        let b := h.2.2.readFull Tap.headHash false (4 * words)
        match b.2.1 with
        | some e => some ⟨pos1, some e, meta, b.2.2⟩
        | none =>
          (applyInfo meta type (parseWords words b.1)).bind fun meta1 =>
            readMetadataLoop n b.2.2 (wrap64 (pos1 + size)) meta1
      else
        (applyInfo meta type []).bind fun meta1 => readMetadataLoop n h.2.2 pos1 meta1

/-- Transcription of `Reader.readMetadata(cur)`. -/
def readMetadata (w : World) (fh : FileHeader) (meta : Metadata) (cur : Int) :
    Option MetaResult :=
  let s := seekAhead w Tap.headHash cur fh.InfoOffset
  match s.2.1 with
  | some e => some ⟨s.1, some e, meta, s.2.2⟩
  | none => readMetadataLoop fh.InfoCount.toNat s.2.2 s.1 meta

/-- The bytes of an ASCII string literal. -/
def str (s : String) : List Nat := s.toList.map Char.toNat

/-- The `switch pr.meta.ContentType` of `setupDecryption`; the case `ContentTypePSM1` has
an empty body and leaves `pkgType` at its zero value. -/
def pkgTypeOfContent (contentType : Nat) : Except Err Nat :=
  if contentType = ContentTypePS1 then Except.ok PackageTypePSOne
  else if contentType = ContentTypePSP ∨ contentType = ContentTypePSPGo ∨
      contentType = ContentTypeMinis ∨ contentType = ContentTypeNeoGeo then
    Except.ok PackageTypePSP
  else if contentType = ContentTypeVitaApp then Except.ok PackageTypeVitaApp
  else if contentType = ContentTypeVitaDLC then Except.ok PackageTypeVitaDLC
  else if contentType = ContentTypePSM1 then Except.ok 0
  else if contentType = ContentTypePSM2 then Except.ok PackageTypePSM
  else Except.error Err.unsupportedPackageType

/-- The first 16 bytes of `l`, zero-padded: the block that `Block.Encrypt` writes. -/
def fit16 (l : List Nat) : List Nat := (l ++ List.replicate 16 0).take 16

/-- The CTR key chosen by `setupDecryption`: `KeyPSP` for key type 1, the AES-ECB
encryption of the IV under the base key for key types 2, 3 and 4 (`AESECBEncrypt`). -/
def ctrKeyOf (env : Env) (keyType : Nat) (iv : List Nat) : Except Err (List Nat) :=
  if keyType = 1 then Except.ok env.KeyPSP
  else
    (if keyType = 2 then Except.ok env.VitaKey2
     else if keyType = 3 then Except.ok env.KeyVita3
     else if keyType = 4 then Except.ok env.KeyVita4
     else Except.error (Err.unknownKeyType keyType)).bind fun baseKey =>
      (NewCipher env baseKey).map fun c => fit16 (c.encrypt (iv.take 16))

/-- Transcription of `Reader.setupDecryption`: from the state read so far to the `Reader`
with its `aesReader`; `none` is a panic of `cipher.NewCTR`. -/
def setupDecryption (env : Env) (w : World) (fh : FileHeader) (ext : ExtendedHeader)
    (meta : Metadata) (sfo : SfoMap) : Option (Except Err Reader) :=
  match pkgTypeOfContent meta.ContentType with
  | Except.error e => some (Except.error e)
  | Except.ok pkgType0 =>
    let pkgType :=
      if pkgType0 = PackageTypeVitaApp ∧ sfo.get (str "CATEGORY") = str "gp"
      then PackageTypeVitaPatch else pkgType0
    match ctrKeyOf env ext.KeyType fh.DataIV with
    | Except.error e => some (Except.error e)
    | Except.ok ctrKey =>
      match NewCipher env ctrKey with
      | Except.error e => some (Except.error e)
      | Except.ok block =>
        (NewCTR block fh.DataIV 0).map fun stream =>
          Except.ok
            { world := w, reader := ReaderRef.aes, current := none, pad := 0, err := none,
              index := { itemRecords := [], idx := 0 }, pkgType := pkgType,
              aesReader := { block := block, stream := stream, R := Tap.headHash,
                             iv := fh.DataIV },
              FileHeader := fh, extendedHeader := ext, meta := meta, SfoEntries := sfo,
              rif := [], FileHash := [], CalculatedHash := [] }

/-! ## `pkg/license.go` and the `compress/zlib` container it uses -/

/-- The function `adler32.Checksum`. -/
def adler32 (l : List Nat) : Nat :=
  let s := l.foldl
    (fun (ab : Nat × Nat) x => ((ab.1 + x) % 65521, (ab.2 + (ab.1 + x) % 65521) % 65521)) (1, 0)
  s.2 * 65536 + s.1

/-- Contract of `zlib.NewWriterLevelDict(&b, zlib.BestCompression, dict)`, `Write(data)`
and `Close()`: the bytes left in `b` are the two header bytes (`0x78`, then `FLEVEL = 3`
and `FDICT = 1` with the check bits), the Adler-32 checksum of the dictionary, the
compressed data and the Adler-32 checksum of the data. -/
def zlibCompress (env : Env) (dict data : List Nat) : List Nat :=
  let c0 := 0x78
  let c1 := (3 <<< 6) ||| (1 <<< 5)
  let c1 := (c1 + (31 - (c0 * 256 + c1) % 31)) % 256
  [c0, c1] ++ natToBE 4 (adler32 dict) ++ env.deflate dict data ++ natToBE 4 (adler32 data)

/-- Contract of `zlib.NewReaderDict(bytes.NewReader(data), dict)` followed by
`ioutil.ReadAll`: the header must name the method 8 with a window of at most 2^15 and
have check bits that make it a multiple of 31; with `FDICT` set the next four bytes must
be the checksum of `dict`; the decompressed data must be followed by its checksum. -/
def zlibDecompress (env : Env) (dict data : List Nat) : Except Err (List Nat) :=
  match data with
  | c0 :: c1 :: s1 =>
    if c0 &&& 0x0f ≠ 8 ∨ c0 >>> 4 > 7 ∨ (c0 <<< 8 ||| c1) % 31 ≠ 0 then
      Except.error Err.zlibHeader
    else
      let haveDict : Bool := c1 &&& 0x20 ≠ 0
      if haveDict ∧ s1.length < 4 then Except.error Err.ErrUnexpectedEOF
      else if haveDict ∧ beToNat (s1.take 4) ≠ adler32 dict then
        Except.error Err.zlibDictionary
      else
        match env.inflate (if haveDict then some dict else none)
            (if haveDict then s1.drop 4 else s1) with
        | Except.error e => Except.error e
        | Except.ok (out, rest) =>
          if rest.length < 4 then Except.error Err.ErrUnexpectedEOF
          else if beToNat (rest.take 4) ≠ adler32 out then Except.error Err.zlibChecksum
          else Except.ok out
  | _ => Except.error Err.ErrUnexpectedEOF

/-- Transcription of `licenseSize`; a `PackageType` is a Go `int`. -/
def licenseSize (pkgType : Int) : Nat :=
  if pkgType = PackageTypePSM then 1024
  else if pkgType = PackageTypeVitaApp ∨ pkgType = PackageTypeVitaDLC ∨
      pkgType = PackageTypeVitaPatch then 512
  else 0

/-- Transcription of `DecodeLicense(src, pkgType)`. -/
def DecodeLicense (env : Env) (src : List Nat) (pkgType : Int) : Except Err (List Nat) :=
  match env.base64Decode src with
  | Except.error e => Except.error e
  | Except.ok data =>
    match zlibDecompress env env.rifDict data with
    | Except.error e => Except.error e
    | Except.ok lic =>
      if pkgType > 0 ∧ lic.length ≠ licenseSize pkgType then
        Except.error Err.invalidLicenseLength
      else Except.ok lic

/-- The header fix of `EncodeLicense`: the slice `compressedDict` after the assignments
to its first two bytes (`uint8` and `uint16` arithmetic); `none` is the panic of an index
out of range. -/
def fixHeader (compressedDict : List Nat) : Option (List Nat) :=
  if compressedDict.length < 2 then none
  else
    let c0 := 8
    let c0 := c0 ||| ((2 <<< 4) % 256)
    let c1 := (3 <<< 6) % 256
    let c1 := c1 ||| ((1 <<< 5) % 256)
    let c1 := (c1 + (31 - ((c0 <<< 8) % 65536 + c1) % 65536 % 31) % 256) % 256
    some ((compressedDict.set 0 c0).set 1 c1)

/-- The zlib stream that `EncodeLicense(data)` hands to Base64: the compressed license
with its header fixed. -/
def encodeLicenseStream (env : Env) (data : List Nat) : Option (List Nat) :=
  fixHeader (zlibCompress env env.rifDict data)

/-- Transcription of `EncodeLicense(data)`: the level `zlib.BestCompression` is valid and
a `bytes.Buffer` takes every write, so no error is returned. -/
def EncodeLicense (env : Env) (data : List Nat) : Option (Except Err (List Nat)) :=
  (encodeLicenseStream env data).map fun s => Except.ok (env.base64Encode s)

/-! ## `pkg/reader.go`: the license check and `init` -/

/-- Transcription of `Reader.rifContentID`.  `pr.rif` is the slice that `ioutil.ReadAll`
returned in `DecodeLicense`: its capacity is at least 512 and the bytes between its length
and its capacity are zero.  A slice expression on a slice is bounded by the capacity, not
by the length, so `pr.rif[offset:offset+36]` (where `offset + 36` is at most 116) does not
panic: behind the end of a license shorter than `offset + 36` bytes it reads zeros. -/
def rifContentID (rif : List Nat) (pkgType : Nat) : List Nat :=
  let offset := if pkgType = PackageTypePSM then 0x50 else 0x10
  ((rif ++ List.replicate (512 - rif.length) 0).drop offset).take 36

/-- The license check of `init`. -/
def checkLicense (env : Env) (pr : Reader) (rif : List Nat) : Option (Except Err Reader) :=
  if rif.length > 0 ∧ pr.pkgType ≠ PackageTypePSOne ∧ pr.pkgType ≠ PackageTypePSP then
    match DecodeLicense env rif pr.pkgType with
    | Except.error e => some (Except.error e)
    | Except.ok lic =>
      if rifContentID lic pr.pkgType ≠ pr.FileHeader.ContentID then
        some (Except.error Err.licenseMismatch)
      else some (Except.ok { pr with rif := lic })
  else some (Except.ok pr)

/-- The part of `init` from `readMetadata` to `setupDecryption`, on the world `w` in which
both headers have been read. -/
def initBody (env : Env) (w : World) (fh : FileHeader) (ext : ExtendedHeader) :
    Option (Except Err Reader) :=
  (readMetadata w fh ⟨0, 0, 0, 0, 0, 0, 0⟩ (192 + 64)).bind fun m =>
    match m.err with
    | some e => some (Except.error e)
    | none =>
      let afterSfo : Option (Except Err (Int × SfoMap × World)) :=
        if m.meta.SfoOffset > 0 ∧ m.meta.SfoSize > 0 then
          let s := seekAhead m.world Tap.headHash m.pos m.meta.SfoOffset
          (readSFO s.2.2 Tap.headHash []).map fun r =>
            match r.err with
            | some e => Except.error e
            | none => Except.ok (wrap64 (s.1 + r.n), r.entries, r.world)
        else some (Except.ok (m.pos, [], m.world))
      afterSfo.bind fun a =>
        match a with
        | Except.error e => some (Except.error e)
        | Except.ok (cur, sfo, w1) =>
          let s := seekAhead w1 Tap.headHash cur fh.DataOffset
          setupDecryption env s.2.2 fh ext m.meta sfo

/-- Transcription of `Reader.init(r, rif)` on the input `src`; `none` is a panic. -/
def init (env : Env) (src : Source) (rif : List Nat) : Option (Except Err Reader) :=
  let w0 : World := { src := src, hashed := [], headBuffer := [], tailBuffer := [] }
  let h := w0.readFull Tap.headHash false 192
  match h.2.1 with
  | some e => some (Except.error e)
  | none =>
    let fh := parseFileHeader h.1
    if fh.Magic ≠ fileHeaderMagic then some (Except.error Err.invalidPKG)
    else if fh.HeaderSize ≤ 192 then some (Except.error Err.noExtendedHeader)
    else if fh.ItemCount = 0 then some (Except.error Err.noItems)
    else
      let x := h.2.2.readFull Tap.headHash false 64
      match x.2.1 with
      | some e => some (Except.error e)
      | none =>
        let ext := parseExtendedHeader x.1
        if ext.Magic ≠ extHeaderMagic then some (Except.error Err.invalidExtHeader)
        else
          (initBody env x.2.2 fh ext).bind fun r =>
            match r with
            | Except.error e => some (Except.error e)
            | Except.ok pr =>
              (checkLicense env pr rif).bind fun r1 =>
                match r1 with
                | Except.error e => some (Except.error e)
                | Except.ok pr1 =>
                  (pr1.readFileIndex env).map fun r2 =>
                    match r2.1 with
                    | Except.error e => Except.error e
                    | Except.ok entries => Except.ok (r2.2.installIndex entries)

/-! ## `pkg/writer.go` and `pkg/unpack.go` -/

/-- An `io.Reader` seen from its user: a state and the `Read` method on it (`none` is a
panic). -/
structure IOReader (ρ : Type) where
  read : ρ → Nat → Option (List Nat × Option Err × ρ)

/-- The interface `pkgWriter` with sink state `σ`.  `CreateFile` receives the body as an
`io.Reader` of any state type, so it can only `Read` from it; `none` is a panic. -/
structure pkgWriter (σ : Type) where
  CreateDir : σ → List Nat → Option Err × σ
  CreateFile : (ρ : Type) → IOReader ρ → σ → List Nat → ρ → Option (Option Err × σ × ρ)

/-- The `Reader` itself used as an `io.Reader`. -/
def readerIO : IOReader Reader := ⟨fun pr k => pr.Read k⟩

/-- The reader `io.TeeReader(pr, &sfo)` of `loadSFO`: the `Reader` and the buffer `sfo`. -/
def teeIO : IOReader (Reader × List Nat) :=
  ⟨fun s k => (s.1.Read k).map fun r => (r.1, r.2.1, (r.2.2, s.2 ++ r.1))⟩

/-- A `bytes.Buffer` used as an `io.Reader`: reading drains it. -/
def bufferIO : IOReader (List Nat) :=
  ⟨fun b k =>
    if b.isEmpty then some ([], if k = 0 then none else some Err.EOF, b)
    else some (b.take k, none, b.drop k)⟩

/-- A `bytes.Reader` used as an `io.Reader`. -/
def bytesReaderIO : IOReader (List Nat) :=
  ⟨fun b k =>
    if b.isEmpty then some ([], some Err.EOF, b)
    else some (b.take k, none, b.drop k)⟩

/-- Transcription of `loadSFO(w, pr, entry)`: the error of `CreateFile` is overwritten by
the result of `readSFO` on the teed copy. -/
def loadSFO {σ : Type} (w : pkgWriter σ) (sink : σ) (pr : Reader) (entry : fileEntry) :
    Option (Option Err × σ × Reader) :=
  (w.CreateFile (Reader × List Nat) teeIO sink entry.Name (pr, [])).bind fun c =>
    (readSFO { src := { data := c.2.2.2, fin := Err.EOF }, hashed := [], headBuffer := [],
               tailBuffer := [] } Tap.raw c.2.2.1.SfoEntries).map fun r =>
      (r.err, c.2.1, { c.2.2.1 with SfoEntries := r.entries })

/-- The statements of `unpackLoop` after the `for` loop. -/
def unpackTrailer {σ : Type} (w : pkgWriter σ) (sink : σ) (pr : Reader) :
    Option (Option Err × σ × Reader) :=
  if pr.pkgType ≠ PackageTypeVitaDLC ∧ pr.pkgType ≠ PackageTypeVitaApp ∧
      pr.pkgType ≠ PackageTypeVitaPatch then some (none, sink, pr)
  else
    match w.CreateDir sink (str "sce_sys/package") with
    | (some e, s1) => some (some e, s1, pr)
    | (none, s1) =>
      (w.CreateFile (List Nat) bufferIO s1 (str "sce_sys/package/head.bin")
          pr.world.headBuffer).bind fun h =>
        let pr1 := { pr with world := { pr.world with headBuffer := h.2.2 } }
        match h.1 with
        | some e => some (some e, h.2.1, pr1)
        | none =>
          (w.CreateFile (List Nat) bufferIO h.2.1 (str "sce_sys/package/tail.bin")
              pr1.world.tailBuffer).bind fun t =>
            let pr2 := { pr1 with world := { pr1.world with tailBuffer := t.2.2 } }
            match t.1 with
            | some e => some (some e, t.2.1, pr2)
            | none =>
              (w.CreateFile (List Nat) bytesReaderIO t.2.1 (str "sce_sys/package/work.bin")
                  pr2.rif).map fun k => (k.1, k.2.1, pr2)

/-- Transcription of `Reader.unpackLoop(w)`; the first argument bounds the number of
iterations of the `for` loop, and `none` is a panic or an exhausted bound. -/
def unpackLoop {σ : Type} (env : Env) (w : pkgWriter σ) :
    Nat → σ → Reader → Option (Option Err × σ × Reader)
  | 0, _, _ => none
  | fuel + 1, sink, pr =>
    match pr.Next env with
    | none => none
    | some (Except.error e, pr1) =>
      if e = Err.EOF then unpackTrailer w sink pr1 else some (some e, sink, pr1)
    | some (Except.ok entry, pr1) =>
      if entry.IsDirectory then
        match w.CreateDir sink entry.Name with
        | (some e, s1) => some (some e, s1, pr1)
        | (none, s1) => unpackLoop env w fuel s1 pr1
      else if entry.IsFile then
        match (if (str "PARAM.SFO").isSuffixOf entry.Name ∧ pr1.SfoEntries.length = 0
               then loadSFO w sink pr1 entry
               else w.CreateFile Reader readerIO sink entry.Name pr1) with
        | none => none
        | some (some e, s1, pr2) => some (some e, s1, pr2)
        | some (none, s1, pr2) => unpackLoop env w fuel s1 pr2
      else some (some Err.unknownFile, sink, pr1)

/-! ## A client of the streaming interface -/

/-- A call a client can make on a `Reader`. -/
inductive Call
  | Next
  | Read (k : Nat)

/-- What a call returns: `Next` an entry or an error, `Read` bytes and possibly an error. -/
inductive Ret
  | entry (r : Except Err fileEntry)
  | bytes (b : List Nat) (err : Option Err)

/-- The error value a call returned (`none` is a nil error). -/
def Ret.err : Ret → Option Err
  | Ret.entry (Except.error e) => some e
  | Ret.entry (Except.ok _) => none
  | Ret.bytes _ err => err

/-- Number of bytes a call returned. -/
def Ret.count : Ret → Nat
  | Ret.entry _ => 0
  | Ret.bytes b _ => b.length

/-- What a call returns once the error `e` is latched. -/
def Call.latched (e : Err) : Call → Ret
  | Call.Next => Ret.entry (Except.error e)
  | Call.Read _ => Ret.bytes [] (some e)

/-- Perform one call. -/
def Reader.call (env : Env) (pr : Reader) : Call → Option (Ret × Reader)
  | Call.Next => (pr.Next env).map fun r => (Ret.entry r.1, r.2)
  | Call.Read k => (pr.Read k).map fun r => (Ret.bytes r.1 r.2.1, r.2.2)

/-- Perform a sequence of calls, collecting what they return. -/
def Reader.calls (env : Env) (pr : Reader) : List Call → Option (List Ret × Reader)
  | [] => some ([], pr)
  | c :: cs =>
    match pr.call env c with
    | none => none
    | some (r, pr1) =>
      match pr1.calls env cs with
      | none => none
      | some (rs, pr2) => some (r :: rs, pr2)

/-! ## Small concrete readers used to exercise the definitions -/

/-- A toy block "cipher" (the identity) for concrete runs. -/
def exBlock : Block := ⟨id⟩

/-- A toy environment for concrete runs: the "hash" is the list of hashed bytes itself,
"Base64" is the identity and a "compressed" stream is the data behind its length. -/
def exEnv : Env :=
  { sha1 := id, aes := fun _ => exBlock, KeyPS3 := List.replicate 16 0,
    KeyPSP := List.replicate 16 0, VitaKey2 := List.replicate 16 0,
    KeyVita3 := List.replicate 16 0, KeyVita4 := List.replicate 16 0,
    base64Encode := id, base64Decode := fun l => Except.ok l, rifDict := [1, 2, 3],
    deflate := fun _ data => data.length :: data,
    inflate := fun _ l =>
      match l with
      | [] => Except.error (Err.zrif 0)
      | n :: rest =>
        if n ≤ rest.length then Except.ok (rest.take n, rest.drop n)
        else Except.error Err.ErrUnexpectedEOF }

/-- A file header with the given sizes and an all-zero IV. -/
def exFileHeader (itemCount totalSize dataOffset dataSize : Int) : FileHeader :=
  { Magic := [0x7F, 0x50, 0x4B, 0x47], Revision := 0, Type_ := 0, InfoOffset := 0,
    InfoCount := 0, HeaderSize := 256, ItemCount := itemCount, TotalSize := totalSize,
    DataOffset := dataOffset, DataSize := dataSize, ContentID := List.replicate 36 0,
    Digest := List.replicate 16 0, DataIV := List.replicate 16 0,
    HeaderCmacHash := List.replicate 16 0, HeaderNpdrmSignature := List.replicate 40 0,
    HeaderSha1Hash := List.replicate 8 0 }

/-- A reader as `init` leaves it: positioned at the first body, index at 0, `aesReader`
reading from `hashReader`; `hashed` are the bytes hashed so far and `data` the rest of
the input. -/
def exReader (items : List fileEntry) (fh : FileHeader) (hashed data : List Nat) : Reader :=
  { world := { src := { data := data, fin := Err.EOF }, hashed := hashed,
               headBuffer := hashed, tailBuffer := [] },
    reader := ReaderRef.aes, current := none, pad := 0, err := none,
    index := { itemRecords := items, idx := 0 }, pkgType := PackageTypeVitaApp,
    aesReader := { block := exBlock, stream := ⟨exBlock, fh.DataIV, 0⟩, R := Tap.hash,
                   iv := fh.DataIV },
    FileHeader := fh,
    extendedHeader := { Magic := [0x7F, 0x65, 0x78, 0x74], Unknown1 := 0, HeaderSize := 64,
                        DataSize := 0, DataOffset := 0, DataType := 0, PkgDataSize := 0,
                        DataType2 := 2, Unknown2 := 0 },
    meta := { DrmType := 0, ContentType := 0x15, PackageFlags := 0, IndexTableOffset := 0,
              IndexTableSize := 0, SfoOffset := 0, SfoSize := 0 },
    SfoEntries := [], rif := [], FileHash := [], CalculatedHash := [] }

/-- A 4-byte file at offset 0 with file type 0. -/
def exFile4 : fileEntry := ⟨[0x61], 0, 4, 0, some exBlock⟩

/-- A reader over the index `[exFile4]` with 32 bytes of data region and input left. -/
def exReaderOneFile : Reader :=
  exReader [exFile4] (exFileHeader 1 96 0 32) [] (List.range 96)

/-- Input from the item records on for a PSP package with one record: name at table
offset 32 (one byte, `A`), body of 4 bytes at offset 48, flags `0x90000000`; then the
name table (16 bytes), the data up to `DataSize = 64`, a 16-byte tail and the trailer. -/
def exIndexInput : List Nat :=
  [0, 0, 0, 32, 0, 0, 0, 1, 0, 0, 0, 0, 0, 0, 0, 48,
   0, 0, 0, 0, 0, 0, 0, 4, 0x90, 0, 0, 0, 0, 0, 0, 0] ++
  (0x41 :: List.replicate 15 0) ++ List.range 16 ++ List.replicate 16 7 ++ List.range 32

/-- A reader as `setupDecryption` leaves it in front of `exIndexInput`. -/
def exPreIndex : Reader :=
  { exReader [] (exFileHeader 1 368 256 64) [] exIndexInput with
    pkgType := PackageTypePSP
    aesReader := { block := exBlock, stream := ⟨exBlock, List.replicate 16 0, 0⟩,
                   R := Tap.headHash, iv := List.replicate 16 0 }
    extendedHeader := { Magic := [0x7F, 0x65, 0x78, 0x74], Unknown1 := 0, HeaderSize := 64,
                        DataSize := 0, DataOffset := 0, DataType := 0, PkgDataSize := 0,
                        DataType2 := 1, Unknown2 := 0 } }

/-- The reader `exPreIndex` with extended-header key type 2 and an item record whose key
type is 0 instead of `0x90`. -/
def exPreIndexKey2 : Reader :=
  { exPreIndex with
    world := { exPreIndex.world with src := { data := exIndexInput.set 24 0, fin := Err.EOF } }
    extendedHeader := { exPreIndex.extendedHeader with DataType2 := 2 } }

/-- The entry that `readFileIndex` builds from `exIndexInput`. -/
def exIndexEntry : fileEntry := ⟨[0x41], 48, 4, 0x90000000, some exBlock⟩

/-- The reader after `readFileIndex` has run on `exPreIndex`. -/
def exPostIndex : Reader :=
  { exPreIndex with
    world := { src := { data := exIndexInput.drop 48, fin := Err.EOF },
               hashed := exIndexInput.take 48, headBuffer := exIndexInput.take 48,
               tailBuffer := [] }
    aesReader := { block := exBlock,
                   stream := ⟨exBlock, List.replicate 15 0 ++ [3], 0⟩,
                   R := Tap.headHash, iv := List.replicate 16 0 } }

/-- Two 4-byte files at offsets 0 and 16 of a 32-byte data region. -/
def exTwoFiles : List fileEntry :=
  [⟨[0x61], 0, 4, 0, some exBlock⟩, ⟨[0x62], 16, 4, 0, some exBlock⟩]

/-- A reader over `exTwoFiles` whose input ends (with `io.EOF`) after 10 bytes of the
data region, that is inside the padding that follows the first body. -/
def exCutInPadding : Reader :=
  exReader exTwoFiles (exFileHeader 2 96 0 32) [] (List.range 10)

/-- The reader `exCutInPadding` right after `Next` has returned its first entry: 4 body
bytes and 12 bytes of padding are still to come, 10 bytes of input are left. -/
def exCutEntered : Reader :=
  { exCutInPadding with
    current := some ⟨⟨exBlock, List.replicate 16 0, 0⟩, Tap.hash, 4⟩
    pad := 12
    index := { itemRecords := exTwoFiles, idx := 1 } }

/-- A sink that accepts everything and reads nothing. -/
def exSink : pkgWriter Unit :=
  { CreateDir := fun s _ => (none, s)
    CreateFile := fun _ _ s _ r => some (none, s, r) }

/-- An entry whose file type, 7, is neither a file nor a directory type. -/
def exUnknownEntry : fileEntry := ⟨[0x78], 0, 0, 7, some exBlock⟩

/-- A reader over the index `[exUnknownEntry]`. -/
def exReaderUnknown : Reader :=
  exReader [exUnknownEntry] (exFileHeader 1 96 0 32) [] (List.range 96)

/-- A complete PSP package of 384 bytes: the file header (metadata at 256, one item,
`TotalSize = 384`, `DataOffset = 272`, `DataSize = 64`), the extended header with key
type 1, one metadata record giving content type 7, four bytes of padding, and the data
region, tail and trailer of `exIndexInput`. -/
def exPackage : List Nat :=
  [0x7F, 0x50, 0x4B, 0x47, 0, 0, 0, 0] ++ natToBE 4 256 ++ natToBE 4 1 ++ natToBE 4 256 ++
  natToBE 4 1 ++ natToBE 8 384 ++ natToBE 8 272 ++ natToBE 8 64 ++ List.replicate 144 0 ++
  [0x7F, 0x65, 0x78, 0x74] ++ List.replicate 32 0 ++ [0, 0, 0, 1] ++ List.replicate 24 0 ++
  [0, 0, 0, 2, 0, 0, 0, 4, 0, 0, 0, 7] ++ List.replicate 4 0 ++ exIndexInput

/-- The reader that `init` returns on `exPackage`. -/
def exInitReader : Reader :=
  { world := { src := { data := exPackage.drop 320, fin := Err.EOF },
               hashed := exPackage.take 320, headBuffer := exPackage.take 320,
               tailBuffer := [] },
    reader := ReaderRef.aes, current := none, pad := 0, err := none,
    index := { itemRecords := [exIndexEntry], idx := 0 }, pkgType := PackageTypePSP,
    aesReader := { block := exBlock, stream := ⟨exBlock, List.replicate 15 0 ++ [3], 0⟩,
                   R := Tap.hash, iv := List.replicate 16 0 },
    FileHeader := parseFileHeader (exPackage.take 192),
    extendedHeader := parseExtendedHeader ((exPackage.drop 192).take 64),
    meta := { DrmType := 0, ContentType := 7, PackageFlags := 0, IndexTableOffset := 0,
              IndexTableSize := 0, SfoOffset := 0, SfoSize := 0 },
    SfoEntries := [], rif := [], FileHash := [], CalculatedHash := [] }

/-- An index that satisfies the layout invariants: a directory (file type 4) of declared
size 5 at offset 48, then a 4-byte file at offset 64, in a data region of 96 bytes. -/
def exDirThenFile : List fileEntry :=
  [⟨[0x64], 48, 5, 4, some exBlock⟩, ⟨[0x66], 64, 4, 0, some exBlock⟩]

/-- A reader over `exDirThenFile`, positioned at data offset 48 with 112 bytes left. -/
def exReaderDir : Reader :=
  exReader exDirThenFile (exFileHeader 2 512 320 96) [] (List.range 112)

/-- An empty input. -/
def exEmptyWorld : World :=
  { src := { data := [], fin := Err.EOF }, hashed := [], headBuffer := [], tailBuffer := [] }

/-- An extended header with the given `DataType2`. -/
def exExtendedHeader (dataType2 : Nat) : ExtendedHeader :=
  { Magic := [0x7F, 0x65, 0x78, 0x74], Unknown1 := 0, HeaderSize := 64, DataSize := 0,
    DataOffset := 0, DataType := 0, PkgDataSize := 0, DataType2 := dataType2, Unknown2 := 0 }

/-- Metadata with the given content type. -/
def exMeta (contentType : Nat) : Metadata :=
  { DrmType := 0, ContentType := contentType, PackageFlags := 0, IndexTableOffset := 0,
    IndexTableSize := 0, SfoOffset := 0, SfoSize := 0 }

/-- The call of `setupDecryption` on a package with the given content type, key type and
SFO entries. -/
def exSetup (contentType keyType : Nat) (sfo : SfoMap) : Option (Except Err Reader) :=
  setupDecryption exEnv exEmptyWorld (exFileHeader 1 384 256 64) (exExtendedHeader keyType)
    (exMeta contentType) sfo

/-- A zRIF "string" of the toy environment: the zlib stream of the one-byte license `[7]`
with the fixed header. -/
def exZrif : List Nat := [0x28, 0xEE, 0, 0x0D, 0, 7, 1, 7, 0, 8, 0, 8]

/-- The package `exPackage` as a Vita application: key type 2 and content type `0x15`. -/
def exVitaPackage : List Nat :=
  [0x7F, 0x50, 0x4B, 0x47, 0, 0, 0, 0] ++ natToBE 4 256 ++ natToBE 4 1 ++ natToBE 4 256 ++
  natToBE 4 1 ++ natToBE 8 384 ++ natToBE 8 272 ++ natToBE 8 64 ++ List.replicate 144 0 ++
  [0x7F, 0x65, 0x78, 0x74] ++ List.replicate 32 0 ++ [0, 0, 0, 2] ++ List.replicate 24 0 ++
  [0, 0, 0, 2, 0, 0, 0, 4, 0, 0, 0, 0x15] ++ List.replicate 4 0 ++ exIndexInput

/-- The package `exPackage` with key type 2 and the content type `0x18`
(`ContentTypePSM1`). -/
def exPSM1Package : List Nat :=
  [0x7F, 0x50, 0x4B, 0x47, 0, 0, 0, 0] ++ natToBE 4 256 ++ natToBE 4 1 ++ natToBE 4 256 ++
  natToBE 4 1 ++ natToBE 8 384 ++ natToBE 8 272 ++ natToBE 8 64 ++ List.replicate 144 0 ++
  [0x7F, 0x65, 0x78, 0x74] ++ List.replicate 32 0 ++ [0, 0, 0, 2] ++ List.replicate 24 0 ++
  [0, 0, 0, 2, 0, 0, 0, 4, 0, 0, 0, 0x18] ++ List.replicate 4 0 ++ exIndexInput

/-- A zRIF of the toy environment whose license is 512 zero bytes: its content ID is the
all-zero content ID of `exVitaPackage`. -/
def exRif : List Nat :=
  [0x28, 0xEE, 0, 0x0D, 0, 7] ++ 512 :: List.replicate 512 0 ++ [2, 0, 0, 1]

/-- A zRIF of the toy environment whose 512-byte license has the byte 1 at offset `0x10`,
the first byte of its content ID. -/
def exRifOther : List Nat :=
  [0x28, 0xEE, 0, 0x0D, 0, 7] ++
    512 :: (List.replicate 16 0 ++ 1 :: List.replicate 495 0) ++ [3, 0xF0, 0, 2]

/-- The package `exPackage` with the item count `-1` (bytes 20 to 23 are `ff`). -/
def exNegativeItemCount : List Nat :=
  exPackage.take 20 ++ [0xFF, 0xFF, 0xFF, 0xFF] ++ exPackage.drop 24

/-- The package `exPackage` whose metadata record of type 2 declares the size 0. -/
def exZeroSizeRecord : List Nat :=
  exPackage.take 260 ++ [0, 0, 0, 0] ++ exPackage.drop 264

/-- An input that starts with the given bytes, nothing read so far. -/
def exWorld (data : List Nat) : World :=
  { src := { data := data, fin := Err.EOF }, hashed := [], headBuffer := [], tailBuffer := [] }

/-- Metadata with every field zero. -/
def exMeta0 : Metadata := ⟨0, 0, 0, 0, 0, 0, 0⟩

/-- A sink whose `CreateDir` and `CreateFile` fail at once, with the errors 1 and 2. -/
def exFailingSink : pkgWriter Unit :=
  { CreateDir := fun s _ => (some (Err.sink 1), s)
    CreateFile := fun _ _ s _ r => some (some (Err.sink 2), s, r) }

/-- A 4-byte file named `PARAM.SFO`. -/
def exSfoEntry : fileEntry := ⟨str "PARAM.SFO", 0, 4, 0, some exBlock⟩

/-- A reader over the index `[exSfoEntry]` that has not read any SFO. -/
def exReaderSfo : Reader :=
  exReader [exSfoEntry] (exFileHeader 1 96 0 32) [] (List.range 96)

/-- The toy environment with a 20-byte "hash": the first 20 of the hashed bytes, padded
with zeros. -/
def exEnv20 : Env := { exEnv with sha1 := fun l => (l ++ List.replicate 20 0).take 20 }

/-- An SFO image with three index entries: `A` in format `0x0204` (`"hi"` and its NUL),
`B` in format `0x0404` (the integer 42) and `A` again in format `0x0004` (the bytes 1, 2);
the key table is `A\0B\0` and the data table has 12 bytes. -/
def exSfoImage : List Nat :=
  [0, 0x50, 0x53, 0x46, 1, 1, 0, 0, 0x44, 0, 0, 0, 0x48, 0, 0, 0, 3, 0, 0, 0] ++
  [0, 0, 4, 2, 3, 0, 0, 0, 4, 0, 0, 0, 0, 0, 0, 0] ++
  [2, 0, 4, 4, 4, 0, 0, 0, 4, 0, 0, 0, 4, 0, 0, 0] ++
  [0, 0, 4, 0, 2, 0, 0, 0, 4, 0, 0, 0, 8, 0, 0, 0] ++
  [0x41, 0, 0x42, 0] ++ [0x68, 0x69, 0, 0, 0x2A, 0, 0, 0, 1, 2, 0, 0]

/-! ## Auxiliary descriptions of reader states -/

/-- The error a body `Read` reports when the input is exhausted inside the body. -/
def shortBodyErr (fin : Err) : Err :=
  if fin = Err.EOF then Err.ErrUnexpectedEOF else fin

/-- Number of bytes one body `Read` with a `k`-byte buffer returns when `nb` bytes of the
body are left and `avail` bytes of input remain. -/
def bodyReadLen (nb : Int) (k avail : Nat) : Nat := min (min k nb.toNat) avail

/-- The error one body `Read` with a `k`-byte buffer returns when `nb` bytes are left. -/
def bodyReadErr (nb : Int) (k : Nat) (w : World) : Option Err :=
  if nb = 0 then some Err.EOF
  else if 0 < k ∧ w.src.data = [] then some (shortBodyErr w.src.fin)
  else none

/-- The error that `Reader.Read` latches when the entry reader returned `e`. -/
def readLatch (e : Option Err) : Option Err :=
  if e ≠ none ∧ e ≠ some Err.EOF then e else none

/-- The reader `pr`, whose current entry reader is `cur`, after `n` bytes of the body
were read and with latched error `err`. -/
def Reader.bodyState (pr : Reader) (cur : regFileReader) (n : Nat) (err : Option Err) :
    Reader :=
  { pr with
    current := some { cur with S := { cur.S with pos := cur.S.pos + n },
                               nb := cur.nb - (n : Int) }
    world := (pr.world.deliver cur.R false n).2
    err := err }

/-- Offset that follows entry number `i` of the index: the next entry's `Offset`, or
`FileHeader.DataSize` after the last entry (the local `next` of `handleRegularFile`). -/
def Reader.nextOffset (pr : Reader) (i : Nat) : Int :=
  match pr.index.itemRecords[i + 1]? with
  | some e => e.Offset
  | none => pr.FileHeader.DataSize

/-- The byte count `nb` that `handleRegularFile` gives the reader of `entry`. -/
def fileEntry.bodySize (entry : fileEntry) : Int :=
  if entry.IsDirectory then 0 else entry.Size

/-- The reader right after `Next` has returned `e`, the entry at position `p.index.idx`
of the index, where `p` is the reader after `skipUnread` and `S` the entry's stream. -/
def Reader.entered (p : Reader) (e : fileEntry) (S : CtrStream) : Reader :=
  { p with
    index := { p.index with idx := p.index.idx + 1 }
    pad := wrap64 (wrap64 (p.nextOffset p.index.idx - e.Offset) - e.Size)
    current := some { S := S, R := p.aesReader.R, nb := e.bodySize }
    err := none }

/-- The tee reader through which `pr.reader` takes bytes off the input. -/
def Reader.tap (pr : Reader) : Tap :=
  match pr.reader with
  | ReaderRef.tap t => t
  | ReaderRef.aes => pr.aesReader.R

/-- Number of bytes the next `skipUnread` asks `io.CopyN` to discard. -/
def Reader.pending (pr : Reader) : Int := wrap64 (pr.numBytes + pr.pad)

/-- Number of bytes `skipUnread` is asked to discard after `Next` returned `e` and no
byte of it was read, `next` being the offset that follows `e`. -/
def skipAmount (e : fileEntry) (next : Int) : Int :=
  wrap64 (e.bodySize + wrap64 (wrap64 (next - e.Offset) - e.Size))

/-- Bytes that successive `Next` calls discard while walking the entries `l`, the last of
which is followed by offset `dataSize`. -/
def skipDemand : List fileEntry → Int → Nat
  | [], _ => 0
  | [e], dataSize => (skipAmount e dataSize).toNat
  | e :: e1 :: rest, dataSize => (skipAmount e e1.Offset).toNat + skipDemand (e1 :: rest) dataSize

/-- Bytes that `readTail` reads: the tail in front of the trailer and the 0x20-byte trailer. -/
def tailDemand (fh : FileHeader) : Nat :=
  (wrap64 (wrap64 (fh.TotalSize - wrap64 (fh.DataOffset + fh.DataSize)) - 0x20)).toNat + 0x20

/-- Number of bytes `readTail` copies into the tail buffer before the trailer. -/
def tailCopy (fh : FileHeader) : Nat :=
  (wrap64 (wrap64 (fh.TotalSize - wrap64 (fh.DataOffset + fh.DataSize)) - 0x20)).toNat

/-- The reader after a `readTail` that found all its bytes. -/
def Reader.tailDone (env : Env) (pr : Reader) : Reader :=
  { pr with
    reader := ReaderRef.tap pr.aesReader.R
    world := ((pr.world.deliver pr.aesReader.R true (tailCopy pr.FileHeader)).2.deliver
      Tap.raw true 0x20).2
    CalculatedHash :=
      env.sha1 (pr.world.deliver pr.aesReader.R true (tailCopy pr.FileHeader)).2.hashed
    FileHash :=
      ((pr.world.deliver pr.aesReader.R true (tailCopy pr.FileHeader)).2.src.data.take 0x20).take
        20 }

/-- The entry `e` can be entered by `handleRegularFile`: its body size is not negative
and `NewCTR` accepts its key with the IV `iv`. -/
def Enterable (iv : List Nat) (e : fileEntry) : Prop :=
  0 ≤ e.bodySize ∧
    ∃ S, e.Key.bind (fun key => NewCTR key iv (Int.tdiv e.Offset 16)) = some S

/-- Layout condition on an entry followed by offset `next`: offset and size are not
negative, the body `[Offset, Offset + Size)` ends at or before `next`, which is an
`int64`, and a directory has size 0. -/
def EntryOk (e : fileEntry) (next : Int) : Prop :=
  0 ≤ e.Offset ∧ 0 ≤ e.Size ∧ e.Offset + e.Size ≤ next ∧ next < 2 ^ 63 ∧
    (e.IsDirectory = true → e.Size = 0)

/-- Offset at which the entries `l` start: the first entry's `Offset`, or `dataSize` when
no entry is left. -/
def headOffset (l : List fileEntry) (dataSize : Int) : Int :=
  match l with
  | [] => dataSize
  | e :: _ => e.Offset

/-- The derived layout invariants of an index followed by the end `dataSize` of the
data region: every entry satisfies `EntryOk` with respect to what follows it. -/
def LayoutOk : List fileEntry → Int → Prop
  | [], _ => True
  | e :: rest, dataSize => EntryOk e (headOffset rest dataSize) ∧ LayoutOk rest dataSize

/-- State of a reader in front of a `Next` call during a walk over the index `entries`
that started in world `W0`: no error is latched, the index is at position `i`, the
readers are attached as `init` leaves them, and the bytes taken off the input so far plus
the bytes still to be skipped amount to `rel`. -/
def RunInv (W0 : World) (entries : List fileEntry) (fh : FileHeader) (i : Nat) (rel : Int)
    (q : Reader) : Prop :=
  q.err = none ∧ q.index = ⟨entries, i⟩ ∧ q.FileHeader = fh ∧ q.reader = ReaderRef.aes ∧
  q.aesReader.R = Tap.hash ∧ 0 ≤ q.pending ∧
  ∃ c : Nat, q.world = (W0.deliver Tap.hash false c).2 ∧ (c : Int) + q.pending = rel

/-- The world in which the tail in front of the trailer has been copied, `n` bytes
after `W0`: the world whose `hashed` bytes `readTail` hashes. -/
def hashedWorld (W0 : World) (fh : FileHeader) (n : Nat) : World :=
  ((W0.deliver Tap.hash false n).2.deliver Tap.hash true (tailCopy fh)).2

/-- What a completed walk leaves behind: the final world and the two hashes. -/
def Walked (env : Env) (W0 : World) (fh : FileHeader) (n : Nat) (q : Reader) : Prop :=
  q.world = ((hashedWorld W0 fh n).deliver Tap.raw true 0x20).2 ∧
  q.CalculatedHash = env.sha1 (hashedWorld W0 fh n).hashed ∧
  q.FileHash = ((hashedWorld W0 fh n).src.data.take 0x20).take 20 ∧
  q.err = some Err.EOF

/-- World `w1` arises from `w` by taking some bytes off the input through
`headHashReader`: they were appended to the hash and to the head buffer. -/
def Fed (w w1 : World) : Prop := ∃ n, w1 = (w.deliver Tap.headHash false n).2

/-- The calls of a client that walks the whole index: for each entry a `Next` followed by
`Read` calls with the buffer sizes of `plan`, and a final `Next`. -/
def walk (plan : List (List Nat)) : List Call :=
  (plan.map fun ks => Call.Next :: ks.map Call.Read).flatten ++ [Call.Next]

/-- The decrypted item records that `readFileIndex` reads from `pr`. -/
def Reader.itemRecords (pr : Reader) : List ItemRecord :=
  parseItemRecords pr.FileHeader.ItemCount.toNat
    (pr.readFullReader (32 * pr.FileHeader.ItemCount.toNat)).1

/-- Consistency of "`d` body bytes were read, `err` is latched" with the entry reader
`cur` and the input of `pr`: an error is latched only when the input ran dry inside
the body. -/
def BodyInv (pr : Reader) (cur : regFileReader) (d : Nat) (err : Option Err) : Prop :=
  (d : Int) ≤ cur.nb ∧ d ≤ pr.world.src.data.length ∧
  (err = none ∨ (err = some (shortBodyErr pr.world.src.fin) ∧ (d : Int) < cur.nb ∧
    d = pr.world.src.data.length))

/-- The two states of the hashes of a reader: either `readTail` has not completed its
copy of the tail and both hashes are still empty, or the index is exhausted, an error or
`io.EOF` is latched, `CalculatedHash` is the hash of everything hashed and `FileHash` is
either still empty or holds 20 bytes. -/
def HashState (env : Env) (q : Reader) : Prop :=
  (q.CalculatedHash = [] ∧ q.FileHash = []) ∨
  (q.err ≠ none ∧ q.index.itemRecords.length ≤ q.index.idx ∧
    q.CalculatedHash = env.sha1 q.world.hashed ∧ (q.FileHash = [] ∨ q.FileHash.length = 20))

/-! ## The layout of an SFO image and the map it describes -/

/-- The field `IndexTableEntries` of the header of the SFO image `data`. -/
def sfoEntryCount (data : List Nat) : Int := toSigned 32 (leToNat ((data.drop 16).take 4))

/-- The length of the key table of the SFO image `data`: `DataTableOffset -
KeyTableOffset`. -/
def sfoKeysLen (data : List Nat) : Int :=
  wrap32 (toSigned 32 (leToNat ((data.drop 12).take 4))
    - toSigned 32 (leToNat ((data.drop 8).take 4)))

/-- The index table of the SFO image `data`. -/
def sfoIndexOf (data : List Nat) : List sfoIndexTableEntry :=
  parseSfoIndex (sfoEntryCount data).toNat
    ((data.drop 20).take (16 * (sfoEntryCount data).toNat))

/-- The key table of the SFO image `data`. -/
def sfoKeysOf (data : List Nat) : List Nat :=
  (data.drop (20 + 16 * (sfoEntryCount data).toNat)).take (sfoKeysLen data).toNat

/-- The end of the data table of the SFO image `data`: the last entry's `DataOffset`
plus its `ParamMaxLength`. -/
def sfoTableEnd (data : List Nat) : Nat :=
  match (sfoIndexOf data).getLast? with
  | some last => last.DataOffset + last.ParamMaxLength
  | none => 0

/-- The data table of the SFO image `data`. -/
def sfoValuesOf (data : List Nat) : List Nat :=
  (data.drop (20 + 16 * (sfoEntryCount data).toNat + (sfoKeysLen data).toNat)).take
    (sfoTableEnd data)

/-- A well-formed SFO image: the magic, at least one index entry, a complete image,
entries in data-offset order with a data table below 2^32 bytes, and for every entry of
a recognised format a NUL-terminated key inside the key table, a length within its slot,
at least the terminating NUL for format `0x0204` and at least 4 bytes for `0x0404`. -/
def SfoOk (data : List Nat) : Prop :=
  data.take 4 = sfoMagic ∧ 1 ≤ sfoEntryCount data ∧ 0 ≤ sfoKeysLen data ∧
  20 + 16 * (sfoEntryCount data).toNat + (sfoKeysLen data).toNat + sfoTableEnd data
    ≤ data.length ∧
  (sfoIndexOf data).Chain' (fun a b => a.DataOffset + a.ParamMaxLength ≤ b.DataOffset) ∧
  sfoTableEnd data < 2 ^ 32 ∧
  ∀ e ∈ sfoIndexOf data, e.ParamFormat ∈ [utf8Special, utf8, integer] →
    e.KeyOffset ≤ (sfoKeysOf data).length ∧ 0 ∈ (sfoKeysOf data).drop e.KeyOffset ∧
    e.ParamLength ≤ e.ParamMaxLength ∧
    (e.ParamFormat = utf8 → 1 ≤ e.ParamLength) ∧ (e.ParamFormat = integer → 4 ≤ e.ParamLength)

/-- In the words of the specification: the NUL-terminated key of an index entry. -/
def sfoSpecKey (keys : List Nat) (e : sfoIndexTableEntry) : List Nat :=
  (keys.drop e.KeyOffset).takeWhile (· ≠ 0)

/-- In the words of the specification: the value of an index entry, by its format: the
`ParamLength` bytes at `DataOffset` for `0x0004`, the `ParamLength - 1` bytes at
`DataOffset` for `0x0204`, the decimal rendering of the little-endian 32-bit integer at
`DataOffset` for `0x0404`, and none for any other format. -/
def sfoSpecValue (values : List Nat) (e : sfoIndexTableEntry) : Option (List Nat) :=
  if e.ParamFormat = 0x0004 then some ((values.drop e.DataOffset).take e.ParamLength)
  else if e.ParamFormat = 0x0204 then
    some ((values.drop e.DataOffset).take (e.ParamLength - 1))
  else if e.ParamFormat = 0x0404 then
    some ((Nat.repr (leToNat ((values.drop e.DataOffset).take 4))).toList.map Char.toNat)
  else none

/-- In the words of the specification: the map that an index describes sends a key to the
value of the last entry with that key that has a value. -/
def sfoSpecMap (keys values : List Nat) : List sfoIndexTableEntry → List Nat →
    Option (List Nat)
  | [], _ => none
  | e :: rest, key =>
    match sfoSpecMap keys values rest key with
    | some v => some v
    | none => if sfoSpecKey keys e = key then sfoSpecValue values e else none

/-- The call `io.CopyN(ioutil.Discard, pr.reader, tailSize-0x20)` that `readTail` makes on
the reader `pr`, through the hashing reader `pr.aesReader.R` and the tee into
`tailBuffer`. -/
def Reader.copyTail (pr : Reader) : Nat × Option Err × World :=
  pr.world.copyN pr.aesReader.R true
    (wrap64 (wrap64 (pr.FileHeader.TotalSize -
      wrap64 (pr.FileHeader.DataOffset + pr.FileHeader.DataSize)) - 0x20))

/-- The call `io.ReadFull(pr.src, tailData)` for the 0x20-byte trailer that `readTail`
makes on the reader `pr` after its copy of the tail. -/
def Reader.readTrailer (pr : Reader) : List Nat × Option Err × World :=
  pr.copyTail.2.2.readFull Tap.raw true 0x20

/-- A call of `Next` on `p` completes the copy of the tail: no error is latched,
`skipUnread` succeeds, the index is exhausted (so `readNextEntry` calls `readTail`) and
the `io.CopyN` of `readTail` returns no error. -/
def TailCopyCompletes (p : Reader) : Prop :=
  p.err = none ∧ p.skipUnread.1 = none ∧
  p.skipUnread.2.index.itemRecords[p.skipUnread.2.index.idx]? = none ∧
  p.skipUnread.2.copyTail.2.1 = none

/-! # Theorems -/

/-! ## Arithmetic of the counter addition -/

theorem wrap64_of_range (x : Int) (h0 : 0 ≤ x) (h1 : x < 2 ^ 63) : wrap64 x = x := by
  unfold wrap64
  omega

theorem toByte_natCast (m : Nat) : toByte (m : Int) = m % 256 := by
  unfold toByte
  omega

theorem shiftRight8_natCast (m : Nat) :
    ((m : Int) >>> (8 : Nat)) = ((m / 256 : Nat) : Int) := by
  rw [Int.shiftRight_eq_div_pow]
  norm_num

theorem beToNat_append_singleton (l : List Nat) (b : Nat) :
    beToNat (l ++ [b]) = beToNat l * 256 + b := by
  simp [beToNat, List.foldl_append]

theorem natToBE_length (len v : Nat) : (natToBE len v).length = len := by
  induction len generalizing v with
  | zero => rfl
  | succ n ih => simp [natToBE, ih]

theorem natToBE_lt (len v : Nat) : ∀ b ∈ natToBE len v, b < 256 := by
  induction len generalizing v with
  | zero => simp [natToBE]
  | succ n ih =>
    intro b hb
    simp only [natToBE, List.mem_append, List.mem_singleton] at hb
    rcases hb with hb | hb
    · exact ih _ b hb
    · omega

theorem beToNat_natToBE (len v : Nat) : beToNat (natToBE len v) = v % 256 ^ len := by
  induction len generalizing v with
  | zero => simp [natToBE, beToNat, Nat.mod_one]
  | succ n ih =>
    simp only [natToBE, beToNat_append_singleton, ih]
    rw [pow_succ, Nat.mul_comm (256 ^ n) 256, Nat.mod_mul]
    omega

theorem getD_append_singleton_mid (hi lo : List Nat) (b : Nat) :
    ((hi ++ [b]) ++ lo).getD hi.length 0 = b := by
  induction hi with
  | nil => simp
  | cons x xs ih => simpa using ih

theorem set_append_singleton_mid (hi lo : List Nat) (b c : Nat) :
    ((hi ++ [b]) ++ lo).set hi.length c = hi ++ ([c] ++ lo) := by
  induction hi with
  | nil => simp
  | cons x xs ih => simp [ih]

theorem natToBE_mod (len v : Nat) : natToBE len (v % 256 ^ len) = natToBE len v := by
  induction len generalizing v with
  | zero => simp [natToBE]
  | succ n ih =>
    simp only [natToBE]
    rw [pow_succ, Nat.mod_mul_left_div_self, Nat.mod_mul_left_mod, ih]

/-- Loop invariant of `addCTRCounter`: while the running value stays below `2^63 - 255`,
processing the `n` leading bytes `hi` in front of an already finished tail `lo` leaves
the big-endian rendering of `hi + v` (modulo `256^n`) in front of `lo`. -/
theorem addCTRCounterLoop_spec (n : Nat) : ∀ (hi lo : List Nat) (v : Nat),
    hi.length = n → (∀ b ∈ hi, b < 256) → v + 255 < 2 ^ 63 →
    addCTRCounterLoop n (hi ++ lo) (v : Int) = natToBE n (beToNat hi + v) ++ lo := by
  induction n with
  | zero =>
    intro hi lo v hlen _ _
    have : hi = [] := List.length_eq_zero.mp hlen
    subst this
    simp [addCTRCounterLoop, natToBE]
  | succ n ih =>
    intro hi lo v hlen hlt hv
    rcases List.eq_nil_or_concat hi with h | ⟨hi0, b, h⟩
    · subst h; simp at hlen
    · subst h
      rw [List.concat_eq_append] at hlen hlt ⊢
      have hlen0 : hi0.length = n := by simpa using hlen
      have hb : b < 256 := hlt b (by simp)
      have hlt0 : ∀ x ∈ hi0, x < 256 := fun x hx => hlt x (by simp [hx])
      have hw : wrap64 ((v : Int) + ((b : Nat) : Int)) = ((v + b : Nat) : Int) := by
        rw [wrap64_of_range] <;> push_cast <;> omega
      have hstep : addCTRCounterLoop (n + 1) ((hi0 ++ [b]) ++ lo) (v : Int)
          = addCTRCounterLoop n (hi0 ++ ([(v + b) % 256] ++ lo)) (((v + b) / 256 : Nat) : Int) := by
        rw [addCTRCounterLoop]
        rw [← hlen0, getD_append_singleton_mid, hw, toByte_natCast, shiftRight8_natCast,
          set_append_singleton_mid]
      rw [hstep, ih hi0 _ _ hlen0 hlt0 (by omega), natToBE, beToNat_append_singleton]
      have e1 : (beToNat hi0 * 256 + b + v) / 256 = beToNat hi0 + (v + b) / 256 := by omega
      have e2 : (beToNat hi0 * 256 + b + v) % 256 = (v + b) % 256 := by omega
      rw [e1, e2]
      simp

/-- Below the overflow threshold `addCTRCounter` is addition modulo `2^128` on the
big-endian value of the IV. -/
theorem addCTRCounter_small (iv : List Nat) (v : Nat) (hlen : iv.length = 16)
    (hb : ∀ b ∈ iv, b < 256) (hv : v + 255 < 2 ^ 63) :
    addCTRCounter iv (v : Int) = some (natToBE 16 ((beToNat iv + v) % 2 ^ 128)) := by
  have h := addCTRCounterLoop_spec 16 iv [] v hlen hb hv
  simp only [List.append_nil] at h
  have hE : natToBE 16 ((beToNat iv + v) % 2 ^ 128) = natToBE 16 (beToNat iv + v) := by
    have := natToBE_mod 16 (beToNat iv + v)
    norm_num at this ⊢
    exact this
  rw [hE, ← h]
  simp [addCTRCounter, hlen]

theorem addCTRCounterLoop_length (n : Nat) (ctr : List Nat) (value : Int) :
    (addCTRCounterLoop n ctr value).length = ctr.length := by
  induction n generalizing ctr value with
  | zero => rfl
  | succ n ih => simp [addCTRCounterLoop, ih]

/-! ## Seeking in the CTR key stream -/

theorem xorFrom_drop (b : Block) (iv : List Nat) (k : Nat) : ∀ (p : Nat) (xs : List Nat),
    (xorFrom b iv p xs).drop k = xorFrom b iv (p + k) (xs.drop k) := by
  induction k with
  | zero => intro p xs; simp
  | succ k ih =>
    intro p xs
    cases xs with
    | nil => simp [xorFrom]
    | cons x xs =>
      simp only [xorFrom, List.drop_succ_cons]
      rw [ih (p + 1) xs]
      congr 1
      omega

theorem xorFrom_congr (b : Block) (iv1 iv2 : List Nat) (d : Nat)
    (h : ∀ q, keystreamByte b iv1 q = keystreamByte b iv2 (d + q)) :
    ∀ (p : Nat) (xs : List Nat), xorFrom b iv1 p xs = xorFrom b iv2 (d + p) xs := by
  intro p xs
  induction xs generalizing p with
  | nil => simp [xorFrom]
  | cons x xs ih =>
    simp only [xorFrom]
    rw [h p, ih (p + 1)]
    rfl

theorem keystreamByte_shift (b : Block) (iv : List Nat) (c q : Nat) :
    keystreamByte b (natToBE 16 ((beToNat iv + c) % 2 ^ 128)) q
      = keystreamByte b iv (16 * c + q) := by
  unfold keystreamByte
  rw [beToNat_natToBE]
  have e1 : (16 * c + q) / 16 = c + q / 16 := by omega
  have e2 : (16 * c + q) % 16 = q % 16 := by omega
  have e3 : ((beToNat iv + c) % 2 ^ 128 % 256 ^ 16 + q / 16) % 2 ^ 128
      = (beToNat iv + (c + q / 16)) % 2 ^ 128 := by
    norm_num
    omega
  rw [e1, e2, e3]

/-! ## Error latching -/

theorem call_latched (env : Env) (pr : Reader) (e : Err) (h : pr.err = some e) (c : Call) :
    pr.call env c = some (c.latched e, pr) := by
  cases c <;> simp [Reader.call, Reader.Next, Reader.Read, h, Call.latched]

theorem calls_latched (env : Env) (pr : Reader) (e : Err) (h : pr.err = some e)
    (cs : List Call) : pr.calls env cs = some (cs.map (Call.latched e), pr) := by
  induction cs with
  | nil => rfl
  | cons c cs ih => simp [Reader.calls, call_latched env pr e h, ih]

theorem call_error_sets_err (env : Env) (pr pr1 : Reader) (c : Call) (r : Ret) (e : Err)
    (hcall : pr.call env c = some (r, pr1)) (herr : r.err = some e) (hne : e ≠ Err.EOF) :
    pr1.err = some e := by
  cases c with
  | Next =>
    simp only [Reader.call, Option.map_eq_some'] at hcall
    obtain ⟨x, hx, hr⟩ := hcall
    simp only [Prod.mk.injEq] at hr
    obtain ⟨hr1, hr2⟩ := hr
    subst hr1 hr2
    unfold Reader.Next at hx
    cases hpe : pr.err with
    | some e0 =>
      simp only [hpe, Option.some.injEq] at hx
      subst hx
      simpa [Ret.err, hpe] using herr
    | none =>
      simp only [hpe, Option.map_eq_some'] at hx
      obtain ⟨y, _, hy⟩ := hx
      subst hy
      rcases y with ⟨y1, y2⟩
      cases y1 with
      | error e1 => simpa [Ret.err] using herr
      | ok v => simp [Ret.err] at herr
  | Read k =>
    simp only [Reader.call, Option.map_eq_some'] at hcall
    obtain ⟨x, hx, hr⟩ := hcall
    simp only [Prod.mk.injEq] at hr
    obtain ⟨hr1, hr2⟩ := hr
    subst hr1 hr2
    simp only [Ret.err] at herr
    unfold Reader.Read at hx
    cases hpe : pr.err with
    | some e0 =>
      simp only [hpe, Option.some.injEq] at hx
      subst hx
      simpa [hpe] using herr
    | none =>
      simp only [hpe] at hx
      cases hcur : pr.current with
      | none =>
        simp only [hcur, Option.some.injEq] at hx
        subst hx
        simp at herr
        exact absurd herr.symm hne
      | some cur =>
        simp only [hcur, Option.map_eq_some'] at hx
        obtain ⟨y, _, hy⟩ := hx
        subst hy
        simp only at herr
        simp [herr, hne]

/-! ## Reading the body of an entry -/

theorem xorFrom_length (b : Block) (iv : List Nat) (p : Nat) (xs : List Nat) :
    (xorFrom b iv p xs).length = xs.length := by
  induction xs generalizing p with
  | nil => rfl
  | cons x xs ih => simp [xorFrom, ih]

theorem deliver_length (w : World) (t : Tap) (toTail : Bool) (n : Nat) :
    (w.deliver t toTail n).1.length = min n w.src.data.length := by
  simp [World.deliver]

theorem deliver_data (w : World) (t : Tap) (toTail : Bool) (n : Nat) :
    (w.deliver t toTail n).2.src.data = w.src.data.drop n := rfl

theorem deliver_fin (w : World) (t : Tap) (toTail : Bool) (n : Nat) :
    (w.deliver t toTail n).2.src.fin = w.src.fin := rfl

theorem take_min_len (k : Nat) (l : List Nat) : l.take (min k l.length) = l.take k := by
  by_cases h : k ≤ l.length
  · rw [Nat.min_eq_left h]
  · rw [Nat.min_eq_right (by omega), List.take_of_length_le (le_refl _),
      List.take_of_length_le (by omega)]

theorem drop_min_len (k : Nat) (l : List Nat) : l.drop (min k l.length) = l.drop k := by
  by_cases h : k ≤ l.length
  · rw [Nat.min_eq_left h]
  · rw [Nat.min_eq_right (by omega), List.drop_of_length_le (le_refl _),
      List.drop_of_length_le (by omega)]

theorem deliver_zero (w : World) (t : Tap) (toTail : Bool) :
    (w.deliver t toTail 0).2 = w := by
  cases w
  simp [World.deliver]

theorem deliver_deliver (w : World) (t : Tap) (toTail : Bool) (n m : Nat) :
    ((w.deliver t toTail n).2.deliver t toTail m).2 = (w.deliver t toTail (n + m)).2 := by
  have h : List.take (n + m) w.src.data
      = List.take n w.src.data ++ List.take m (List.drop n w.src.data) := by
    rw [List.take_add]
  simp only [World.deliver, List.drop_drop, h]
  cases t <;> cases toTail <;> simp [Nat.add_comm]

/-- What a single `Read` on the input does: it takes up to `k` bytes off the input, and
reports the final condition only when the input is empty and `k > 0`. -/
theorem World_read_eq (w : World) (t : Tap) (toTail : Bool) (k : Nat) :
    w.read t toTail k = (w.src.data.take k,
      (if 0 < k ∧ w.src.data = [] then some w.src.fin else none),
      (w.deliver t toTail (min k w.src.data.length)).2) := by
  unfold World.read
  by_cases hk : k = 0
  · simp [hk, deliver_zero]
  · by_cases hd : w.src.data.isEmpty = true
    · have hd' : w.src.data = [] := by simpa using hd
      have hk' : 0 < k := by omega
      simp [hk, hd, hd', hk', deliver_zero]
    · have hd' : ¬ w.src.data = [] := by simpa using hd
      simp only [hk, hd, if_false, Bool.false_eq_true, hd', and_false]
      simp [World.deliver, take_min_len, drop_min_len]

/-- One `regFileReader.Read` on a reader with `nb ≥ 0`, as an equation. -/
theorem regFileReader_Read_eq (rfr : regFileReader) (w : World) (k : Nat)
    (h : 0 ≤ rfr.nb) :
    rfr.Read w k = some
      (xorFrom rfr.S.block rfr.S.iv rfr.S.pos
          (w.src.data.take (bodyReadLen rfr.nb k w.src.data.length)),
        bodyReadErr rfr.nb k w,
        { rfr with S := { rfr.S with pos := rfr.S.pos + bodyReadLen rfr.nb k w.src.data.length },
                   nb := rfr.nb - (bodyReadLen rfr.nb k w.src.data.length : Nat) },
        (w.deliver rfr.R false (bodyReadLen rfr.nb k w.src.data.length)).2) := by
  unfold regFileReader.Read bodyReadLen bodyReadErr
  by_cases h0 : rfr.nb = 0
  · cases rfr
    simp_all [deliver_zero, xorFrom]
  · have hpos : 0 < rfr.nb := by omega
    have hneg : ¬ ((k : Int) > rfr.nb ∧ rfr.nb < 0) := by omega
    have hk1 : (if (k : Int) > rfr.nb then rfr.nb.toNat else k) = min k rfr.nb.toNat := by
      split <;> omega
    simp only [h0, hneg, if_false, hk1, World_read_eq]
    have hlen : (List.take (min k rfr.nb.toNat) w.src.data).length
        = min (min k rfr.nb.toNat) w.src.data.length := by
      rw [List.length_take]
    have hk0 : 0 < min k rfr.nb.toNat ↔ 0 < k := by omega
    by_cases hc : 0 < k ∧ w.src.data = []
    · have hc' : 0 < min k rfr.nb.toNat ∧ w.src.data = [] := ⟨hk0.mpr hc.1, hc.2⟩
      simp only [hc, hc', and_self, if_true, CtrStream.xorKeyStream, hlen, take_min_len]
      simp [hc.2, shortBodyErr, hpos]
      split <;> rfl
    · have hc' : ¬ (0 < min k rfr.nb.toNat ∧ w.src.data = []) := by
        rw [hk0]; exact hc
      simp only [hc, hc', if_false, CtrStream.xorKeyStream, hlen, take_min_len]
      simp

theorem shortBodyErr_ne_EOF (fin : Err) : shortBodyErr fin ≠ Err.EOF := by
  unfold shortBodyErr
  split <;> simp_all

theorem bodyState_zero (pr : Reader) (cur : regFileReader) (hcur : pr.current = some cur)
    (herr : pr.err = none) : pr.bodyState cur 0 none = pr := by
  cases pr
  cases cur
  simp_all [Reader.bodyState, deliver_zero]

/-- One `Read` in the middle of a body with no error latched: from the state after `d`
body bytes it leads to the state after `d + n` bytes, `n` being the bytes returned. -/
theorem Read_bodyState_none (pr : Reader) (cur : regFileReader) (d k : Nat)
    (hd : (d : Int) ≤ cur.nb) :
    (pr.bodyState cur d none).Read k = some
      (xorFrom cur.S.block cur.S.iv (cur.S.pos + d)
        ((pr.world.src.data.drop d).take
          (bodyReadLen (cur.nb - d) k (pr.world.src.data.length - d))),
       bodyReadErr (cur.nb - d) k (pr.world.deliver cur.R false d).2,
       pr.bodyState cur (d + bodyReadLen (cur.nb - d) k (pr.world.src.data.length - d))
         (readLatch (bodyReadErr (cur.nb - d) k (pr.world.deliver cur.R false d).2))) := by
  have h := regFileReader_Read_eq
    { cur with S := { cur.S with pos := cur.S.pos + d }, nb := cur.nb - (d : Int) }
    (pr.world.deliver cur.R false d).2 k (by simp only; omega)
  simp only [deliver_data, List.length_drop, deliver_deliver] at h
  simp only [Reader.Read, Reader.bodyState, h, Option.map_some', readLatch]
  have hpos : ∀ n : Nat, cur.S.pos + d + n = cur.S.pos + (d + n) := by intro n; omega
  have hnb : ∀ n : Nat, cur.nb - (d : Int) - (n : Int) = cur.nb - ((d + n : Nat) : Int) := by
    intro n; push_cast; omega
  split <;> simp [hpos, hnb]

theorem Read_bodyState_some (pr : Reader) (cur : regFileReader) (d k : Nat) (x : Err) :
    (pr.bodyState cur d (some x)).Read k = some ([], some x, pr.bodyState cur d (some x)) := by
  simp [Reader.Read, Reader.bodyState]

theorem bodyReadLen_le (nb : Int) (k avail : Nat) (h : 0 ≤ nb) :
    bodyReadLen nb k avail ≤ k ∧ (bodyReadLen nb k avail : Int) ≤ nb ∧
      bodyReadLen nb k avail ≤ avail := by
  unfold bodyReadLen
  omega

theorem readLatch_bodyReadErr (pr : Reader) (cur : regFileReader) (d k : Nat)
    (hd : (d : Int) ≤ cur.nb) (hdl : d ≤ pr.world.src.data.length) :
    BodyInv pr cur (d + bodyReadLen (cur.nb - d) k (pr.world.src.data.length - d))
      (readLatch (bodyReadErr (cur.nb - d) k (pr.world.deliver cur.R false d).2)) := by
  obtain ⟨_, h2, h3⟩ := bodyReadLen_le (cur.nb - d) k (pr.world.src.data.length - d) (by omega)
  refine ⟨by push_cast; omega, by omega, ?_⟩
  unfold bodyReadErr
  by_cases h0 : cur.nb - (d : Int) = 0
  · left
    simp [h0, readLatch]
  · by_cases hc : 0 < k ∧ (pr.world.deliver cur.R false d).2.src.data = []
    · right
      have hlen : pr.world.src.data.length ≤ d := by
        have := hc.2
        rw [deliver_data] at this
        simpa using this
      have hn : bodyReadLen (cur.nb - d) k (pr.world.src.data.length - d) = 0 := by
        unfold bodyReadLen; omega
      refine ⟨?_, by rw [hn]; push_cast; omega, by rw [hn]; omega⟩
      simp only [h0, hc, and_self, if_true, if_false, deliver_fin, readLatch]
      simp [shortBodyErr_ne_EOF]
    · left
      simp [h0, hc, readLatch]

/-- Any sequence of `Read` calls on the body of an entry returns, and it leads from a
consistent body state to a consistent body state, the number of body bytes read growing
by the number of bytes the calls returned. -/
theorem reads_bodyState (env : Env) (pr : Reader) (cur : regFileReader) (ks : List Nat) :
    ∀ (d : Nat) (err : Option Err), BodyInv pr cur d err →
      ∃ d1 err1 rs, (pr.bodyState cur d err).calls env (ks.map Call.Read)
          = some (rs, pr.bodyState cur d1 err1) ∧
        BodyInv pr cur d1 err1 ∧ d1 = d + (rs.map Ret.count).sum := by
  induction ks with
  | nil =>
    intro d err hinv
    exact ⟨d, err, [], rfl, hinv, by simp⟩
  | cons k ks ih =>
    intro d err hinv
    cases err with
    | some x =>
      obtain ⟨d1, err1, rs, hrun, hinv1, hd1⟩ := ih d (some x) hinv
      refine ⟨d1, err1, Ret.bytes [] (some x) :: rs, ?_, hinv1, ?_⟩
      · simp [Reader.calls, Reader.call, Read_bodyState_some, hrun]
      · simp [Ret.count, hd1]
    | none =>
      obtain ⟨hd, hdl, _⟩ := hinv
      have hinv' := readLatch_bodyReadErr pr cur d k hd hdl
      obtain ⟨d1, err1, rs, hrun, hinv1, hd1⟩ := ih _ _ hinv'
      obtain ⟨_, _, h3⟩ := bodyReadLen_le (cur.nb - d) k (pr.world.src.data.length - d)
        (by omega)
      refine ⟨d1, err1,
        Ret.bytes (xorFrom cur.S.block cur.S.iv (cur.S.pos + d)
          ((pr.world.src.data.drop d).take
            (bodyReadLen (cur.nb - d) k (pr.world.src.data.length - d))))
          (bodyReadErr (cur.nb - d) k (pr.world.deliver cur.R false d).2) :: rs,
        ?_, hinv1, ?_⟩
      · simp only [List.map_cons, Reader.calls, Reader.call, Read_bodyState_none pr cur d k hd,
          Option.map_some', hrun]
      · simp only [List.map_cons, Ret.count, List.sum_cons, xorFrom_length, List.length_take,
          List.length_drop, hd1]
        omega

/-! ## What a successful `Next` does -/

theorem skipUnread_index (pr : Reader) : pr.skipUnread.2.index = pr.index := by
  unfold Reader.skipUnread Reader.discard
  cases pr.reader <;> rfl

theorem skipUnread_FileHeader (pr : Reader) :
    pr.skipUnread.2.FileHeader = pr.FileHeader := by
  unfold Reader.skipUnread Reader.discard
  cases pr.reader <;> rfl

/-- `Next` returns the entry at the index position when no error is latched, the skip
succeeds, the entry has a key and its body size is not negative. -/
theorem Next_eq_ok (env : Env) (pr : Reader) (e : fileEntry) (S : CtrStream)
    (herr : pr.err = none) (hskip : pr.skipUnread.1 = none)
    (hent : pr.index.itemRecords[pr.index.idx]? = some e)
    (hkey : e.Key.bind (fun key => NewCTR key pr.FileHeader.DataIV (Int.tdiv e.Offset 16))
      = some S)
    (hnb : 0 ≤ e.bodySize) :
    pr.Next env = some (Except.ok e, pr.skipUnread.2.entered e S) := by
  have hent' : pr.skipUnread.2.index.itemRecords[pr.skipUnread.2.index.idx]? = some e := by
    rw [skipUnread_index]; exact hent
  have hnb' : ¬ (if e.IsDirectory = true then (0 : Int) else e.Size) < 0 := by
    unfold fileEntry.bodySize at hnb; omega
  simp only [Reader.Next, herr, Reader.next, hskip, Reader.readNextEntry, hent',
    Reader.handleRegularFile, hnb', if_false, Nat.add_sub_cancel, Nat.succ_ne_zero,
    skipUnread_FileHeader, hkey, Option.map_some', Reader.entered, Reader.nextOffset,
    fileEntry.bodySize]

/-- Conversely, when `Next` returns an entry, it is the entry at the index position, no
error was latched, the skip succeeded, and the new state is `entered`. -/
theorem Next_ok_inv (env : Env) (pr pr1 : Reader) (e : fileEntry)
    (h : pr.Next env = some (Except.ok e, pr1)) :
    pr.err = none ∧ pr.skipUnread.1 = none ∧
    pr.index.itemRecords[pr.index.idx]? = some e ∧ 0 ≤ e.bodySize ∧
    ∃ S, e.Key.bind (fun key => NewCTR key pr.FileHeader.DataIV (Int.tdiv e.Offset 16))
        = some S ∧ pr1 = pr.skipUnread.2.entered e S := by
  unfold Reader.Next at h
  cases herr : pr.err with
  | some x => simp [herr] at h
  | none =>
    simp only [herr, Option.map_eq_some'] at h
    obtain ⟨r, hr, hr2⟩ := h
    unfold Reader.next at hr
    cases hskip : pr.skipUnread.1 with
    | some x =>
      simp only [hskip, Option.some.injEq] at hr
      subst hr
      simp at hr2
    | none =>
      simp only [hskip] at hr
      unfold Reader.readNextEntry at hr
      rw [skipUnread_index] at hr
      cases hent : pr.index.itemRecords[pr.index.idx]? with
      | none =>
        simp only [hent] at hr
        cases htail : (Reader.readTail env pr.skipUnread.2).1 with
        | none =>
          simp only [htail, Option.some.injEq] at hr
          subst hr
          simp at hr2
        | some x =>
          simp only [htail, Option.some.injEq] at hr
          subst hr
          simp at hr2
      | some e0 =>
        simp only [hent] at hr
        unfold Reader.handleRegularFile at hr
        by_cases hnb : (if e0.IsDirectory = true then (0 : Int) else e0.Size) < 0
        · simp only [hnb, if_true, Option.some.injEq] at hr
          subst hr
          simp at hr2
        · simp only [hnb, if_false, Nat.add_sub_cancel, Nat.succ_ne_zero, hent,
            skipUnread_FileHeader] at hr
          cases hkey : e0.Key.bind
              (fun key => NewCTR key pr.FileHeader.DataIV (Int.tdiv e0.Offset 16)) with
          | none => simp [hkey] at hr
          | some S =>
            simp only [hkey, Option.some.injEq] at hr
            subst hr
            simp only [Prod.mk.injEq, Except.ok.injEq] at hr2
            obtain ⟨he, hpr1⟩ := hr2
            subst he
            refine ⟨rfl, rfl, rfl, ?_, S, hkey, ?_⟩
            · unfold fileEntry.bodySize; omega
            · rw [← hpr1]
              simp [Reader.entered, Reader.nextOffset, fileEntry.bodySize,
                skipUnread_index, skipUnread_FileHeader]

/-! ## The file index -/

theorem parseItemRecords_length (n : Nat) (b : List Nat) :
    (parseItemRecords n b).length = n := by
  induction n generalizing b with
  | zero => rfl
  | succ n ih => simp [parseItemRecords, ih]

/-- Every entry the loop of `readFileIndex` builds carries the offset, size and flags of
its record and the key chosen for it, and that key is not nil. -/
theorem buildEntries_spec (pkgType : Nat) (primary : Block) (ps3ctr : Option Block)
    (iv : List Nat) (recordListSize : Int) (recs : List ItemRecord) :
    ∀ (tb : List Nat) (es : List fileEntry),
      buildEntries pkgType primary ps3ctr iv recordListSize recs tb = some es →
      List.Forall₂ (fun rec e => e.Offset = rec.DataOffset ∧ e.Size = rec.DataSize ∧
        e.Flags = rec.Flags ∧ e.Key = selectKey pkgType primary ps3ctr rec ∧
        ∃ key, e.Key = some key ∧
          (NewCTR key iv ((rec.FilenameOffset / 16 : Nat) : Int)).isSome) recs es := by
  induction recs with
  | nil =>
    intro tb es h
    simp only [buildEntries, Option.some.injEq] at h
    subst h
    exact List.Forall₂.nil
  | cons rec rest ih =>
    intro tb es h
    unfold buildEntries at h
    simp only at h
    split at h
    · simp at h
    · split at h
      · simp at h
      · rename_i ctr hk
        split at h
        · simp at h
        · rename_i name hd
          simp only [Option.map_eq_some'] at h
          obtain ⟨es', hes', hes⟩ := h
          subst hes
          refine List.Forall₂.cons ⟨rfl, rfl, rfl, hk.symm, ctr, rfl, ?_⟩ (ih _ _ hes')
          unfold AESCTRDecrypt at hd
          cases hn : NewCTR ctr iv ((rec.FilenameOffset / 16 : Nat) : Int) with
          | none =>
            push_cast at hn
            simp [hn] at hd
          | some s => rfl

theorem NewCTR_isSome_iff (b : Block) (iv : List Nat) (c : Int) :
    (NewCTR b iv c).isSome = true ↔ iv.length = 16 := by
  unfold NewCTR
  by_cases hc : c > 0
  · simp only [hc, if_true, addCTRCounter]
    by_cases hl : iv.length < 16
    · simp [hl]; omega
    · simp [hl, cipherNewCTR, addCTRCounterLoop_length]
  · simp only [hc, if_false, Option.some_bind]
    unfold cipherNewCTR
    split <;> simp_all

theorem forall₂_mem_right {α β : Type} {R : α → β → Prop} {l1 : List α} {l2 : List β}
    (h : List.Forall₂ R l1 l2) : ∀ y ∈ l2, ∃ x ∈ l1, R x y := by
  induction h with
  | nil => intro y hy; simp at hy
  | cons hr _ ih =>
    intro y hy
    rcases List.mem_cons.mp hy with rfl | hy
    · exact ⟨_, List.mem_cons_self _ _, hr⟩
    · obtain ⟨x, hx, hxy⟩ := ih y hy
      exact ⟨x, List.mem_cons_of_mem _ hx, hxy⟩

/-! ## Skipping and the tail -/

theorem copyN_of_le (w : World) (t : Tap) (toTail : Bool) (n : Int)
    (h : n.toNat ≤ w.src.data.length) :
    w.copyN t toTail n = (n.toNat, none, (w.deliver t toTail n.toNat).2) := by
  unfold World.copyN
  by_cases h0 : n ≤ 0
  · have : n.toNat = 0 := by omega
    simp [h0, this, deliver_zero]
  · simp [h0, h]

theorem copyN_of_gt (w : World) (t : Tap) (toTail : Bool) (n : Int)
    (h : w.src.data.length < n.toNat) :
    w.copyN t toTail n
      = (w.src.data.length, some w.src.fin, (w.deliver t toTail w.src.data.length).2) := by
  unfold World.copyN
  have h0 : ¬ n ≤ 0 := by omega
  have h1 : ¬ n.toNat ≤ w.src.data.length := by omega
  simp [h0, h1]

/-- When the input holds the bytes to discard, `skipUnread` succeeds, takes exactly
`pending` bytes off the input through the tap of `pr.reader`, and clears `current` and
`pad`. -/
theorem skipUnread_of_le (pr : Reader) (h : pr.pending.toNat ≤ pr.world.src.data.length) :
    pr.skipUnread.1 = none ∧
    pr.skipUnread.2.world = (pr.world.deliver pr.tap false pr.pending.toNat).2 ∧
    pr.skipUnread.2.current = none ∧ pr.skipUnread.2.pad = 0 ∧
    pr.skipUnread.2.err = pr.err ∧ pr.skipUnread.2.reader = pr.reader ∧
    pr.skipUnread.2.aesReader.R = pr.aesReader.R ∧
    pr.skipUnread.2.CalculatedHash = pr.CalculatedHash ∧
    pr.skipUnread.2.FileHash = pr.FileHash := by
  unfold Reader.pending at h
  unfold Reader.skipUnread Reader.discard Reader.tap Reader.pending
  cases hr : pr.reader with
  | tap t =>
    simp only [hr]
    rw [copyN_of_le _ _ _ _ h]
    simp [Reader.numBytes]
  | aes =>
    simp only [hr]
    rw [copyN_of_le _ _ _ _ h]
    simp [Reader.numBytes]

theorem readFull_of_le (w : World) (t : Tap) (toTail : Bool) (k : Nat)
    (h : k ≤ w.src.data.length) :
    w.readFull t toTail k = (w.src.data.take k, none, (w.deliver t toTail k).2) := by
  simp [World.readFull, h, World.deliver]

/-- When the input holds the tail and the trailer, `readTail` succeeds and leaves the
reader in state `tailDone`. -/
theorem readTail_of_le (env : Env) (pr : Reader)
    (h : tailDemand pr.FileHeader ≤ pr.world.src.data.length) :
    pr.readTail env = (none, pr.tailDone env) := by
  have hc : tailCopy pr.FileHeader + 0x20 ≤ pr.world.src.data.length := h
  unfold Reader.readTail
  simp only
  rw [copyN_of_le _ _ _ _ (by unfold tailCopy at hc; omega)]
  simp only [Option.isSome_none, Bool.false_eq_true, if_false]
  rw [readFull_of_le _ _ _ _ (by
    rw [deliver_data, List.length_drop]; unfold tailCopy at hc; omega)]
  simp [Reader.tailDone, tailCopy]

/-- `Next` on an exhausted index, with the tail and trailer available, reads the tail
and returns `io.EOF`. -/
theorem Next_at_end (env : Env) (pr : Reader) (herr : pr.err = none)
    (hidx : pr.index.itemRecords[pr.index.idx]? = none)
    (hav : pr.pending.toNat + tailDemand pr.FileHeader ≤ pr.world.src.data.length) :
    pr.Next env = some (Except.error Err.EOF,
      { pr.skipUnread.2.tailDone env with err := some Err.EOF }) := by
  obtain ⟨hs1, hs2, _⟩ := skipUnread_of_le pr (by omega)
  have htail : tailDemand pr.skipUnread.2.FileHeader ≤ pr.skipUnread.2.world.src.data.length := by
    rw [skipUnread_FileHeader, hs2, deliver_data, List.length_drop]
    omega
  have hidx' : pr.skipUnread.2.index.itemRecords[pr.skipUnread.2.index.idx]? = none := by
    rw [skipUnread_index]; exact hidx
  simp [Reader.Next, herr, Reader.next, hs1, Reader.readNextEntry, hidx',
    readTail_of_le env _ htail]

theorem drop_eq_cons_getElem? {α : Type} (l : List α) (i : Nat) (x : α) (rest : List α)
    (h : l.drop i = x :: rest) :
    l[i]? = some x ∧ l.drop (i + 1) = rest ∧ l[i + 1]? = rest.head? := by
  have h1 : l[i]? = some x := by
    have := congrArg List.head? h
    simpa [List.head?_drop] using this
  have h2 : l.drop (i + 1) = rest := by
    have := congrArg List.tail h
    simpa [List.tail_drop] using this
  refine ⟨h1, h2, ?_⟩
  have := congrArg List.head? h2
  simpa [List.head?_drop] using this

theorem drop_eq_nil_getElem? {α : Type} (l : List α) (i : Nat) (h : l.drop i = []) :
    l[i]? = none := by
  have := congrArg List.head? h
  simpa [List.head?_drop] using this

theorem entered_pending (p : Reader) (e : fileEntry) (S : CtrStream) (rest : List fileEntry)
    (hnext : p.index.itemRecords[p.index.idx + 1]? = rest.head?) :
    ((p.entered e S).pending.toNat + skipDemand rest p.FileHeader.DataSize)
      = skipDemand (e :: rest) p.FileHeader.DataSize := by
  have hp : (p.entered e S).pending
      = skipAmount e (p.nextOffset p.index.idx) := by
    simp [Reader.pending, Reader.entered, Reader.numBytes, skipAmount]
  rw [hp]
  unfold Reader.nextOffset
  rw [hnext]
  cases rest with
  | nil => simp [skipDemand]
  | cons e1 r => simp [skipDemand]

/-- Successive `Next` calls on an input that holds every byte they ask for return the
remaining entries of the index in order and then `io.EOF`. -/
theorem nexts_enumerate (env : Env) : ∀ (l : List fileEntry) (pr : Reader),
    pr.err = none → pr.index.itemRecords.drop pr.index.idx = l →
    (∀ e ∈ l, Enterable pr.FileHeader.DataIV e) →
    pr.pending.toNat + skipDemand l pr.FileHeader.DataSize + tailDemand pr.FileHeader
      ≤ pr.world.src.data.length →
    ∃ pr2, pr.calls env (List.replicate (l.length + 1) Call.Next)
      = some (l.map (fun e => Ret.entry (Except.ok e)) ++ [Ret.entry (Except.error Err.EOF)],
          pr2) := by
  intro l
  induction l with
  | nil =>
    intro pr herr hdrop _ hav
    have hidx := drop_eq_nil_getElem? _ _ hdrop
    simp only [skipDemand, Nat.add_zero] at hav
    exact ⟨{ pr.skipUnread.2.tailDone env with err := some Err.EOF }, by
      simp [List.replicate, Reader.calls, Reader.call, Next_at_end env pr herr hidx hav]⟩
  | cons e rest ih =>
    intro pr herr hdrop hok hav
    obtain ⟨hget, hdrop1, hnext⟩ := drop_eq_cons_getElem? _ _ _ _ hdrop
    obtain ⟨hb, S, hS⟩ := hok e (List.mem_cons_self _ _)
    obtain ⟨hs1, hs2, _⟩ := skipUnread_of_le pr (by omega)
    have hN := Next_eq_ok env pr e S herr hs1 hget hS hb
    have hnext' : pr.skipUnread.2.index.itemRecords[pr.skipUnread.2.index.idx + 1]?
        = rest.head? := by
      rw [skipUnread_index]; exact hnext
    have hpend := entered_pending pr.skipUnread.2 e S rest hnext'
    rw [skipUnread_FileHeader] at hpend
    have hfh : (pr.skipUnread.2.entered e S).FileHeader = pr.FileHeader := by
      simp [Reader.entered, skipUnread_FileHeader]
    have hw : (pr.skipUnread.2.entered e S).world.src.data.length
        = pr.world.src.data.length - pr.pending.toNat := by
      simp [Reader.entered, hs2, deliver_data]
    have hidx1 : List.drop (pr.skipUnread.2.entered e S).index.idx
        (pr.skipUnread.2.entered e S).index.itemRecords = rest := by
      simp only [Reader.entered, skipUnread_index]; exact hdrop1
    generalize pr.skipUnread.2.entered e S = pr1 at hN hpend hfh hw hidx1
    obtain ⟨pr2, hrun⟩ := ih pr1 (by
        have := Next_ok_inv env pr pr1 e hN
        obtain ⟨_, _, _, _, S', _, h'⟩ := this
        rw [h', Reader.entered])
      hidx1
      (by
        intro e' he'
        rw [hfh]
        exact hok e' (List.mem_cons_of_mem _ he'))
      (by rw [hfh, hw]; omega)
    refine ⟨pr2, ?_⟩
    rw [List.length_cons, List.replicate_succ, Reader.calls]
    simp only [Reader.call, hN, Option.map_some', hrun, List.map_cons, List.cons_append]

theorem readFullReader_frame (pr : Reader) (k : Nat) :
    (pr.readFullReader k).2.2.aesReader.block = pr.aesReader.block ∧
    (pr.readFullReader k).2.2.aesReader.R = pr.aesReader.R ∧
    (pr.readFullReader k).2.2.aesReader.iv = pr.aesReader.iv ∧
    (pr.readFullReader k).2.2.err = pr.err ∧
    (pr.readFullReader k).2.2.current = pr.current ∧
    (pr.readFullReader k).2.2.pad = pr.pad ∧
    (pr.readFullReader k).2.2.reader = pr.reader ∧
    (pr.readFullReader k).2.2.FileHeader = pr.FileHeader := by
  unfold Reader.readFullReader
  cases pr.reader <;> simp

/-- What a successful `readFileIndex` has done: the entries come out of the loop run on
the decrypted item records, with `ps3ctr` either nil or the cipher of `KeyPS3` (the
latter only when the extended header's key type is 1). -/
theorem readFileIndex_ok_inv (env : Env) (pr pr1 : Reader) (entries : List fileEntry)
    (h : pr.readFileIndex env = some (Except.ok entries, pr1)) :
    0 ≤ pr.FileHeader.ItemCount ∧
    (∃ ps3ctr tb,
      (ps3ctr = none ∨ (pr.extendedHeader.KeyType = 1 ∧ ps3ctr = some (env.aes env.KeyPS3))) ∧
      buildEntries pr.pkgType pr.aesReader.block ps3ctr pr.FileHeader.DataIV
        ((32 * pr.FileHeader.ItemCount.toNat : Nat) : Int) pr.itemRecords tb = some entries) ∧
    pr1.err = pr.err ∧ pr1.current = pr.current ∧ pr1.pad = pr.pad ∧
    pr1.reader = pr.reader ∧ pr1.FileHeader = pr.FileHeader := by
  unfold Reader.readFileIndex at h
  obtain ⟨hb, hR, hiv, he, hc, hp, hr, hf⟩ :=
    readFullReader_frame pr (32 * pr.FileHeader.ItemCount.toNat)
  split at h
  · simp at h
  · rename_i hcount
    simp only at h
    split at h
    · simp at h
    · split at h
      · simp at h
      · split at h
        · simp at h
        · split at h
          · simp at h
          · split at h
            · simp at h
            · rename_i st hst
              split at h
              · simp at h
              · rename_i ps3ctr hps
                split at h
                · simp at h
                · rename_i es hes
                  simp only [Option.some.injEq, Prod.mk.injEq, Except.ok.injEq] at h
                  obtain ⟨h1, h2⟩ := h
                  subst h1 h2
                  rw [hb] at hes
                  refine ⟨by omega, ⟨ps3ctr, _, ?_, hes⟩, he, hc, hp, hr, hf⟩
                  · unfold ps3Cipher at hps
                    by_cases hk : pr.extendedHeader.KeyType = 1
                    · right
                      refine ⟨hk, ?_⟩
                      simp only [hk, if_true] at hps
                      unfold NewCipher at hps
                      split at hps
                      · simpa [Except.map] using hps.symm
                      · simp [Except.map] at hps
                    · left
                      simp only [hk, if_false] at hps
                      simpa using hps.symm

/-! ## Walking the index with arbitrary reads -/

theorem calls_append (env : Env) (as bs : List Call) : ∀ (pr : Reader),
    pr.calls env (as ++ bs) =
      (pr.calls env as).bind fun r =>
        (r.2.calls env bs).map fun r2 => (r.1 ++ r2.1, r2.2) := by
  induction as with
  | nil =>
    intro pr
    simp only [List.nil_append, Reader.calls, Option.some_bind]
    cases pr.calls env bs <;> simp
  | cons a as ih =>
    intro pr
    rw [List.cons_append, Reader.calls, Reader.calls]
    cases h1 : pr.call env a with
    | none => simp
    | some x =>
      obtain ⟨r, pr1⟩ := x
      cases h2 : pr1.calls env as with
      | none =>
        dsimp only
        rw [ih pr1, h2]
        simp
      | some y =>
        obtain ⟨rs, pr2⟩ := y
        dsimp only
        rw [ih pr1, h2]
        simp only [Option.some_bind]
        cases pr2.calls env bs <;> simp

theorem layout_head_le (l : List fileEntry) (ds : Int) (h : LayoutOk l ds) :
    headOffset l ds ≤ ds := by
  induction l with
  | nil => exact le_refl _
  | cons e rest ih =>
    obtain ⟨⟨_, h2, h3, _, _⟩, hrest⟩ := h
    have := ih hrest
    simp only [headOffset]
    omega

theorem EntryOk_amounts (e : fileEntry) (next : Int) (h : EntryOk e next) :
    e.bodySize = e.Size ∧
    wrap64 (wrap64 (next - e.Offset) - e.Size) = next - e.Offset - e.Size := by
  obtain ⟨h1, h2, h3, h4, h5⟩ := h
  constructor
  · unfold fileEntry.bodySize
    split
    · rename_i hd; rw [h5 hd]
    · rfl
  · rw [wrap64_of_range (next - e.Offset) (by omega) (by omega)]
    exact wrap64_of_range _ (by omega) (by omega)

theorem nextOffset_eq_headOffset (p : Reader) (rest : List fileEntry)
    (h : p.index.itemRecords[p.index.idx + 1]? = rest.head?) :
    p.nextOffset p.index.idx = headOffset rest p.FileHeader.DataSize := by
  unfold Reader.nextOffset
  rw [h]
  cases rest <;> rfl

/-- One round of a walk: from a state in front of `Next` with an entry `e` left, `Next`
returns `e`, any `Read` calls on it return, and the state in front of the following
`Next` has taken or still has to skip exactly the bytes up to the offset that follows
`e`. -/
theorem walk_round (env : Env) (W0 : World) (entries : List fileEntry) (fh : FileHeader)
    (q : Reader) (i : Nat) (rel : Int) (e : fileEntry) (rest : List fileEntry)
    (ks : List Nat)
    (hinv : RunInv W0 entries fh i rel q)
    (hdrop : entries.drop i = e :: rest)
    (hok : EntryOk e (headOffset rest fh.DataSize))
    (hkey : ∃ S, e.Key.bind (fun key => NewCTR key fh.DataIV (Int.tdiv e.Offset 16)) = some S)
    (hlen : rel + (headOffset rest fh.DataSize - e.Offset) ≤ (W0.src.data.length : Int)) :
    ∃ rs q1, q.calls env (Call.Next :: ks.map Call.Read)
        = some (Ret.entry (Except.ok e) :: rs, q1) ∧
      RunInv W0 entries fh (i + 1) (rel + (headOffset rest fh.DataSize - e.Offset)) q1 := by
  obtain ⟨herr, hidx, hfh, hrd, hR, hp0, c, hw, hc⟩ := hinv
  obtain ⟨S, hS⟩ := hkey
  obtain ⟨hbs, hpadeq⟩ := EntryOk_amounts e _ hok
  obtain ⟨ho0, hsz0, hend, hnext63, _⟩ := hok
  have hitems : q.index.itemRecords = entries := by rw [hidx]
  have hi : q.index.idx = i := by rw [hidx]
  obtain ⟨hget, _, hnext⟩ := drop_eq_cons_getElem? _ _ _ _ hdrop
  have hqlen : q.world.src.data.length = W0.src.data.length - c := by
    rw [hw, deliver_data, List.length_drop]
  have hpend_le : q.pending.toNat ≤ q.world.src.data.length := by
    rw [hqlen]; omega
  obtain ⟨hs1, hs2, _, _, _, hs6, hs7, _, _⟩ := skipUnread_of_le q hpend_le
  have htap : q.tap = Tap.hash := by
    unfold Reader.tap; rw [hrd]; exact hR
  have hN := Next_eq_ok env q e S herr hs1 (by rw [hitems, hi]; exact hget)
    (by rw [hfh]; exact hS) (by rw [hbs]; exact hsz0)
  have hEcur : (q.skipUnread.2.entered e S).current
      = some ⟨S, q.skipUnread.2.aesReader.R, e.bodySize⟩ := rfl
  obtain ⟨d1, err1, rs, hrun, ⟨hd1, hdl, herr1⟩, _⟩ :=
    reads_bodyState env (q.skipUnread.2.entered e S)
      ⟨S, q.skipUnread.2.aesReader.R, e.bodySize⟩ ks 0 none
      ⟨by simp only [Nat.cast_zero]; rw [hbs]; exact hsz0, by omega, Or.inl rfl⟩
  rw [bodyState_zero _ _ hEcur rfl] at hrun
  have hEw : (q.skipUnread.2.entered e S).world
      = (W0.deliver Tap.hash false (c + q.pending.toNat)).2 := by
    show q.skipUnread.2.world = _
    rw [hs2, htap, hw, deliver_deliver]
  have hElen : (q.skipUnread.2.entered e S).world.src.data.length
      = W0.src.data.length - (c + q.pending.toNat) := by
    rw [hEw, deliver_data, List.length_drop]
  simp only at hd1
  rw [hbs] at hd1
  rw [hElen] at hdl
  have he1 : err1 = none := by
    rcases herr1 with h | ⟨_, h2, h3⟩
    · exact h
    · simp only at h2
      rw [hbs] at h2
      rw [hElen] at h3
      omega
  subst he1
  have hno : (q.skipUnread.2.entered e S).pad
      = headOffset rest fh.DataSize - e.Offset - e.Size := by
    show wrap64 (wrap64 (q.skipUnread.2.nextOffset q.skipUnread.2.index.idx - e.Offset)
      - e.Size) = _
    rw [nextOffset_eq_headOffset _ rest (by rw [skipUnread_index, hitems, hi]; exact hnext),
      skipUnread_FileHeader, hfh]
    exact hpadeq
  refine ⟨rs, (q.skipUnread.2.entered e S).bodyState
    ⟨S, q.skipUnread.2.aesReader.R, e.bodySize⟩ d1 none, ?_, ?_⟩
  · rw [Reader.calls]
    simp only [Reader.call, hN, Option.map_some', hrun]
  · have hpendF : ((q.skipUnread.2.entered e S).bodyState
        ⟨S, q.skipUnread.2.aesReader.R, e.bodySize⟩ d1 none).pending
        = headOffset rest fh.DataSize - e.Offset - (d1 : Int) := by
      show wrap64 (e.bodySize - (d1 : Int) + (q.skipUnread.2.entered e S).pad) = _
      rw [hno, hbs]
      rw [wrap64_of_range _ (by omega) (by omega)]
      omega
    refine ⟨rfl, ?_, ?_, ?_, ?_, ?_, c + q.pending.toNat + d1, ?_, ?_⟩
    · show ({ q.skipUnread.2.index with idx := q.skipUnread.2.index.idx + 1 } : indexData) = _
      rw [skipUnread_index, hidx]
    · show q.skipUnread.2.FileHeader = fh
      rw [skipUnread_FileHeader, hfh]
    · show q.skipUnread.2.reader = _
      rw [hs6, hrd]
    · show q.skipUnread.2.aesReader.R = _
      rw [hs7, hR]
    · rw [hpendF]; omega
    · show ((q.skipUnread.2.entered e S).world.deliver q.skipUnread.2.aesReader.R false d1).2
        = _
      rw [hEw, hs7, hR, deliver_deliver]
    · rw [hpendF]
      push_cast
      omega

/-- The last round of a walk: with the index exhausted, `Next` skips what is pending,
reads the tail and the trailer, and returns `io.EOF`. -/
theorem walk_end (env : Env) (W0 : World) (entries : List fileEntry) (fh : FileHeader)
    (q : Reader) (i : Nat) (rel : Int)
    (hinv : RunInv W0 entries fh i rel q)
    (hdrop : entries.drop i = [])
    (hlen : rel + (tailDemand fh : Int) ≤ (W0.src.data.length : Int)) :
    ∃ q2, q.calls env [Call.Next] = some ([Ret.entry (Except.error Err.EOF)], q2) ∧
      Walked env W0 fh rel.toNat q2 := by
  obtain ⟨herr, hidx, hfh, hrd, hR, hp0, c, hw, hc⟩ := hinv
  have hqlen : q.world.src.data.length = W0.src.data.length - c := by
    rw [hw, deliver_data, List.length_drop]
  have hget : q.index.itemRecords[q.index.idx]? = none := by
    rw [hidx]; exact drop_eq_nil_getElem? _ _ hdrop
  have hav : q.pending.toNat + tailDemand q.FileHeader ≤ q.world.src.data.length := by
    rw [hqlen, hfh]; omega
  have hN := Next_at_end env q herr hget hav
  obtain ⟨_, hs2, _, _, _, _, hs7, _, _⟩ := skipUnread_of_le q (by omega)
  have htap : q.tap = Tap.hash := by
    unfold Reader.tap; rw [hrd]; exact hR
  have hpw : q.skipUnread.2.world = (W0.deliver Tap.hash false rel.toNat).2 := by
    rw [hs2, htap, hw, deliver_deliver]
    congr 2
    omega
  refine ⟨{ q.skipUnread.2.tailDone env with err := some Err.EOF },
    by simp [Reader.calls, Reader.call, hN], ?_⟩
  simp only [Walked, Reader.tailDone, hashedWorld, hpw, hs7, hR, skipUnread_FileHeader, hfh,
    and_self]

/-- A walk over a well laid out index, with any `Read` calls on each entry, on an input
that holds the data region, the tail and the trailer: every call returns, the last one
returns `io.EOF`, and the final state is the one described by `Walked`. -/
theorem walk_spec (env : Env) (W0 : World) (entries : List fileEntry) (fh : FileHeader)
    (o0 : Int)
    (hlen : fh.DataSize - o0 + (tailDemand fh : Int) ≤ (W0.src.data.length : Int)) :
    ∀ (l : List fileEntry) (plan : List (List Nat)) (q : Reader) (i : Nat),
      plan.length = l.length → entries.drop i = l → LayoutOk l fh.DataSize →
      (∀ e ∈ l, ∃ S, e.Key.bind
        (fun key => NewCTR key fh.DataIV (Int.tdiv e.Offset 16)) = some S) →
      RunInv W0 entries fh i (headOffset l fh.DataSize - o0) q →
      ∃ rs q2, q.calls env (walk plan) = some (rs, q2) ∧
        rs.getLast? = some (Ret.entry (Except.error Err.EOF)) ∧
        Walked env W0 fh (fh.DataSize - o0).toNat q2 := by
  intro l
  induction l with
  | nil =>
    intro plan q i hpl hdrop _ _ hinv
    have hplan : plan = [] := List.length_eq_zero.mp hpl
    subst hplan
    obtain ⟨q2, hrun, hw⟩ := walk_end env W0 entries fh q i _ hinv hdrop
      (by simpa [headOffset] using hlen)
    exact ⟨[Ret.entry (Except.error Err.EOF)], q2, by simpa [walk] using hrun, rfl, hw⟩
  | cons e rest ih =>
    intro plan q i hpl hdrop hlay hkeys hinv
    cases plan with
    | nil => simp at hpl
    | cons ks plan' =>
      obtain ⟨hok, hrest⟩ := hlay
      have hle := layout_head_le rest fh.DataSize hrest
      have hrel : headOffset (e :: rest) fh.DataSize - o0
          + (headOffset rest fh.DataSize - e.Offset) = headOffset rest fh.DataSize - o0 := by
        simp only [headOffset]; omega
      obtain ⟨rs1, q1, hrun1, hinv1⟩ := walk_round env W0 entries fh q i _ e rest ks hinv
        hdrop hok (hkeys e (List.mem_cons_self _ _)) (by rw [hrel]; omega)
      rw [hrel] at hinv1
      obtain ⟨_, hdrop1, _⟩ := drop_eq_cons_getElem? _ _ _ _ hdrop
      obtain ⟨rs2, q2, hrun2, hlast, hw⟩ := ih plan' q1 (i + 1)
        (by simpa using hpl) hdrop1 hrest
        (fun e' he' => hkeys e' (List.mem_cons_of_mem _ he')) hinv1
      refine ⟨Ret.entry (Except.ok e) :: rs1 ++ rs2, q2, ?_, ?_, hw⟩
      · have hwalk : walk (ks :: plan')
            = (Call.Next :: ks.map Call.Read) ++ walk plan' := by
          simp [walk]
        rw [hwalk, calls_append, hrun1]
        simp [hrun2]
      · rw [List.getLast?_append]
        simp [hlast]

/-! ## `init` reads everything through the hash tap -/

theorem Fed.refl (w : World) : Fed w w := ⟨0, (deliver_zero w _ _).symm⟩

theorem Fed.trans {w w1 w2 : World} (h1 : Fed w w1) (h2 : Fed w1 w2) : Fed w w2 := by
  obtain ⟨n, rfl⟩ := h1
  obtain ⟨m, rfl⟩ := h2
  exact ⟨n + m, deliver_deliver w _ _ n m⟩

theorem readFull_fed (w : World) (k : Nat) : Fed w (w.readFull Tap.headHash false k).2.2 := by
  unfold World.readFull
  split
  · exact ⟨k, rfl⟩
  · split
    · exact Fed.refl w
    · exact ⟨w.src.data.length, rfl⟩

theorem copyN_fed (w : World) (n : Int) : Fed w (w.copyN Tap.headHash false n).2.2 := by
  unfold World.copyN
  split
  · exact Fed.refl w
  · split
    · exact ⟨n.toNat, rfl⟩
    · exact ⟨w.src.data.length, rfl⟩

theorem seekAhead_fed (w : World) (cur offset : Int) :
    Fed w (seekAhead w Tap.headHash cur offset).2.2 := by
  unfold seekAhead
  simp only
  split
  · exact Fed.refl w
  · split
    · exact Fed.refl w
    · split <;> exact copyN_fed w _

theorem readMetadataLoop_fed (n : Nat) : ∀ (w : World) (pos : Int) (meta : Metadata)
    (r : MetaResult), readMetadataLoop n w pos meta = some r → Fed w r.world := by
  induction n with
  | zero =>
    intro w pos meta r h
    simp only [readMetadataLoop, Option.some.injEq] at h
    subst h
    exact Fed.refl w
  | succ n ih =>
    intro w pos meta r h
    unfold readMetadataLoop at h
    simp only at h
    have h8 := readFull_fed w 8
    split at h
    · simp only [Option.some.injEq] at h
      subst h
      exact h8
    · split at h
      · have hb := readFull_fed (w.readFull Tap.headHash false 8).2.2
          (4 * (Int.tdiv (toSigned 32 (beToNat (List.take 4 (List.drop 4
            (w.readFull Tap.headHash false 8).1)))) 4).toNat)
        split at h
        · simp only [Option.some.injEq] at h
          subst h
          exact h8.trans hb
        · simp only [Option.bind_eq_some] at h
          obtain ⟨m1, _, hloop⟩ := h
          exact (h8.trans hb).trans (ih _ _ _ _ hloop)
      · simp only [Option.bind_eq_some] at h
        obtain ⟨m1, _, hloop⟩ := h
        exact h8.trans (ih _ _ _ _ hloop)

theorem readMetadata_fed (w : World) (fh : FileHeader) (meta : Metadata) (cur : Int)
    (r : MetaResult) (h : readMetadata w fh meta cur = some r) : Fed w r.world := by
  unfold readMetadata at h
  simp only at h
  have hs := seekAhead_fed w cur fh.InfoOffset
  split at h
  · simp only [Option.some.injEq] at h
    subst h
    exact hs
  · exact hs.trans (readMetadataLoop_fed _ _ _ _ _ h)

theorem readSFO_fed (w : World) (old : SfoMap) (r : SfoResult)
    (h : readSFO w Tap.headHash old = some r) : Fed w r.world := by
  unfold readSFO at h
  simp only at h
  have h1 := readFull_fed w 20
  split at h
  · simp only [Option.some.injEq] at h
    subst h; exact h1
  · split at h
    · simp only [Option.some.injEq] at h
      subst h; exact h1
    · split at h
      · simp at h
      · split at h
        · simp only [Option.some.injEq] at h
          subst h; exact h1.trans (readFull_fed _ _)
        · split at h
          · simp at h
          · split at h
            · simp only [Option.some.injEq] at h
              subst h; exact (h1.trans (readFull_fed _ _)).trans (readFull_fed _ _)
            · split at h
              · simp at h
              · split at h
                · simp only [Option.some.injEq] at h
                  subst h
                  exact ((h1.trans (readFull_fed _ _)).trans (readFull_fed _ _)).trans
                    (readFull_fed _ _)
                · simp only [Option.map_eq_some'] at h
                  obtain ⟨m, _, hm⟩ := h
                  subst hm
                  exact ((h1.trans (readFull_fed _ _)).trans (readFull_fed _ _)).trans
                    (readFull_fed _ _)

/-- What `setupDecryption` returns: a fresh `Reader` over the world it was given. -/
theorem setupDecryption_ok_inv (env : Env) (w : World) (fh : FileHeader)
    (ext : ExtendedHeader) (meta : Metadata) (sfo : SfoMap) (pr : Reader)
    (h : setupDecryption env w fh ext meta sfo = some (Except.ok pr)) :
    pr.world = w ∧ pr.reader = ReaderRef.aes ∧ pr.current = none ∧ pr.pad = 0 ∧
    pr.err = none ∧ pr.aesReader.R = Tap.headHash ∧ pr.FileHeader = fh ∧
    pr.FileHash = [] ∧ pr.CalculatedHash = [] := by
  unfold setupDecryption at h
  split at h
  · simp at h
  · simp only at h
    split at h
    · simp at h
    · split at h
      · simp at h
      · simp only [Option.map_eq_some'] at h
        obtain ⟨st, _, hst⟩ := h
        simp only [Except.ok.injEq] at hst
        subst hst
        simp

theorem readFullReader_fed (pr : Reader) (k : Nat) (hrd : pr.reader = ReaderRef.aes)
    (hR : pr.aesReader.R = Tap.headHash) :
    Fed pr.world (pr.readFullReader k).2.2.world := by
  unfold Reader.readFullReader
  rw [hrd]
  simp only
  rw [hR]
  exact readFull_fed _ _

theorem readFullReader_frame2 (pr : Reader) (k : Nat) :
    (pr.readFullReader k).2.2.index = pr.index ∧
    (pr.readFullReader k).2.2.FileHash = pr.FileHash ∧
    (pr.readFullReader k).2.2.CalculatedHash = pr.CalculatedHash := by
  unfold Reader.readFullReader
  cases pr.reader <;> simp

/-- A successful `readFileIndex` during `init` takes its bytes through `headHashReader`
and leaves the hashes untouched. -/
theorem readFileIndex_fed (env : Env) (pr pr1 : Reader) (entries : List fileEntry)
    (h : pr.readFileIndex env = some (Except.ok entries, pr1))
    (hrd : pr.reader = ReaderRef.aes) (hR : pr.aesReader.R = Tap.headHash) :
    Fed pr.world pr1.world ∧ pr1.FileHash = pr.FileHash ∧
    pr1.CalculatedHash = pr.CalculatedHash := by
  unfold Reader.readFileIndex at h
  obtain ⟨_, hR', _⟩ := readFullReader_frame pr (32 * pr.FileHeader.ItemCount.toNat)
  obtain ⟨_, hfh, hch⟩ := readFullReader_frame2 pr (32 * pr.FileHeader.ItemCount.toNat)
  have h1 := readFullReader_fed pr (32 * pr.FileHeader.ItemCount.toNat) hrd hR
  split at h
  · simp at h
  · simp only at h
    split at h
    · simp at h
    · split at h
      · simp at h
      · split at h
        · simp at h
        · split at h
          · simp at h
          · split at h
            · simp at h
            · split at h
              · simp at h
              · split at h
                · simp at h
                · simp only [Option.some.injEq, Prod.mk.injEq, Except.ok.injEq] at h
                  obtain ⟨_, h2⟩ := h
                  subst h2
                  refine ⟨?_, hfh, hch⟩
                  simp only
                  rw [hR', hR]
                  exact h1.trans (readFull_fed _ _)

theorem initBody_ok_inv (env : Env) (w : World) (fh : FileHeader) (ext : ExtendedHeader)
    (pr : Reader) (h : initBody env w fh ext = some (Except.ok pr)) :
    Fed w pr.world ∧ pr.reader = ReaderRef.aes ∧ pr.current = none ∧ pr.pad = 0 ∧
    pr.err = none ∧ pr.aesReader.R = Tap.headHash ∧ pr.FileHeader = fh ∧
    pr.FileHash = [] ∧ pr.CalculatedHash = [] := by
  unfold initBody at h
  simp only [Option.bind_eq_some] at h
  obtain ⟨m, hm, h⟩ := h
  have hfm := readMetadata_fed _ _ _ _ _ hm
  split at h
  · simp at h
  · simp only [Option.bind_eq_some] at h
    obtain ⟨a, ha, h⟩ := h
    split at h
    · simp at h
    · rename_i cur sfo w1
      have hw1 : Fed w w1 := by
        split at ha
        · simp only [Option.map_eq_some'] at ha
          obtain ⟨r, hr, hr2⟩ := ha
          have hs := seekAhead_fed m.world m.pos (m.meta.SfoOffset : Int)
          have hf := readSFO_fed _ _ _ hr
          split at hr2
          · simp at hr2
          · simp only [Except.ok.injEq, Prod.mk.injEq] at hr2
            obtain ⟨_, _, hw⟩ := hr2
            rw [← hw]
            exact (hfm.trans hs).trans hf
        · simp only [Option.some.injEq, Except.ok.injEq, Prod.mk.injEq] at ha
          obtain ⟨_, _, hw⟩ := ha
          rw [← hw]
          exact hfm
      obtain ⟨hw, rest⟩ := setupDecryption_ok_inv _ _ _ _ _ _ _ h
      refine ⟨?_, rest⟩
      rw [hw]
      exact hw1.trans (seekAhead_fed _ _ _)

theorem checkLicense_ok_inv (env : Env) (pr pr1 : Reader) (rif : List Nat)
    (h : checkLicense env pr rif = some (Except.ok pr1)) :
    ∃ lic, pr1 = { pr with rif := lic } := by
  unfold checkLicense at h
  split at h
  · split at h
    · simp at h
    · split at h
      · simp at h
      · simp only [Option.some.injEq, Except.ok.injEq] at h
        exact ⟨_, h.symm⟩
  · simp only [Option.some.injEq, Except.ok.injEq] at h
    exact ⟨pr.rif, by rw [← h]⟩

theorem readFull_none (w : World) (t : Tap) (toTail : Bool) (k : Nat)
    (h : (w.readFull t toTail k).2.1 = none) :
    k ≤ w.src.data.length ∧ (w.readFull t toTail k).1 = w.src.data.take k := by
  unfold World.readFull at h ⊢
  split
  · rename_i hk
    exact ⟨hk, rfl⟩
  · rename_i hk
    simp only [hk, if_false] at h
    split at h <;> simp at h

/-- What a successful `init` leaves: every byte taken off the input so far went through
`headHashReader` (so it was hashed, in order), the reader is at index position 0 with no
current entry, no padding and no error, `aesReader` reads from `hashReader`, both hashes
are still empty, the header is the decoded first 192 bytes, and every entry of the index
can be entered. -/
theorem init_ok_inv (env : Env) (src : Source) (rif : List Nat) (pr : Reader)
    (h : init env src rif = some (Except.ok pr)) :
    Fed { src := src, hashed := [], headBuffer := [], tailBuffer := [] } pr.world ∧
    pr.err = none ∧ pr.current = none ∧ pr.pad = 0 ∧ pr.index.idx = 0 ∧
    pr.reader = ReaderRef.aes ∧ pr.aesReader.R = Tap.hash ∧
    pr.FileHash = [] ∧ pr.CalculatedHash = [] ∧
    pr.FileHeader = parseFileHeader (src.data.take 192) ∧
    (∀ e ∈ pr.index.itemRecords, ∃ S, e.Key.bind
      (fun key => NewCTR key pr.FileHeader.DataIV (Int.tdiv e.Offset 16)) = some S) := by
  unfold init at h
  simp only at h
  have hh := readFull_fed { src := src, hashed := [], headBuffer := [], tailBuffer := [] } 192
  split at h
  · simp at h
  · rename_i hrd192
    split at h
    · simp at h
    · split at h
      · simp at h
      · split at h
        · simp at h
        · split at h
          · simp at h
          · split at h
            · simp at h
            · simp only [Option.bind_eq_some] at h
              obtain ⟨r, hr, h⟩ := h
              split at h
              · simp at h
              · rename_i pr0
                simp only [Option.bind_eq_some] at h
                obtain ⟨r1, hr1, h⟩ := h
                split at h
                · simp at h
                · rename_i pr1
                  simp only [Option.map_eq_some'] at h
                  obtain ⟨r2, hr2, h⟩ := h
                  split at h
                  · simp at h
                  · rename_i entries hent
                    simp only [Except.ok.injEq] at h
                    obtain ⟨hfed, hrd, hcur, hpad, herr, hR, hfh, hfhash, hchash⟩ :=
                      initBody_ok_inv _ _ _ _ _ hr
                    obtain ⟨lic, hlic⟩ := checkLicense_ok_inv _ _ _ _ hr1
                    have hr2' : pr1.readFileIndex env = some (Except.ok entries, r2.2) := by
                      rw [hr2, ← hent]
                    obtain ⟨hf2, hfh2, hch2⟩ := readFileIndex_fed env pr1 r2.2 entries hr2'
                      (by rw [hlic]; exact hrd) (by rw [hlic]; exact hR)
                    obtain ⟨_, ⟨ps3, tb, _, hbuild⟩, herr2, hcur2, hpad2, hrd2, hfhd2⟩ :=
                      readFileIndex_ok_inv env pr1 r2.2 entries hr2'
                    have hspec := buildEntries_spec _ _ _ _ _ _ tb entries hbuild
                    subst h
                    have hpr1fh : pr1.FileHeader = pr0.FileHeader := by rw [hlic]
                    refine ⟨?_, ?_, ?_, ?_, rfl, ?_, rfl, ?_, ?_, ?_, ?_⟩
                    · show Fed _ r2.2.world
                      have : Fed pr0.world pr1.world := by rw [hlic]; exact Fed.refl _
                      exact (((hh.trans (readFull_fed _ 64)).trans hfed).trans this).trans hf2
                    · show r2.2.err = none
                      rw [herr2, hlic]; exact herr
                    · show r2.2.current = none
                      rw [hcur2, hlic]; exact hcur
                    · show r2.2.pad = 0
                      rw [hpad2, hlic]; exact hpad
                    · show r2.2.reader = _
                      rw [hrd2, hlic]; exact hrd
                    · show r2.2.FileHash = []
                      rw [hfh2, hlic]; exact hfhash
                    · show r2.2.CalculatedHash = []
                      rw [hch2, hlic]; exact hchash
                    · show r2.2.FileHeader = _
                      rw [hfhd2, hpr1fh, hfh, (readFull_none _ _ _ _ hrd192).2]
                    · intro e he
                      obtain ⟨rec, _, _, _, _, _, key, hkey, hctr⟩ :=
                        forall₂_mem_right hspec e he
                      have hiv : pr1.FileHeader.DataIV.length = 16 :=
                        (NewCTR_isSome_iff _ _ _).mp hctr
                      have hS : (NewCTR key pr1.FileHeader.DataIV
                          (Int.tdiv e.Offset 16)).isSome = true :=
                        (NewCTR_isSome_iff _ _ _).mpr hiv
                      obtain ⟨S, hS'⟩ := Option.isSome_iff_exists.mp hS
                      refine ⟨S, ?_⟩
                      show e.Key.bind (fun key => NewCTR key r2.2.FileHeader.DataIV _) = _
                      rw [hfhd2, hkey]
                      exact hS'

/-! ## `setupDecryption` -/

theorem setupDecryption_eq (env : Env) (w : World) (fh : FileHeader) (ext : ExtendedHeader)
    (meta : Metadata) (sfo : SfoMap) (pr : Reader)
    (h : setupDecryption env w fh ext meta sfo = some (Except.ok pr)) :
    ∃ t ctrKey, pkgTypeOfContent meta.ContentType = Except.ok t ∧
      ctrKeyOf env ext.KeyType fh.DataIV = Except.ok ctrKey ∧
      pr.pkgType = (if t = PackageTypeVitaApp ∧ sfo.get (str "CATEGORY") = str "gp"
        then PackageTypeVitaPatch else t) ∧
      pr.aesReader.block = env.aes ctrKey := by
  unfold setupDecryption at h
  split at h
  · simp at h
  · rename_i t ht
    simp only at h
    split at h
    · simp at h
    · rename_i ctrKey hk
      split at h
      · simp at h
      · rename_i block hb
        simp only [Option.map_eq_some'] at h
        obtain ⟨st, _, hst⟩ := h
        simp only [Except.ok.injEq] at hst
        subst hst
        refine ⟨t, ctrKey, ht, hk, rfl, ?_⟩
        unfold NewCipher at hb
        split at hb
        · simp only [Except.ok.injEq] at hb
          exact hb.symm
        · simp at hb

theorem setupDecryption_returns (env : Env) (w : World) (fh : FileHeader)
    (ext : ExtendedHeader) (meta : Metadata) (sfo : SfoMap) (t : Nat) (ctrKey : List Nat)
    (ht : pkgTypeOfContent meta.ContentType = Except.ok t)
    (hk : ctrKeyOf env ext.KeyType fh.DataIV = Except.ok ctrKey)
    (hlen : ctrKey.length = 16 ∨ ctrKey.length = 24 ∨ ctrKey.length = 32)
    (hiv : fh.DataIV.length = 16) :
    ∃ pr, setupDecryption env w fh ext meta sfo = some (Except.ok pr) := by
  unfold setupDecryption
  rw [ht]
  simp only [hk]
  simp only [NewCipher, hlen, if_true]
  simp [NewCTR, cipherNewCTR, hiv]

theorem fit16_length (l : List Nat) : (fit16 l).length = 16 := by
  simp [fit16]

/-- The key derivation of `setupDecryption` for a base key. -/
theorem ctrKeyOf_base (env : Env) (keyType : Nat) (iv : List Nat) (h1 : keyType ≠ 1) :
    ctrKeyOf env keyType iv =
      if keyType = 2 ∨ keyType = 3 ∨ keyType = 4 then
        (let base := if keyType = 2 then env.VitaKey2
          else if keyType = 3 then env.KeyVita3 else env.KeyVita4
         if base.length = 16 ∨ base.length = 24 ∨ base.length = 32 then
           Except.ok (fit16 ((env.aes base).encrypt (iv.take 16)))
         else Except.error (Err.keySize base.length))
      else Except.error (Err.unknownKeyType keyType) := by
  unfold ctrKeyOf
  rw [if_neg h1]
  by_cases h2 : keyType = 2
  · subst h2
    by_cases hl : env.VitaKey2.length = 16 ∨ env.VitaKey2.length = 24 ∨
        env.VitaKey2.length = 32 <;>
      simp [NewCipher, Except.bind, Except.map, hl]
  · by_cases h3 : keyType = 3
    · subst h3
      by_cases hl : env.KeyVita3.length = 16 ∨ env.KeyVita3.length = 24 ∨
          env.KeyVita3.length = 32 <;>
        simp [NewCipher, Except.bind, Except.map, hl]
    · by_cases h4 : keyType = 4
      · subst h4
        by_cases hl : env.KeyVita4.length = 16 ∨ env.KeyVita4.length = 24 ∨
            env.KeyVita4.length = 32 <;>
          simp [NewCipher, Except.bind, Except.map, hl]
      · simp [h2, h3, h4, Except.bind]

/-- The outcomes of the key selection of `setupDecryption`. -/
theorem ctrKeyOf_cases (env : Env) (keyType : Nat) (iv : List Nat) :
    (keyType ∉ [1, 2, 3, 4] →
      ctrKeyOf env keyType iv = Except.error (Err.unknownKeyType keyType)) ∧
    (keyType ∈ [1, 2, 3, 4] →
      ∀ k, ctrKeyOf env keyType iv ≠ Except.error (Err.unknownKeyType k)) ∧
    (keyType = 1 → ctrKeyOf env keyType iv = Except.ok env.KeyPSP) ∧
    (∀ ctrKey, ctrKeyOf env keyType iv = Except.ok ctrKey →
      (keyType = 2 → ctrKey = fit16 ((env.aes env.VitaKey2).encrypt (iv.take 16))) ∧
      (keyType = 3 → ctrKey = fit16 ((env.aes env.KeyVita3).encrypt (iv.take 16))) ∧
      (keyType = 4 → ctrKey = fit16 ((env.aes env.KeyVita4).encrypt (iv.take 16)))) := by
  refine ⟨?_, ?_, ?_, ?_⟩
  · intro h
    simp only [List.mem_cons, List.mem_singleton, List.not_mem_nil, or_false, not_or] at h
    obtain ⟨h1, h2, h3, h4⟩ := h
    simp [ctrKeyOf, h1, h2, h3, h4, Except.bind]
  · intro h k
    simp only [List.mem_cons, List.mem_singleton, List.not_mem_nil, or_false] at h
    by_cases h1 : keyType = 1
    · simp [ctrKeyOf, h1]
    · rw [ctrKeyOf_base env keyType iv h1]
      have h' : keyType = 2 ∨ keyType = 3 ∨ keyType = 4 := by tauto
      rw [if_pos h']
      simp only
      split_ifs <;> simp
  · intro h
    simp [ctrKeyOf, h]
  · intro ctrKey hk
    refine ⟨?_, ?_, ?_⟩ <;> intro h <;> subst h <;>
      rw [ctrKeyOf_base _ _ _ (by decide)] at hk <;> simp only [] at hk <;>
      split_ifs at hk <;> simp_all
theorem pkgTypeOfContent_supported (c : Nat)
    (hct : c ∈ [0x6, 0x7, 0xe, 0xf, 0x10, 0x15, 0x16, 0x18, 0x1c]) :
    ∃ t, pkgTypeOfContent c = Except.ok t := by
  simp only [List.mem_cons, List.mem_singleton, List.not_mem_nil, or_false] at hct
  rcases hct with hc | hc | hc | hc | hc | hc | hc | hc | hc <;>
    simp [pkgTypeOfContent, ContentTypePS1, ContentTypePSP, ContentTypePSPGo,
      ContentTypeMinis, ContentTypeNeoGeo, ContentTypeVitaApp, ContentTypeVitaDLC,
      ContentTypePSM1, ContentTypePSM2, hc]

/-! ## The buffers after a complete walk -/

theorem hashedWorld_eq (W0 : World) (fh : FileHeader) (n : Nat) :
    (hashedWorld W0 fh n).hashed = W0.hashed ++ W0.src.data.take (n + tailCopy fh) ∧
    (hashedWorld W0 fh n).src.data = W0.src.data.drop (n + tailCopy fh) := by
  unfold hashedWorld
  constructor
  · simp [World.deliver, List.take_add, List.append_assoc]
  · simp [World.deliver, Nat.add_comm]

theorem tailCopy_eq (fh : FileHeader) (h0 : 0 ≤ fh.DataOffset + fh.DataSize)
    (h1 : fh.DataOffset + fh.DataSize + 0x20 ≤ fh.TotalSize) (h2 : fh.TotalSize < 2 ^ 63) :
    (tailCopy fh : Int) = fh.TotalSize - (fh.DataOffset + fh.DataSize) - 0x20 := by
  unfold tailCopy
  rw [wrap64_of_range (fh.DataOffset + fh.DataSize) h0 (by omega),
    wrap64_of_range (fh.TotalSize - (fh.DataOffset + fh.DataSize)) (by omega) (by omega),
    wrap64_of_range _ (by omega) (by omega)]
  omega

/-- The head and tail buffers of the world that `Walked` describes. -/
theorem walked_buffers (W0 : World) (fh : FileHeader) (n : Nat) :
    (((hashedWorld W0 fh n).deliver Tap.raw true 0x20).2).headBuffer = W0.headBuffer ∧
    (((hashedWorld W0 fh n).deliver Tap.raw true 0x20).2).tailBuffer
      = W0.tailBuffer ++ (W0.src.data.drop n).take (tailCopy fh + 0x20) := by
  unfold hashedWorld
  constructor
  · simp [World.deliver]
  · simp only [World.deliver, if_true, List.drop_drop, List.append_assoc]
    rw [List.take_add, List.drop_drop, Nat.add_comm n]
    simp

/-- A walk over a well-formed package after `init`: every call returns, the last `Next`
returns `io.EOF`, the head buffer is the input in front of the first body and the tail
buffer is the input from the end of the data region to `TotalSize`. -/
theorem walk_after_init (env : Env) (input : List Nat) (fin : Err)
    (rif : List Nat) (pr : Reader) (plan : List (List Nat))
    (hinit : init env ⟨input, fin⟩ rif = some (Except.ok pr))
    (hpos : (pr.world.hashed.length : Int) = pr.FileHeader.DataOffset
      + headOffset pr.index.itemRecords pr.FileHeader.DataSize)
    (hlay : LayoutOk pr.index.itemRecords pr.FileHeader.DataSize)
    (htail : pr.FileHeader.DataOffset + pr.FileHeader.DataSize + 0x20
      ≤ pr.FileHeader.TotalSize)
    (htotal : pr.FileHeader.TotalSize ≤ (input.length : Int))
    (hint : pr.FileHeader.TotalSize < 2 ^ 63)
    (hplan : plan.length = pr.index.itemRecords.length) :
    ∃ rs q, pr.calls env (walk plan) = some (rs, q) ∧
      rs.getLast? = some (Ret.entry (Except.error Err.EOF)) ∧
      q.world.headBuffer = input.take (pr.FileHeader.DataOffset
        + headOffset pr.index.itemRecords pr.FileHeader.DataSize).toNat ∧
      q.world.tailBuffer
        = (input.drop (pr.FileHeader.DataOffset + pr.FileHeader.DataSize).toNat).take
          (pr.FileHeader.TotalSize
            - (pr.FileHeader.DataOffset + pr.FileHeader.DataSize)).toNat := by
  obtain ⟨⟨N, hN⟩, herr, hcur, hpad, hidx, hrd, hR, _, _, _, hkeys⟩ :=
    init_ok_inv env _ rif pr hinit
  have hhashed : pr.world.hashed = input.take N := by rw [hN]; simp [World.deliver]
  have hhead : pr.world.headBuffer = input.take N := by rw [hN]; simp [World.deliver]
  have htb : pr.world.tailBuffer = [] := by rw [hN]; simp [World.deliver]
  have hdata : pr.world.src.data = input.drop N := by rw [hN]; simp [World.deliver]
  have hle := layout_head_le _ _ hlay
  generalize ho0 : headOffset pr.index.itemRecords pr.FileHeader.DataSize = o0 at hpos hle
  have hlenh : pr.world.hashed.length = min N input.length := by
    rw [hhashed, List.length_take]
  have hNle : N ≤ input.length := by omega
  have hNeq : (N : Int) = pr.FileHeader.DataOffset + o0 := by omega
  have htc := tailCopy_eq pr.FileHeader (by omega) htail hint
  have hpend : pr.pending = 0 := by
    simp [Reader.pending, Reader.numBytes, hcur, hpad, wrap64]
  have hinv : RunInv pr.world pr.index.itemRecords pr.FileHeader 0
      (headOffset pr.index.itemRecords pr.FileHeader.DataSize - o0) pr := by
    refine ⟨herr, ?_, rfl, hrd, hR, by rw [hpend], 0, (deliver_zero _ _ _).symm, ?_⟩
    · cases hi : pr.index
      rw [hi] at hidx
      simp only at hidx
      rw [hidx]
    · rw [hpend, ho0]; simp
  obtain ⟨rs, q, hrun, hlast, hw, _, _, _⟩ :=
    walk_spec env pr.world pr.index.itemRecords pr.FileHeader o0
      (by
        have : (tailDemand pr.FileHeader : Int) = (tailCopy pr.FileHeader : Int) + 0x20 := by
          unfold tailDemand tailCopy; push_cast; rfl
        rw [this, htc, hdata, List.length_drop]
        omega)
      pr.index.itemRecords plan pr 0 hplan rfl hlay hkeys hinv
  refine ⟨rs, q, hrun, hlast, ?_, ?_⟩
  · rw [hw, (walked_buffers _ _ _).1, hhead]
    congr 1
    omega
  · rw [hw, (walked_buffers _ _ _).2, htb, hdata, List.nil_append, List.drop_drop]
    congr 2 <;> omega

/-! ## `pkg/license.go` -/

theorem adler32_lt (l : List Nat) : adler32 l < 2 ^ 32 := by
  unfold adler32
  have h : ∀ (l : List Nat) (ab : Nat × Nat), ab.1 < 65521 → ab.2 < 65521 →
      (l.foldl (fun (ab : Nat × Nat) x =>
        ((ab.1 + x) % 65521, (ab.2 + (ab.1 + x) % 65521) % 65521)) ab).1 < 65521 ∧
      (l.foldl (fun (ab : Nat × Nat) x =>
        ((ab.1 + x) % 65521, (ab.2 + (ab.1 + x) % 65521) % 65521)) ab).2 < 65521 := by
    intro l
    induction l with
    | nil => intro ab h1 h2; exact ⟨h1, h2⟩
    | cons x xs ih =>
      intro ab _ _
      exact ih _ (Nat.mod_lt _ (by decide)) (Nat.mod_lt _ (by decide))
  obtain ⟨h1, h2⟩ := h l (1, 0) (by decide) (by decide)
  simp only
  omega

/-- The stream that `EncodeLicense` encodes: the header bytes `0x28 0xEE` in front of the
dictionary checksum, the compressed data and the data checksum. -/
theorem encodeLicenseStream_eq (env : Env) (data : List Nat) :
    encodeLicenseStream env data
      = some (0x28 :: 0xEE :: (natToBE 4 (adler32 env.rifDict) ++ env.deflate env.rifDict data
          ++ natToBE 4 (adler32 data))) := by
  simp [encodeLicenseStream, zlibCompress, fixHeader]

/-- The zlib reader accepts the stream with the fixed header whenever the decompressor
inverts the compressor. -/
theorem zlibDecompress_fixed (env : Env) (dict data : List Nat)
    (hflate : ∀ rest, env.inflate (some dict) (env.deflate dict data ++ rest)
      = Except.ok (data, rest)) :
    zlibDecompress env dict (0x28 :: 0xEE :: (natToBE 4 (adler32 dict) ++ env.deflate dict data
      ++ natToBE 4 (adler32 data))) = Except.ok data := by
  have hd : (natToBE 4 (adler32 dict) ++ env.deflate dict data
      ++ natToBE 4 (adler32 data)).take 4 = natToBE 4 (adler32 dict) := by
    rw [List.append_assoc, List.take_left' (natToBE_length _ _)]
  have hr : (natToBE 4 (adler32 dict) ++ env.deflate dict data
      ++ natToBE 4 (adler32 data)).drop 4 = env.deflate dict data ++ natToBE 4 (adler32 data) := by
    rw [List.append_assoc, List.drop_left' (natToBE_length _ _)]
  have hb : ∀ l, beToNat (natToBE 4 (adler32 l)) = adler32 l := fun l => by
    rw [beToNat_natToBE]
    exact Nat.mod_eq_of_lt (adler32_lt l)
  have h40 : (40 &&& 15 : Nat) = 8 := by decide
  unfold zlibDecompress
  simp only [hd, hr, hb, hflate]
  have ht : ∀ v, (natToBE 4 v).take 4 = natToBE 4 v := fun v =>
    List.take_of_length_le (by rw [natToBE_length])
  simp [natToBE_length, hb, h40, hflate, ht]

/-! ## The license check of `init` -/

theorem readFullReader_frame3 (pr : Reader) (k : Nat) :
    (pr.readFullReader k).2.2.pkgType = pr.pkgType ∧
    (pr.readFullReader k).2.2.rif = pr.rif := by
  unfold Reader.readFullReader
  cases pr.reader <;> simp

/-- A successful `readFileIndex` leaves the package type and the license untouched. -/
theorem readFileIndex_frame3 (env : Env) (pr pr1 : Reader) (entries : List fileEntry)
    (h : pr.readFileIndex env = some (Except.ok entries, pr1)) :
    pr1.pkgType = pr.pkgType ∧ pr1.rif = pr.rif := by
  unfold Reader.readFileIndex at h
  obtain ⟨hp, hr⟩ := readFullReader_frame3 pr (32 * pr.FileHeader.ItemCount.toNat)
  split at h
  · simp at h
  · simp only at h
    split at h
    · simp at h
    · split at h
      · simp at h
      · split at h
        · simp at h
        · split at h
          · simp at h
          · split at h
            · simp at h
            · split at h
              · simp at h
              · split at h
                · simp at h
                · simp only [Option.some.injEq, Prod.mk.injEq, Except.ok.injEq] at h
                  obtain ⟨_, h2⟩ := h
                  subst h2
                  exact ⟨hp, hr⟩

/-- What the license check of `init` has verified when it lets a license through. -/
theorem checkLicense_checked (env : Env) (pr pr1 : Reader) (rif : List Nat)
    (h : checkLicense env pr rif = some (Except.ok pr1)) (hrif : rif ≠ [])
    (h1 : pr.pkgType ≠ PackageTypePSOne) (h2 : pr.pkgType ≠ PackageTypePSP) :
    ∃ lic, DecodeLicense env rif pr.pkgType = Except.ok lic ∧
      rifContentID lic pr.pkgType = pr.FileHeader.ContentID ∧
      pr1 = { pr with rif := lic } := by
  have hlen : rif.length > 0 := List.length_pos.mpr hrif
  unfold checkLicense at h
  rw [if_pos ⟨hlen, h1, h2⟩] at h
  split at h
  · simp at h
  · rename_i lic hlic
    split at h
    · simp at h
    · rename_i heq
      simp only [Option.some.injEq, Except.ok.injEq] at h
      simp only [ne_eq, not_not] at heq
      exact ⟨lic, hlic, heq, h.symm⟩

/-- The license check of `init` on a license whose content ID differs. -/
theorem checkLicense_mismatch (env : Env) (pr : Reader) (rif lic : List Nat)
    (hrif : rif ≠ []) (h1 : pr.pkgType ≠ PackageTypePSOne) (h2 : pr.pkgType ≠ PackageTypePSP)
    (hlic : DecodeLicense env rif pr.pkgType = Except.ok lic)
    (hne : rifContentID lic pr.pkgType ≠ pr.FileHeader.ContentID) :
    checkLicense env pr rif = some (Except.error Err.licenseMismatch) := by
  have hlen : rif.length > 0 := List.length_pos.mpr hrif
  unfold checkLicense
  rw [if_pos ⟨hlen, h1, h2⟩]
  simp only [hlic]
  rw [if_pos hne]

/-- The slice that `rifContentID` returns on a license that holds the 36 bytes. -/
theorem rifContentID_eq (lic : List Nat) (pkgType : Nat)
    (hlen : (if pkgType = PackageTypePSM then 0x50 else 0x10) + 36 ≤ lic.length) :
    rifContentID lic pkgType
      = (lic.drop (if pkgType = PackageTypePSM then 0x50 else 0x10)).take 36 := by
  unfold rifContentID
  simp only
  rw [List.drop_append_of_le_length (by omega), List.take_append_of_le_length]
  rw [List.length_drop]
  omega

/-- A license that `DecodeLicense` accepts for a positive package type has the length
`licenseSize` of that type. -/
theorem DecodeLicense_ok_length (env : Env) (src lic : List Nat) (pkgType : Int)
    (h : DecodeLicense env src pkgType = Except.ok lic) (hpos : pkgType > 0) :
    lic.length = licenseSize pkgType := by
  unfold DecodeLicense at h
  split at h
  · simp at h
  · split at h
    · simp at h
    · split at h
      · simp at h
      · rename_i hc
        simp only [Except.ok.injEq] at h
        subst h
        by_contra hne
        exact hc ⟨hpos, hne⟩

/-- The stages of a successful `init`: the reader `pr0` that `setupDecryption` returns
does not depend on the license, the license check lets `rif` through, and an error of the
license check on another license is the result of `init` on it. -/
theorem init_ok_stages (env : Env) (src : Source) (rif : List Nat) (pr : Reader)
    (h : init env src rif = some (Except.ok pr)) :
    ∃ pr0 pr1, checkLicense env pr0 rif = some (Except.ok pr1) ∧
      pr.pkgType = pr0.pkgType ∧ pr.FileHeader = pr0.FileHeader ∧ pr.rif = pr1.rif ∧
      ∀ rif' e, checkLicense env pr0 rif' = some (Except.error e) →
        init env src rif' = some (Except.error e) := by
  unfold init at h
  simp only at h
  split at h
  · simp at h
  · rename_i hrd192
    split at h
    · simp at h
    · rename_i hmagic
      split at h
      · simp at h
      · rename_i hsize
        split at h
        · simp at h
        · rename_i hcount
          split at h
          · simp at h
          · rename_i hrd64
            split at h
            · simp at h
            · rename_i hext
              simp only [Option.bind_eq_some] at h
              obtain ⟨r, hr, h⟩ := h
              split at h
              · simp at h
              · rename_i pr0
                simp only [Option.bind_eq_some] at h
                obtain ⟨r1, hr1, h⟩ := h
                split at h
                · simp at h
                · rename_i pr1
                  simp only [Option.map_eq_some'] at h
                  obtain ⟨r2, hr2, h⟩ := h
                  split at h
                  · simp at h
                  · rename_i entries hent
                    simp only [Except.ok.injEq] at h
                    have hr2' : pr1.readFileIndex env = some (Except.ok entries, r2.2) := by
                      rw [hr2, ← hent]
                    obtain ⟨hpt, hrf⟩ := readFileIndex_frame3 env pr1 r2.2 entries hr2'
                    obtain ⟨_, _, _, _, _, _, hfh⟩ :=
                      readFileIndex_ok_inv env pr1 r2.2 entries hr2'
                    obtain ⟨lic, hlic⟩ := checkLicense_ok_inv _ _ _ _ hr1
                    subst h
                    refine ⟨pr0, pr1, hr1, ?_, ?_, ?_, ?_⟩
                    · show r2.2.pkgType = _
                      rw [hpt, hlic]
                    · show r2.2.FileHeader = _
                      rw [hfh, hlic]
                    · show r2.2.rif = _
                      rw [hrf]
                    · intro rif' e he
                      unfold init
                      simp only [hrd192, hmagic, hsize, hcount, hrd64, hext, if_false, hr,
                        Option.some_bind, he]

/-! ## The checks of `init` on the file header and the records of `readMetadata` -/

/-- The part of C21 that the code fulfils: an input of at least 192 bytes whose header
size is at most 192, or whose item count is zero, is rejected with an error that depends
on the first 192 bytes only. -/
theorem init_rejects_header (env : Env) (src : Source) (rif : List Nat)
    (hlen : 192 ≤ src.data.length)
    (h : (parseFileHeader (src.data.take 192)).HeaderSize ≤ 192 ∨
      (parseFileHeader (src.data.take 192)).ItemCount = 0) :
    init env src rif = some (Except.error Err.invalidPKG) ∨
    init env src rif = some (Except.error Err.noExtendedHeader) ∨
    init env src rif = some (Except.error Err.noItems) := by
  have hr := readFull_of_le
    { src := src, hashed := [], headBuffer := [], tailBuffer := [] } Tap.headHash false 192 hlen
  unfold init
  simp only [hr]
  by_cases hm : (parseFileHeader (src.data.take 192)).Magic ≠ fileHeaderMagic
  · left
    rw [if_pos hm]
  · by_cases hs : (parseFileHeader (src.data.take 192)).HeaderSize ≤ 192
    · right; left
      rw [if_neg hm, if_pos hs]
    · right; right
      have hc : (parseFileHeader (src.data.take 192)).ItemCount = 0 := by tauto
      rw [if_neg hm, if_neg hs, if_pos hc]

/-- The switch of `readMetadata` indexes an empty `buf` for every recognised type. -/
theorem applyInfo_nil (meta : Metadata) (type : Nat)
    (ht : type ∈ [IdentifierDRMType, IdentifierContentType, IdentifierPackageFlags,
      IdentifierFileIndexInfo, IdentifierSFO]) :
    applyInfo meta type [] = none := by
  simp only [List.mem_cons, List.mem_singleton, List.not_mem_nil, or_false] at ht
  rcases ht with h | h | h | h | h <;> subst h <;>
    simp [applyInfo, IdentifierDRMType, IdentifierContentType, IdentifierPackageFlags,
      IdentifierFileIndexInfo, IdentifierSFO]

/-- A record of a recognised type whose declared size is below 4 (zero and negative sizes
included) makes `readMetadata` index `buf` out of range. -/
theorem readMetadataLoop_short_record (n : Nat) (w : World) (pos : Int) (meta : Metadata)
    (hlen : 8 ≤ w.src.data.length)
    (ht : beToNat (w.src.data.take 4) ∈ [IdentifierDRMType, IdentifierContentType,
      IdentifierPackageFlags, IdentifierFileIndexInfo, IdentifierSFO])
    (hs : toSigned 32 (beToNat ((w.src.data.drop 4).take 4)) < 4) :
    readMetadataLoop (n + 1) w pos meta = none := by
  have h4 : (w.src.data.take 8).take 4 = w.src.data.take 4 := by
    rw [List.take_take]; rfl
  have h8 : ((w.src.data.take 8).drop 4).take 4 = (w.src.data.drop 4).take 4 := by
    rw [List.drop_take, List.take_take]; rfl
  unfold readMetadataLoop
  simp only [readFull_of_le _ _ _ _ hlen, h4, h8]
  split
  · rename_i hpos
    have hw : (Int.tdiv (toSigned 32 (beToNat ((w.src.data.drop 4).take 4))) 4).toNat = 0 := by
      have : Int.tdiv (toSigned 32 (beToNat ((w.src.data.drop 4).take 4))) 4 = 0 :=
        Int.tdiv_eq_zero_of_lt (by omega) (by omega)
      rw [this]; rfl
    simp only [hw, Nat.mul_zero]
    rw [readFull_of_le _ _ _ _ (Nat.zero_le _)]
    simp [parseWords, applyInfo_nil meta _ ht]
  · simp [applyInfo_nil meta _ ht]

/-- The part of C24 that the code fulfils: a record of an unrecognised type whose declared
size is a multiple of 4 takes `8 + size` bytes off the input, advances the position by as
much and leaves the metadata as it is. -/
theorem readMetadataLoop_aligned_record (n : Nat) (w : World) (pos : Int) (meta : Metadata)
    (s : Nat) (hs : toSigned 32 (beToNat ((w.src.data.drop 4).take 4)) = 4 * (s : Int))
    (hlen : 8 + 4 * s ≤ w.src.data.length)
    (ht : beToNat (w.src.data.take 4) ∉ [IdentifierDRMType, IdentifierContentType,
      IdentifierPackageFlags, IdentifierFileIndexInfo, IdentifierSFO]) :
    readMetadataLoop (n + 1) w pos meta
      = readMetadataLoop n (w.deliver Tap.headHash false (8 + 4 * s)).2
          (if s = 0 then wrap64 (pos + 8) else wrap64 (wrap64 (pos + 8) + 4 * (s : Int)))
          meta := by
  have h4 : (w.src.data.take 8).take 4 = w.src.data.take 4 := by
    rw [List.take_take]; rfl
  have h8 : ((w.src.data.take 8).drop 4).take 4 = (w.src.data.drop 4).take 4 := by
    rw [List.drop_take, List.take_take]; rfl
  have happ : ∀ buf, applyInfo meta (beToNat (w.src.data.take 4)) buf = some meta := by
    intro buf
    simp only [List.mem_cons, List.mem_singleton, List.not_mem_nil, or_false, not_or] at ht
    obtain ⟨t1, t2, t3, t4, t5⟩ := ht
    simp [applyInfo, t1, t2, t3, t4, t5]
  conv_lhs => unfold readMetadataLoop
  simp only [readFull_of_le _ _ _ _ (show 8 ≤ w.src.data.length by omega), h4, h8, hs, happ,
    Option.some_bind]
  by_cases h0 : s = 0
  · subst h0
    simp [deliver_zero]
  · have hpos : 4 * (s : Int) > 0 := by omega
    have hdiv : (Int.tdiv (4 * (s : Int)) 4).toNat = s := by
      rw [Int.mul_tdiv_cancel_left _ (by decide)]
      simp
    have hlen2 : 4 * s ≤ (w.deliver Tap.headHash false 8).2.src.data.length := by
      rw [deliver_data, List.length_drop]; omega
    simp only [hpos, if_true, hdiv, readFull_of_le _ _ _ _ hlen2, happ, Option.some_bind, h0,
      if_false, deliver_deliver]

/-! ## Errors of the sink in `unpackLoop` -/

/-- The part of C22 that the code fulfils: an error of `CreateDir`, or of `CreateFile` for
a file that is not routed through `loadSFO`, ends the loop and is returned. -/
theorem unpackLoop_sink_error {σ : Type} (env : Env) (w : pkgWriter σ) (fuel : Nat) (sink : σ)
    (pr pr1 : Reader) (entry : fileEntry) (e : Err)
    (hnext : pr.Next env = some (Except.ok entry, pr1)) :
    (∀ s1, entry.IsDirectory = true → w.CreateDir sink entry.Name = (some e, s1) →
      unpackLoop env w (fuel + 1) sink pr = some (some e, s1, pr1)) ∧
    (∀ s1 pr2, entry.IsDirectory = false → entry.IsFile = true →
      ¬ ((str "PARAM.SFO").isSuffixOf entry.Name ∧ pr1.SfoEntries.length = 0) →
      w.CreateFile Reader readerIO sink entry.Name pr1 = some (some e, s1, pr2) →
      unpackLoop env w (fuel + 1) sink pr = some (some e, s1, pr2)) := by
  constructor
  · intro s1 hd hc
    simp [unpackLoop, hnext, hd, hc]
  · intro s1 pr2 hd hf hsfo hc
    simp only [unpackLoop, hnext, hd, hf, if_true, Bool.false_eq_true, if_false]
    rw [if_neg hsfo, hc]

/-! ## The hashes and `Valid` -/

theorem bytesCompare_eq_zero : ∀ (a b : List Nat), bytesCompare a b = 0 ↔ a = b
  | [], [] => by simp [bytesCompare]
  | [], _ :: _ => by simp [bytesCompare]
  | _ :: _, [] => by simp [bytesCompare]
  | x :: xs, y :: ys => by
    unfold bytesCompare
    have ih := bytesCompare_eq_zero xs ys
    by_cases h1 : x < y
    · simp [h1]; omega
    · by_cases h2 : y < x
      · simp [h1, h2]; omega
      · have : x = y := by omega
        simp [h1, h2, ih, this]

theorem Valid_iff (pr : Reader) : pr.Valid = true ↔ pr.CalculatedHash = pr.FileHash := by
  simp [Reader.Valid, bytesCompare_eq_zero]

theorem skipUnread_hashes (pr : Reader) :
    pr.skipUnread.2.CalculatedHash = pr.CalculatedHash ∧
    pr.skipUnread.2.FileHash = pr.FileHash := by
  unfold Reader.skipUnread Reader.discard
  cases pr.reader <;> simp

theorem readFull_raw_hashed (w : World) (toTail : Bool) (k : Nat) :
    (w.readFull Tap.raw toTail k).2.2.hashed = w.hashed := by
  unfold World.readFull
  split
  · simp [World.deliver]
  · split
    · rfl
    · simp [World.deliver]

/-- The hashes after `readTail` on a reader whose hashes are empty. -/
theorem readTail_hashes (env : Env) (p : Reader) (hc : p.CalculatedHash = [])
    (hf : p.FileHash = []) :
    (p.readTail env).2.index = p.index ∧
    (((p.readTail env).2.CalculatedHash = [] ∧ (p.readTail env).2.FileHash = []) ∨
     ((p.readTail env).2.CalculatedHash = env.sha1 (p.readTail env).2.world.hashed ∧
      ((p.readTail env).2.FileHash = [] ∨ (p.readTail env).2.FileHash.length = 20))) := by
  unfold Reader.readTail
  simp only
  split
  · exact ⟨rfl, Or.inl ⟨hc, hf⟩⟩
  · split
    · refine ⟨rfl, Or.inr ⟨?_, Or.inl hf⟩⟩
      simp only
      rw [readFull_raw_hashed]
    · rename_i hnone
      refine ⟨rfl, Or.inr ⟨?_, Or.inr ?_⟩⟩
      · simp only
        rw [readFull_raw_hashed]
      · simp only [Option.isSome_iff_ne_none, ne_eq, not_not] at hnone
        obtain ⟨hle, htake⟩ := readFull_none _ _ _ _ hnone
        simp only
        rw [htake, List.length_take, List.length_take]
        omega

theorem handleRegularFile_hashes (pr pr1 : Reader) (entry : fileEntry) (e : Option Err)
    (h : pr.handleRegularFile entry = some (e, pr1)) :
    pr1.CalculatedHash = pr.CalculatedHash ∧ pr1.FileHash = pr.FileHash := by
  unfold Reader.handleRegularFile at h
  simp only at h
  repeat' split at h
  all_goals first
    | (simp at h; done)
    | (simp only [Option.some.injEq, Prod.mk.injEq] at h
       obtain ⟨_, h2⟩ := h
       subst h2
       exact ⟨rfl, rfl⟩)

/-- The hashes after `readNextEntry` on a reader whose hashes are empty. -/
theorem readNextEntry_hashes (env : Env) (p : Reader) (hc : p.CalculatedHash = [])
    (hf : p.FileHash = []) :
    (∀ entry, (p.readNextEntry env).1 = Except.ok entry →
      (p.readNextEntry env).2.CalculatedHash = [] ∧ (p.readNextEntry env).2.FileHash = []) ∧
    (((p.readNextEntry env).2.CalculatedHash = [] ∧ (p.readNextEntry env).2.FileHash = []) ∨
     ((p.readNextEntry env).2.index.itemRecords.length ≤ (p.readNextEntry env).2.index.idx ∧
      (p.readNextEntry env).2.CalculatedHash
        = env.sha1 (p.readNextEntry env).2.world.hashed ∧
      ((p.readNextEntry env).2.FileHash = [] ∨
        (p.readNextEntry env).2.FileHash.length = 20))) := by
  cases hidx : p.index.itemRecords[p.index.idx]? with
  | some entry =>
    simp only [Reader.readNextEntry, hidx]
    exact ⟨fun _ _ => ⟨hc, hf⟩, Or.inl ⟨hc, hf⟩⟩
  | none =>
    obtain ⟨hi, hh⟩ := readTail_hashes env p hc hf
    have hlen : p.index.itemRecords.length ≤ p.index.idx := by
      by_contra hlt
      rw [List.getElem?_eq_getElem (by omega)] at hidx
      simp at hidx
    cases hr : (p.readTail env).1 with
    | some e =>
      simp only [Reader.readNextEntry, hidx, hr]
      refine ⟨fun _ h => by simp at h, ?_⟩
      rcases hh with hh | hh
      · exact Or.inl hh
      · exact Or.inr ⟨by rw [hi]; exact hlen, hh⟩
    | none =>
      simp only [Reader.readNextEntry, hidx, hr]
      refine ⟨fun _ h => by simp at h, ?_⟩
      rcases hh with hh | hh
      · exact Or.inl hh
      · exact Or.inr ⟨by rw [hi]; exact hlen, hh⟩

theorem hashState_of_err (env : Env) (p : Reader) (e : Err)
    (h : (p.CalculatedHash = [] ∧ p.FileHash = []) ∨
      (p.index.itemRecords.length ≤ p.index.idx ∧
        p.CalculatedHash = env.sha1 p.world.hashed ∧
        (p.FileHash = [] ∨ p.FileHash.length = 20))) :
    HashState env { p with err := some e } := by
  rcases h with h | h
  · exact Or.inl h
  · exact Or.inr ⟨by simp, h⟩

/-- A `Next` on a reader without a latched error and with empty hashes. -/
theorem Next_hashState (env : Env) (pr pr1 : Reader) (r : Except Err fileEntry)
    (herr : pr.err = none) (hc : pr.CalculatedHash = []) (hf : pr.FileHash = [])
    (h : pr.Next env = some (r, pr1)) : HashState env pr1 := by
  obtain ⟨hsc, hsf⟩ := skipUnread_hashes pr
  rw [hc] at hsc
  rw [hf] at hsf
  obtain ⟨hok, hdis⟩ := readNextEntry_hashes env pr.skipUnread.2 hsc hsf
  unfold Reader.Next at h
  simp only [herr, Option.map_eq_some'] at h
  obtain ⟨x, hx, hx2⟩ := h
  simp only [Prod.mk.injEq] at hx2
  obtain ⟨_, hpr1⟩ := hx2
  subst hpr1
  unfold Reader.next at hx
  split at hx
  · simp only [Option.some.injEq] at hx
    subst hx
    exact Or.inl ⟨hsc, hsf⟩
  · split at hx
    · rename_i e he
      simp only [Option.some.injEq] at hx
      subst hx
      exact hashState_of_err env _ e hdis
    · rename_i entry hent
      obtain ⟨hrc, hrf⟩ := hok entry hent
      split at hx
      · simp at hx
      · rename_i e0 p0 hh
        obtain ⟨h1, h2⟩ := handleRegularFile_hashes _ _ _ _ hh
        simp only [Option.some.injEq] at hx
        subst hx
        exact Or.inl ⟨by show p0.CalculatedHash = []; rw [h1, hrc],
          by show p0.FileHash = []; rw [h2, hrf]⟩
      · rename_i p0 hh
        obtain ⟨h1, h2⟩ := handleRegularFile_hashes _ _ _ _ hh
        simp only [Option.some.injEq] at hx
        subst hx
        exact Or.inl ⟨by show p0.CalculatedHash = []; rw [h1, hrc],
          by show p0.FileHash = []; rw [h2, hrf]⟩

/-- A `Read` leaves the hashes, the index and a latched error as they are. -/
theorem Read_hashState (env : Env) (pr pr1 : Reader) (k : Nat) (b : List Nat)
    (e : Option Err) (hs : HashState env pr) (h : pr.Read k = some (b, e, pr1)) :
    HashState env pr1 := by
  unfold Reader.Read at h
  split at h
  · simp only [Option.some.injEq, Prod.mk.injEq] at h
    rw [← h.2.2]; exact hs
  · rename_i herr
    have hs' : pr.CalculatedHash = [] ∧ pr.FileHash = [] := by
      rcases hs with hs | hs
      · exact hs
      · exact absurd herr hs.1
    split at h
    · simp only [Option.some.injEq, Prod.mk.injEq] at h
      rw [← h.2.2]; exact Or.inl hs'
    · simp only [Option.map_eq_some'] at h
      obtain ⟨x, _, hx⟩ := h
      simp only [Prod.mk.injEq] at hx
      obtain ⟨_, _, hp⟩ := hx
      subst hp
      split <;> exact Or.inl hs'

/-- Every sequence of calls keeps the hashes in one of the two states. -/
theorem calls_hashState (env : Env) (cs : List Call) : ∀ (pr q : Reader) (rs : List Ret),
    HashState env pr → pr.calls env cs = some (rs, q) → HashState env q := by
  induction cs with
  | nil =>
    intro pr q rs hs h
    simp only [Reader.calls, Option.some.injEq, Prod.mk.injEq] at h
    rw [← h.2]; exact hs
  | cons c cs ih =>
    intro pr q rs hs h
    unfold Reader.calls at h
    split at h
    · simp at h
    · rename_i r pr1 hcall
      split at h
      · simp at h
      · rename_i rs2 pr2 hrest
        simp only [Option.some.injEq, Prod.mk.injEq] at h
        rw [← h.2]
        refine ih pr1 pr2 rs2 ?_ hrest
        cases c with
        | Next =>
          simp only [Reader.call, Option.map_eq_some'] at hcall
          obtain ⟨x, hx, hx2⟩ := hcall
          simp only [Prod.mk.injEq] at hx2
          cases herr : pr.err with
          | some e =>
            simp only [Reader.Next, herr, Option.some.injEq] at hx
            rw [← hx2.2, ← hx]; exact hs
          | none =>
            have hs' : pr.CalculatedHash = [] ∧ pr.FileHash = [] := by
              rcases hs with hs | hs
              · exact hs
              · exact absurd herr hs.1
            rw [← hx2.2]
            exact Next_hashState env pr x.2 x.1 herr hs'.1 hs'.2 hx
        | Read k =>
          simp only [Reader.call, Option.map_eq_some'] at hcall
          obtain ⟨x, hx, hx2⟩ := hcall
          simp only [Prod.mk.injEq] at hx2
          rw [← hx2.2]
          exact Read_hashState env pr x.2.2 k x.1 x.2.1 hs hx

/-- The two steps of `readTail`: a failed copy of the tail leaves both hashes as they
were; a completed copy sets `CalculatedHash`, and `FileHash` is set only if the trailer
is read in full. -/
theorem readTail_steps (env : Env) (p : Reader) :
    (p.copyTail.2.1 ≠ none →
      (p.readTail env).1 = p.copyTail.2.1 ∧
      (p.readTail env).2.CalculatedHash = p.CalculatedHash ∧
      (p.readTail env).2.FileHash = p.FileHash) ∧
    (p.copyTail.2.1 = none →
      (p.readTail env).2.CalculatedHash = env.sha1 p.copyTail.2.2.hashed ∧
      (p.readTail env).2.world.hashed = p.copyTail.2.2.hashed ∧
      (p.readTail env).1 = p.readTrailer.2.1 ∧
      (p.readTail env).2.FileHash =
        if p.readTrailer.2.1 = none then p.readTrailer.1.take 20 else p.FileHash) := by
  unfold Reader.readTail Reader.readTrailer Reader.copyTail
  simp only
  refine ⟨fun hne => ?_, fun hnone => ?_⟩
  · have hs : ((p.world.copyN p.aesReader.R true
        (wrap64 (wrap64 (p.FileHeader.TotalSize -
          wrap64 (p.FileHeader.DataOffset + p.FileHeader.DataSize)) - 0x20))).2.1).isSome
          = true := by
      rw [Option.isSome_iff_ne_none]; exact hne
    simp only [hs, if_true, and_self]
  · have hs : ((p.world.copyN p.aesReader.R true
        (wrap64 (wrap64 (p.FileHeader.TotalSize -
          wrap64 (p.FileHeader.DataOffset + p.FileHeader.DataSize)) - 0x20))).2.1).isSome
          = false := by
      rw [hnone]; rfl
    simp only [hs, Bool.false_eq_true, if_false]
    split
    · rename_i hf
      have hf2 := Option.isSome_iff_ne_none.mp hf
      simp only [readFull_raw_hashed, hf2, if_false, and_self]
    · rename_i hf
      simp only [Option.isSome_iff_ne_none, ne_eq, not_not] at hf
      simp only [readFull_raw_hashed, hf, if_true, and_self]

/-- A `Read` leaves both hashes as they are. -/
theorem Read_hashes (pr pr1 : Reader) (k : Nat) (b : List Nat) (e : Option Err)
    (h : pr.Read k = some (b, e, pr1)) :
    pr1.CalculatedHash = pr.CalculatedHash ∧ pr1.FileHash = pr.FileHash := by
  unfold Reader.Read at h
  split at h
  · simp only [Option.some.injEq, Prod.mk.injEq] at h
    rw [← h.2.2]; exact ⟨rfl, rfl⟩
  · split at h
    · simp only [Option.some.injEq, Prod.mk.injEq] at h
      rw [← h.2.2]; exact ⟨rfl, rfl⟩
    · simp only [Option.map_eq_some'] at h
      obtain ⟨x, _, hx⟩ := h
      simp only [Prod.mk.injEq] at hx
      obtain ⟨_, _, hp⟩ := hx
      subst hp
      split <;> exact ⟨rfl, rfl⟩

/-- A `Next` on a reader without a latched error and with empty hashes: the hashes stay
empty unless this call completes the copy of the tail; then `CalculatedHash` is the hash
of everything hashed up to the end of that copy and `FileHash` holds the first 20 bytes of
the trailer if the trailer was read in full.  A failed `skipUnread` and an exhausted index
latch an error. -/
theorem Next_tail (env : Env) (p p1 : Reader) (r : Except Err fileEntry)
    (herr : p.err = none) (hc : p.CalculatedHash = []) (hf : p.FileHash = [])
    (h : p.Next env = some (r, p1)) :
    (¬ TailCopyCompletes p → p1.CalculatedHash = [] ∧ p1.FileHash = []) ∧
    (p.skipUnread.1 ≠ none ∨
      p.skipUnread.2.index.itemRecords[p.skipUnread.2.index.idx]? = none → p1.err ≠ none) ∧
    (TailCopyCompletes p →
      p1.CalculatedHash = env.sha1 p.skipUnread.2.copyTail.2.2.hashed ∧
      p1.world.hashed = p.skipUnread.2.copyTail.2.2.hashed ∧
      p1.FileHash = if p.skipUnread.2.readTrailer.2.1 = none
        then p.skipUnread.2.readTrailer.1.take 20 else []) := by
  obtain ⟨hsc, hsf⟩ := skipUnread_hashes p
  rw [hc] at hsc
  rw [hf] at hsf
  obtain ⟨hfail, hdone⟩ := readTail_steps env p.skipUnread.2
  unfold Reader.Next at h
  simp only [herr, Option.map_eq_some'] at h
  obtain ⟨x, hx, hx2⟩ := h
  simp only [Prod.mk.injEq] at hx2
  obtain ⟨_, hp1⟩ := hx2
  subst hp1
  unfold Reader.next at hx
  cases hskip : p.skipUnread.1 with
  | some e =>
    simp only [hskip, Option.some.injEq] at hx
    subst hx
    refine ⟨fun _ => ⟨hsc, hsf⟩, fun _ => by simp, fun ht => ?_⟩
    rw [ht.2.1] at hskip
    simp at hskip
  | none =>
    simp only [hskip] at hx
    cases hidx : p.skipUnread.2.index.itemRecords[p.skipUnread.2.index.idx]? with
    | some entry =>
      simp only [Reader.readNextEntry, hidx] at hx
      refine ⟨fun _ => ?_, fun hor => ?_, fun ht => ?_⟩
      · split at hx
        · simp at hx
        · rename_i e0 p0 hh
          obtain ⟨h1, h2⟩ := handleRegularFile_hashes _ _ _ _ hh
          simp only [Option.some.injEq] at hx
          subst hx
          exact ⟨by show p0.CalculatedHash = []; rw [h1]; exact hsc,
            by show p0.FileHash = []; rw [h2]; exact hsf⟩
        · rename_i p0 hh
          obtain ⟨h1, h2⟩ := handleRegularFile_hashes _ _ _ _ hh
          simp only [Option.some.injEq] at hx
          subst hx
          exact ⟨by show p0.CalculatedHash = []; rw [h1]; exact hsc,
            by show p0.FileHash = []; rw [h2]; exact hsf⟩
      · rcases hor with hor | hor
        · exact absurd rfl hor
        · simp at hor
      · rw [ht.2.2.1] at hidx
        simp at hidx
    | none =>
      have hx' : x = (Except.error (match (p.skipUnread.2.readTail env).1 with
            | some e => e
            | none => Err.EOF), (p.skipUnread.2.readTail env).2) := by
        simp only [Reader.readNextEntry, hidx] at hx
        cases hr : (p.skipUnread.2.readTail env).1 with
        | some e =>
          simp only [hr, Option.some.injEq] at hx
          rw [← hx]
        | none =>
          simp only [hr, Option.some.injEq] at hx
          rw [← hx]
      subst hx'
      refine ⟨fun hnt => ?_, fun _ => by simp, fun ht => ?_⟩
      · have hcopy : p.skipUnread.2.copyTail.2.1 ≠ none :=
          fun hcp => hnt ⟨herr, hskip, hidx, hcp⟩
        obtain ⟨_, h1, h2⟩ := hfail hcopy
        exact ⟨by show (p.skipUnread.2.readTail env).2.CalculatedHash = []; rw [h1]; exact hsc,
          by show (p.skipUnread.2.readTail env).2.FileHash = []; rw [h2]; exact hsf⟩
      · obtain ⟨h1, h2, _, h4⟩ := hdone ht.2.2.2
        rw [hsf] at h4
        exact ⟨h1, h2, h4⟩

/-- The calls that follow a prefix of a sequence of calls start from the state the prefix
leaves. -/
theorem calls_split (env : Env) (cs1 cs2 : List Call) (pr p q : Reader)
    (rs rs1 : List Ret) (h : pr.calls env (cs1 ++ cs2) = some (rs, q))
    (h1 : pr.calls env cs1 = some (rs1, p)) : ∃ rs2, p.calls env cs2 = some (rs2, q) := by
  rw [calls_append, h1] at h
  simp only [Option.some_bind, Option.map_eq_some'] at h
  obtain ⟨x, hx, hx2⟩ := h
  simp only [Prod.mk.injEq] at hx2
  exact ⟨x.1, by rw [hx, ← hx2.2]⟩

/-- As long as no `Next` of a sequence of calls completes the copy of the tail, both
hashes stay empty. -/
theorem calls_no_tail_copy (env : Env) (cs : List Call) :
    ∀ (pr q : Reader) (rs : List Ret), pr.CalculatedHash = [] → pr.FileHash = [] →
    pr.calls env cs = some (rs, q) →
    (∀ cs1 cs2 rs1 p, cs = cs1 ++ Call.Next :: cs2 → pr.calls env cs1 = some (rs1, p) →
      ¬ TailCopyCompletes p) →
    q.CalculatedHash = [] ∧ q.FileHash = [] := by
  induction cs with
  | nil =>
    intro pr q rs hc hf h _
    simp only [Reader.calls, Option.some.injEq, Prod.mk.injEq] at h
    rw [← h.2]; exact ⟨hc, hf⟩
  | cons c cs ih =>
    intro pr q rs hc hf h hno
    have h0 := h
    unfold Reader.calls at h
    split at h
    · simp at h
    · rename_i r pr1 hcall
      split at h
      · simp at h
      · rename_i rs2 pr2 hrest
        simp only [Option.some.injEq, Prod.mk.injEq] at h
        rw [← h.2]
        have hno1 : ∀ cs1 cs2 rs1 p, cs = cs1 ++ Call.Next :: cs2 →
            pr1.calls env cs1 = some (rs1, p) → ¬ TailCopyCompletes p := by
          intro cs1 cs2 rs1 p hsplit hp
          refine hno (c :: cs1) cs2 (r :: rs1) p (by rw [hsplit]; rfl) ?_
          simp only [Reader.calls, hcall, hp]
        have hh : pr1.CalculatedHash = [] ∧ pr1.FileHash = [] := by
          cases c with
          | Next =>
            simp only [Reader.call, Option.map_eq_some'] at hcall
            obtain ⟨x, hx, hx2⟩ := hcall
            simp only [Prod.mk.injEq] at hx2
            cases herr : pr.err with
            | some e =>
              simp only [Reader.Next, herr, Option.some.injEq] at hx
              rw [← hx2.2, ← hx]; exact ⟨hc, hf⟩
            | none =>
              rw [← hx2.2]
              exact (Next_tail env pr x.2 x.1 herr hc hf hx).1
                (hno [] cs [] pr rfl rfl)
          | Read k =>
            simp only [Reader.call, Option.map_eq_some'] at hcall
            obtain ⟨x, hx, hx2⟩ := hcall
            simp only [Prod.mk.injEq] at hx2
            rw [← hx2.2]
            obtain ⟨h1, h2⟩ := Read_hashes pr x.2.2 k x.1 x.2.1 hx
            exact ⟨by rw [h1]; exact hc, by rw [h2]; exact hf⟩
        exact ih pr1 pr2 rs2 hh.1 hh.2 hrest hno1

/-- The state after a sequence of calls of which one `Next`, made on a reader `p` without a
latched error, latches an error: it is the state `p1` right after that `Next`. -/
theorem calls_after_Next (env : Env) (pr p q : Reader) (cs cs1 cs2 : List Call)
    (rs rs1 : List Ret) (hcalls : pr.calls env cs = some (rs, q))
    (hsplit : cs = cs1 ++ Call.Next :: cs2) (hp : pr.calls env cs1 = some (rs1, p)) :
    ∃ r p1, p.Next env = some (r, p1) ∧ (p1.err ≠ none → q = p1) := by
  rw [hsplit] at hcalls
  obtain ⟨rs2, h2⟩ := calls_split env cs1 (Call.Next :: cs2) pr p q rs rs1 hcalls hp
  unfold Reader.calls at h2
  split at h2
  · simp at h2
  · rename_i r0 p1 hcall
    simp only [Reader.call, Option.map_eq_some'] at hcall
    obtain ⟨x, hx, hx2⟩ := hcall
    simp only [Prod.mk.injEq] at hx2
    refine ⟨x.1, x.2, hx, fun hne => ?_⟩
    obtain ⟨e, he⟩ := Option.ne_none_iff_exists'.mp hne
    rw [hx2.2] at he
    rw [calls_latched env p1 e he] at h2
    simp only [Option.some.injEq, Prod.mk.injEq] at h2
    rw [← h2.2, hx2.2]

/-! ## `readSFO` -/

theorem lookup_set (m : SfoMap) (k v key : List Nat) :
    (m.set k v).lookup key = if k = key then some v else m.lookup key := by
  induction m with
  | nil => simp [SfoMap.set, SfoMap.lookup]
  | cons x rest ih =>
    obtain ⟨k0, v0⟩ := x
    unfold SfoMap.set
    by_cases h0 : k0 = k
    · subst h0
      by_cases h1 : k0 = key <;> simp [SfoMap.lookup, h1]
    · by_cases h1 : k0 = key
      · subst h1
        have : ¬ k = k0 := fun h => h0 h.symm
        simp [SfoMap.lookup, h0, this]
      · simp [SfoMap.lookup, h0, h1, ih]

/-- The index of the first zero byte cuts a NUL-terminated string at its terminator. -/
theorem indexZero_spec (l : List Nat) (h : 0 ∈ l) :
    ∃ i : Nat, indexZero l = (i : Int) ∧ i ≤ l.length ∧ l.take i = l.takeWhile (· ≠ 0) := by
  induction l with
  | nil => simp at h
  | cons x xs ih =>
    by_cases hx : x = 0
    · subst hx
      exact ⟨0, by simp [indexZero, List.indexOf?, List.findIdx?_cons], by simp, by simp⟩
    · have hmem : 0 ∈ xs := by
        rcases List.mem_cons.mp h with h | h
        · exact absurd h.symm hx
        · exact h
      obtain ⟨i, hi, hle, htake⟩ := ih hmem
      refine ⟨i + 1, ?_, by simp; omega, by simp [hx, htake]⟩
      unfold indexZero at hi ⊢
      simp only [List.indexOf?, List.findIdx?_cons, beq_iff_eq, hx, if_false,
        List.findIdx?_succ] at hi ⊢
      cases hf : List.findIdx? (fun x => x == 0) xs with
      | none => simp [hf] at hi
      | some j =>
        simp only [hf, Nat.cast_inj] at hi
        simp [hi]

/-- The key that `readSFO` cuts out of the key table for an entry whose key is
NUL-terminated. -/
theorem sfoKey_eq (keys : List Nat) (e : sfoIndexTableEntry) (hk : e.KeyOffset ≤ keys.length)
    (h0 : 0 ∈ keys.drop e.KeyOffset) : sfoKey keys e = some (sfoSpecKey keys e) := by
  obtain ⟨i, hi, hle, htake⟩ := indexZero_spec _ h0
  have hlen : (keys.drop e.KeyOffset).length = keys.length - e.KeyOffset := List.length_drop _ _
  have h1 : sliceOf keys e.KeyOffset keys.length = some (keys.drop e.KeyOffset) := by
    unfold sliceOf
    rw [if_neg (by omega)]
    simp only [Int.toNat_ofNat, Option.some.injEq]
    have : ((keys.length : Int) - (e.KeyOffset : Int)).toNat = keys.length - e.KeyOffset := by
      omega
    rw [this]
    exact List.take_of_length_le (by omega)
  have h2 : sliceOf keys e.KeyOffset ((e.KeyOffset : Int) + (i : Int))
      = some ((keys.drop e.KeyOffset).take i) := by
    unfold sliceOf
    rw [if_neg (by omega)]
    simp only [Int.toNat_ofNat, Option.some.injEq]
    have : ((e.KeyOffset : Int) + (i : Int) - (e.KeyOffset : Int)).toNat = i := by omega
    rw [this]
  unfold sfoKey
  rw [h1]
  simp only [Option.some_bind, hi, h2, htake, sfoSpecKey]

/-- The slice `values[lo : lo + len]` in `uint32` arithmetic, inside the table. -/
theorem sliceOf_values (values : List Nat) (lo len : Nat) (h : lo + len ≤ values.length)
    (h32 : values.length < 2 ^ 32) :
    sliceOf values lo (((lo + len) % 2 ^ 32 : Nat) : Int) = some ((values.drop lo).take len) := by
  have hm : (lo + len) % 2 ^ 32 = lo + len := Nat.mod_eq_of_lt (by omega)
  unfold sliceOf
  rw [hm, if_neg (by omega)]
  simp only [Int.toNat_ofNat, Option.some.injEq]
  have : (((lo + len : Nat) : Int) - (lo : Int)).toNat = len := by omega
  rw [this]

/-- The slice `values[lo : lo + len - 1]` in `uint32` arithmetic, inside the table. -/
theorem sliceOf_values_pred (values : List Nat) (lo len : Nat) (h : lo + len ≤ values.length)
    (h1 : 1 ≤ len) (h32 : values.length < 2 ^ 32) :
    sliceOf values lo (((lo + len + (2 ^ 32 - 1)) % 2 ^ 32 : Nat) : Int)
      = some ((values.drop lo).take (len - 1)) := by
  have hm : (lo + len + (2 ^ 32 - 1)) % 2 ^ 32 = lo + len - 1 := by omega
  unfold sliceOf
  rw [hm, if_neg (by omega)]
  simp only [Int.toNat_ofNat, Option.some.injEq]
  have : (((lo + len - 1 : Nat) : Int) - (lo : Int)).toNat = len - 1 := by omega
  rw [this]

theorem itoa_eq_repr (v : Nat) : itoa v = (Nat.repr v).toList.map Char.toNat := rfl

/-- Conditions on one entry under which the loop of `readSFO` does not panic. -/
theorem sfoEntriesLoop_spec (keys values : List Nat) (h32 : values.length < 2 ^ 32) :
    ∀ (index : List sfoIndexTableEntry) (m : SfoMap),
      (∀ e ∈ index, e.ParamFormat ∈ [utf8Special, utf8, integer] →
        e.KeyOffset ≤ keys.length ∧ 0 ∈ keys.drop e.KeyOffset ∧
        e.DataOffset + e.ParamLength ≤ values.length ∧
        (e.ParamFormat = utf8 → 1 ≤ e.ParamLength) ∧
        (e.ParamFormat = integer → 4 ≤ e.ParamLength)) →
      ∃ m1, sfoEntriesLoop keys values index m = some m1 ∧
        ∀ key, m1.lookup key =
          match sfoSpecMap keys values index key with
          | some v => some v
          | none => m.lookup key := by
  intro index
  induction index with
  | nil =>
    intro m _
    exact ⟨m, rfl, fun key => rfl⟩
  | cons e rest ih =>
    intro m hok
    have hrest : ∀ e' ∈ rest, e'.ParamFormat ∈ [utf8Special, utf8, integer] → _ :=
      fun e' he' => hok e' (List.mem_cons_of_mem _ he')
    have he := hok e (List.mem_cons_self _ _)
    have hstep : ∀ v, sfoSpecValue values e = some v →
        sfoEntriesLoop keys values (e :: rest) m
          = sfoEntriesLoop keys values rest (m.set (sfoSpecKey keys e) v) →
        ∃ m1, sfoEntriesLoop keys values (e :: rest) m = some m1 ∧
          ∀ key, m1.lookup key =
            match sfoSpecMap keys values (e :: rest) key with
            | some v => some v
            | none => m.lookup key := by
      intro v hv hloop
      obtain ⟨m1, hm1, hlook⟩ := ih (m.set (sfoSpecKey keys e) v) hrest
      refine ⟨m1, by rw [hloop, hm1], fun key => ?_⟩
      rw [hlook key]
      simp only [sfoSpecMap]
      cases sfoSpecMap keys values rest key with
      | some v' => rfl
      | none =>
        simp only [lookup_set, hv]
        by_cases hkey : sfoSpecKey keys e = key <;> simp [hkey]
    by_cases h1 : e.ParamFormat = utf8Special
    · obtain ⟨hk, h0, hv, _, _⟩ := he (by simp [h1])
      refine hstep ((values.drop e.DataOffset).take e.ParamLength)
        (by simp [sfoSpecValue, h1, utf8Special]) ?_
      conv_lhs => unfold sfoEntriesLoop
      simp only [h1, if_true, sfoKey_eq keys e hk h0, Option.some_bind,
        sliceOf_values values _ _ hv h32]
    · by_cases h2 : e.ParamFormat = utf8
      · obtain ⟨hk, h0, hv, hl, _⟩ := he (by simp [h2])
        refine hstep ((values.drop e.DataOffset).take (e.ParamLength - 1))
          (by simp [sfoSpecValue, h2, utf8]) ?_
        conv_lhs => unfold sfoEntriesLoop
        simp only [h2, if_true, if_false, sfoKey_eq keys e hk h0, Option.some_bind,
          sliceOf_values_pred values _ _ hv (hl h2) h32,
          (by decide : ¬ (utf8 = utf8Special))]
      · by_cases h3 : e.ParamFormat = integer
        · obtain ⟨hk, h0, hv, _, hl⟩ := he (by simp [h3])
          have hl4 := hl h3
          have hlen : ¬ ((values.drop e.DataOffset).take e.ParamLength).length < 4 := by
            rw [List.length_take, List.length_drop]; omega
          have htt : ((values.drop e.DataOffset).take e.ParamLength).take 4
              = (values.drop e.DataOffset).take 4 := by
            rw [List.take_take, Nat.min_eq_left hl4]
          refine hstep
            ((Nat.repr (leToNat ((values.drop e.DataOffset).take 4))).toList.map Char.toNat)
            (by simp [sfoSpecValue, h3, integer]) ?_
          conv_lhs => unfold sfoEntriesLoop
          simp only [h3, if_true, if_false, sfoKey_eq keys e hk h0, Option.some_bind,
            sliceOf_values values _ _ hv h32, hlen, htt, itoa_eq_repr,
            (by decide : ¬ (integer = utf8Special)), (by decide : ¬ (integer = utf8))]
        · obtain ⟨m1, hm1, hlook⟩ := ih m hrest
          have hnone : sfoSpecValue values e = none := by
            simp only [utf8Special, utf8, integer] at h1 h2 h3
            simp [sfoSpecValue, h1, h2, h3]
          refine ⟨m1, ?_, fun key => ?_⟩
          · conv_lhs => unfold sfoEntriesLoop
            simp only [h1, h2, h3, if_false, hm1]
          · rw [hlook key]
            simp only [sfoSpecMap, hnone]
            cases sfoSpecMap keys values rest key <;> simp

theorem take_drop_take (l : List Nat) (n a b : Nat) (h : a + b ≤ n) :
    ((l.take n).drop a).take b = (l.drop a).take b := by
  rw [List.drop_take, List.take_take, Nat.min_eq_left (by omega)]

theorem parseSfoIndex_length : ∀ (n : Nat) (b : List Nat), (parseSfoIndex n b).length = n
  | 0, _ => rfl
  | n + 1, b => by simp [parseSfoIndex, parseSfoIndex_length n]

/-- In data-offset order every slot ends at or before the end of the last one. -/
theorem sfo_slot_le_last : ∀ (l : List sfoIndexTableEntry) (last : sfoIndexTableEntry),
    l.Chain' (fun a b => a.DataOffset + a.ParamMaxLength ≤ b.DataOffset) →
    l.getLast? = some last →
    ∀ e ∈ l, e.DataOffset + e.ParamMaxLength ≤ last.DataOffset + last.ParamMaxLength
  | [], _, _, h => by simp at h
  | [x], last, _, h => by
    intro e he
    simp only [List.getLast?_singleton, Option.some.injEq] at h
    simp only [List.mem_singleton] at he
    rw [he, h]
  | x :: y :: rest, last, hc, h => by
    intro e he
    rw [List.getLast?_cons_cons] at h
    have hc' := List.chain'_cons.mp hc
    have ih := sfo_slot_le_last (y :: rest) last hc'.2 h
    rcases List.mem_cons.mp he with he | he
    · have hy := ih y (List.mem_cons_self _ _)
      rw [he]
      have := hc'.1
      omega
    · exact ih e he

/-- On a well-formed image `readSFO` returns the map that its loop builds from the index,
key and data tables of the image. -/
theorem readSFO_eq (w : World) (t : Tap) (old : SfoMap) (hok : SfoOk w.src.data) :
    ∃ last, (sfoIndexOf w.src.data).getLast? = some last ∧
      sfoTableEnd w.src.data = last.DataOffset + last.ParamMaxLength ∧
      (sfoValuesOf w.src.data).length = sfoTableEnd w.src.data ∧
      (∀ m, sfoEntriesLoop (sfoKeysOf w.src.data) (sfoValuesOf w.src.data)
          (sfoIndexOf w.src.data) [] = some m →
        ∃ r, readSFO w t old = some r ∧ r.err = none ∧ r.entries = m) := by
  obtain ⟨hmagic, hn, hkl, hlen, _, h32, _⟩ := hok
  have hne : (sfoIndexOf w.src.data).getLast? ≠ none := by
    rw [ne_eq, List.getLast?_eq_none_iff]
    intro hnil
    have := parseSfoIndex_length (sfoEntryCount w.src.data).toNat
      ((w.src.data.drop 20).take (16 * (sfoEntryCount w.src.data).toNat))
    unfold sfoIndexOf at hnil
    rw [hnil] at this
    simp only [List.length_nil] at this
    omega
  obtain ⟨last, hlast⟩ := Option.ne_none_iff_exists'.mp hne
  have hend : sfoTableEnd w.src.data = last.DataOffset + last.ParamMaxLength := by
    simp [sfoTableEnd, hlast]
  have hvl : (sfoValuesOf w.src.data).length = sfoTableEnd w.src.data := by
    unfold sfoValuesOf
    rw [List.length_take, List.length_drop]
    omega
  refine ⟨last, hlast, hend, hvl, ?_⟩
  intro m hm
  have h20 : 20 ≤ w.src.data.length := by omega
  have hmag : (w.src.data.take 20).take 4 = w.src.data.take 4 := by
    rw [List.take_take]; rfl
  have hneg : ¬ sfoEntryCount w.src.data < 0 := by omega
  have hkneg : ¬ sfoKeysLen w.src.data < 0 := by omega
  have hmod : (last.DataOffset + last.ParamMaxLength) % 2 ^ 32
      = sfoTableEnd w.src.data := by
    rw [hend]; exact Nat.mod_eq_of_lt (by omega)
  have hi : 16 * (sfoEntryCount w.src.data).toNat
      ≤ (w.deliver t false 20).2.src.data.length := by
    rw [deliver_data, List.length_drop]; omega
  have hk : (sfoKeysLen w.src.data).toNat
      ≤ ((w.deliver t false 20).2.deliver t false
          (16 * (sfoEntryCount w.src.data).toNat)).2.src.data.length := by
    rw [deliver_data, deliver_data, List.length_drop, List.length_drop]; omega
  have hv : sfoTableEnd w.src.data
      ≤ (((w.deliver t false 20).2.deliver t false
          (16 * (sfoEntryCount w.src.data).toNat)).2.deliver t false
            (sfoKeysLen w.src.data).toNat).2.src.data.length := by
    rw [deliver_data, deliver_data, deliver_data, List.length_drop, List.length_drop,
      List.length_drop]
    omega
  have hidx : parseSfoIndex (sfoEntryCount w.src.data).toNat
      ((w.deliver t false 20).2.src.data.take (16 * (sfoEntryCount w.src.data).toNat))
      = sfoIndexOf w.src.data := rfl
  have hkeys : ((w.deliver t false 20).2.deliver t false
      (16 * (sfoEntryCount w.src.data).toNat)).2.src.data.take (sfoKeysLen w.src.data).toNat
      = sfoKeysOf w.src.data := by
    rw [deliver_data, deliver_data, List.drop_drop]
    rfl
  have hvals : (((w.deliver t false 20).2.deliver t false
      (16 * (sfoEntryCount w.src.data).toNat)).2.deliver t false
        (sfoKeysLen w.src.data).toNat).2.src.data.take (sfoTableEnd w.src.data)
      = sfoValuesOf w.src.data := by
    rw [deliver_data, deliver_data, deliver_data, List.drop_drop, List.drop_drop,
      ← Nat.add_assoc]
    rfl
  unfold readSFO
  simp only [readFull_of_le _ _ _ _ h20, hmag, hmagic, ne_eq, not_true_eq_false, if_false,
    take_drop_take _ 20 8 4 (by decide), take_drop_take _ 20 12 4 (by decide),
    take_drop_take _ 20 16 4 (by decide)]
  have hcnt : toSigned 32 (leToNat ((w.src.data.drop 16).take 4))
      = sfoEntryCount w.src.data := rfl
  have hklen : wrap32 (toSigned 32 (leToNat ((w.src.data.drop 12).take 4))
      - toSigned 32 (leToNat ((w.src.data.drop 8).take 4))) = sfoKeysLen w.src.data := rfl
  simp only [hcnt, hklen, hneg, hkneg, if_false, readFull_of_le _ _ _ _ hi, hidx,
    readFull_of_le _ _ _ _ hk, hlast, hmod, readFull_of_le _ _ _ _ hv, hkeys, hvals,
    hm, Option.map_some']
  exact ⟨_, rfl, rfl, rfl⟩

/-! ## Claims about `pkg/file.go` and `pkg/regfile.go` -/

/-- C8: once a call to `Next` or `Read` has returned an error `e` other than `io.EOF`,
every later sequence of calls returns `e` from each call (with no entry and no bytes) and
ends in the very same reader state, so nothing is read from the input. -/
theorem error_latches_forever (env : Env) (pr pr1 : Reader) (c : Call) (r : Ret) (e : Err)
    (hcall : pr.call env c = some (r, pr1)) (herr : r.err = some e) (hne : e ≠ Err.EOF)
    (cs : List Call) :
    pr1.calls env cs = some (cs.map (Call.latched e), pr1) :=
  calls_latched env pr1 e (call_error_sets_err env pr pr1 c r e hcall herr hne) cs

/-- C8 witness: `Next` on an index whose first file has size `-1` fails with the
invalid-header error, and a following `Read` and `Next` both return it. -/
theorem error_latches_forever_witness :
    Reader.calls exEnv
        { exReader [⟨[], 0, -1, 0, some exBlock⟩] (exFileHeader 1 64 0 16) [] [1, 2, 3] with
          index := { itemRecords := [⟨[], 0, -1, 0, some exBlock⟩], idx := 1 }
          err := some Err.invalidPkgHeader }
        [Call.Read 4, Call.Next]
      = some ([Call.Read 4, Call.Next].map (Call.latched Err.invalidPkgHeader),
          { exReader [⟨[], 0, -1, 0, some exBlock⟩] (exFileHeader 1 64 0 16) [] [1, 2, 3] with
            index := { itemRecords := [⟨[], 0, -1, 0, some exBlock⟩], idx := 1 }
            err := some Err.invalidPkgHeader }) :=
  error_latches_forever exEnv
    (exReader [⟨[], 0, -1, 0, some exBlock⟩] (exFileHeader 1 64 0 16) [] [1, 2, 3]) _
    Call.Next (Ret.entry (Except.error Err.invalidPkgHeader)) Err.invalidPkgHeader
    (by rfl) (by rfl) (by decide) [Call.Read 4, Call.Next]

/-- What holds of C1: after `Next` has returned an entry `e` that satisfies `EntryOk`
(in particular a directory has declared size 0), for every pattern of `Read` calls the
bytes taken off the input up to the end of the following skip number exactly
`next - e.Offset`. -/
theorem entry_span_consumed (env : Env) (p : Reader) (e : fileEntry) (S : CtrStream)
    (ks : List Nat)
    (hok : EntryOk e (p.nextOffset p.index.idx))
    (hav : p.nextOffset p.index.idx - e.Offset ≤ (p.world.src.data.length : Int)) :
    ∃ rs q, (p.entered e S).calls env (ks.map Call.Read) = some (rs, q) ∧
      q.skipUnread.1 = none ∧
      ((p.entered e S).world.src.data.length : Int) - q.skipUnread.2.world.src.data.length
        = p.nextOffset p.index.idx - e.Offset := by
  obtain ⟨hbs, hpadeq⟩ := EntryOk_amounts e _ hok
  obtain ⟨ho0, hsz0, hend, hnext63, _⟩ := hok
  have hEcur : (p.entered e S).current = some ⟨S, p.aesReader.R, e.bodySize⟩ := rfl
  obtain ⟨d1, err1, rs, hrun, ⟨hd1, hdl, herr1⟩, _⟩ :=
    reads_bodyState env (p.entered e S) ⟨S, p.aesReader.R, e.bodySize⟩ ks 0 none
      ⟨by simp only [Nat.cast_zero]; rw [hbs]; exact hsz0, by omega, Or.inl rfl⟩
  rw [bodyState_zero _ _ hEcur rfl] at hrun
  have hElen : (p.entered e S).world.src.data.length = p.world.src.data.length := rfl
  simp only at hd1
  rw [hbs] at hd1
  rw [hElen] at hdl
  have he1 : err1 = none := by
    rcases herr1 with h | ⟨_, h2, h3⟩
    · exact h
    · simp only at h2
      rw [hbs] at h2
      rw [hElen] at h3
      omega
  subst he1
  have hpendF : ((p.entered e S).bodyState ⟨S, p.aesReader.R, e.bodySize⟩ d1 none).pending
      = p.nextOffset p.index.idx - e.Offset - (d1 : Int) := by
    show wrap64 (e.bodySize - (d1 : Int)
      + wrap64 (wrap64 (p.nextOffset p.index.idx - e.Offset) - e.Size)) = _
    rw [hpadeq, hbs, wrap64_of_range _ (by omega) (by omega)]
    omega
  have hFlen : ((p.entered e S).bodyState ⟨S, p.aesReader.R, e.bodySize⟩ d1 none).world.src.data.length
      = p.world.src.data.length - d1 := by
    show ((p.entered e S).world.deliver p.aesReader.R false d1).2.src.data.length = _
    rw [deliver_data, List.length_drop, hElen]
  obtain ⟨hs1, hs2, _⟩ := skipUnread_of_le
    ((p.entered e S).bodyState ⟨S, p.aesReader.R, e.bodySize⟩ d1 none)
    (by rw [hpendF, hFlen]; omega)
  refine ⟨rs, _, hrun, hs1, ?_⟩
  rw [hs2, deliver_data, List.length_drop, hFlen, hpendF, hElen]
  omega

/-- C1 (failing input): on the index `exDirThenFile` the first `Next` returns the
directory with 112 bytes of input left; when the second `Next` has skipped and returned
the file, 101 bytes are left.  So 11 bytes (`next - curr - Size`) were taken between the
two, not the 16 that separate the two offsets, and the file's body reader starts 5 bytes
before its declared offset. -/
theorem directory_size_misaligns_next_body :
    (exReaderDir.calls exEnv [Call.Next]).map
        (fun r => (r.1.map Ret.err, r.2.index.idx, r.2.world.src.data.length))
      = some ([none], 1, 112) ∧
    (exReaderDir.calls exEnv [Call.Next, Call.Next]).map
        (fun r => (r.1.map Ret.err, r.2.index.idx, r.2.world.src.data.length))
      = some ([none, none], 2, 101) := by
  constructor <;> rfl

/-- C5: after `Next` has returned a file entry of declared size `Size`, any sequence of
`Read` calls returns, the bytes returned never total more than `Size`; once they total
`Size`, every further `Read` returns no bytes and `io.EOF`; and if the input has ended
(with `io.EOF`) while they total less than `Size`, a `Read` into a non-empty buffer fails
with `io.ErrUnexpectedEOF`. -/
theorem Read_bounded_by_Size (env : Env) (pr pr1 : Reader) (e : fileEntry)
    (hN : pr.Next env = some (Except.ok e, pr1)) (hfile : e.IsDirectory = false)
    (ks : List Nat) :
    ∃ rs pr2, pr1.calls env (ks.map Call.Read) = some (rs, pr2) ∧
      ((rs.map Ret.count).sum : Int) ≤ e.Size ∧
      (((rs.map Ret.count).sum : Int) = e.Size →
        ∀ k, pr2.call env (Call.Read k) = some (Ret.bytes [] (some Err.EOF), pr2)) ∧
      (((rs.map Ret.count).sum : Int) < e.Size → pr2.world.src.data = [] →
        pr2.world.src.fin = Err.EOF → ∀ k, 0 < k →
        (pr2.call env (Call.Read k)).map Prod.fst
          = some (Ret.bytes [] (some Err.ErrUnexpectedEOF))) := by
  obtain ⟨_, _, _, hnb, S, _, hpr1⟩ := Next_ok_inv env pr pr1 e hN
  have hsize : e.bodySize = e.Size := by simp [fileEntry.bodySize, hfile]
  rw [hsize] at hnb
  have hcur : pr1.current = some ⟨S, pr.skipUnread.2.aesReader.R, e.Size⟩ := by
    rw [hpr1, Reader.entered, hsize]
  have herr : pr1.err = none := by rw [hpr1, Reader.entered]
  obtain ⟨d1, err1, rs, hrun, ⟨hd1, hdl, herr1⟩, hsum⟩ :=
    reads_bodyState env pr1 ⟨S, pr.skipUnread.2.aesReader.R, e.Size⟩ ks 0 none
      ⟨by simpa using hnb, by omega, Or.inl rfl⟩
  rw [bodyState_zero pr1 _ hcur herr] at hrun
  simp only [Nat.zero_add] at hsum
  subst hsum
  simp only at hd1 herr1
  refine ⟨rs, _, hrun, hd1, ?_, ?_⟩
  · intro heq k
    have he1 : err1 = none := by
      rcases herr1 with h | ⟨_, h, _⟩
      · exact h
      · omega
    subst he1
    simp only [Reader.call, Option.map_some', Read_bodyState_none pr1
      (⟨S, pr.skipUnread.2.aesReader.R, e.Size⟩ : regFileReader) _ k hd1]
    simp [heq, bodyReadLen, bodyReadErr, readLatch, xorFrom]
  · intro hlt hdata hfin k hk
    simp only [Reader.bodyState, deliver_data, deliver_fin] at hdata hfin
    rcases herr1 with h | ⟨h, _, _⟩
    · subst h
      have hne : ¬ (e.Size - ((rs.map Ret.count).sum : Int) = 0) := by omega
      have hb : xorFrom S.block S.iv (S.pos + (rs.map Ret.count).sum)
          ((pr1.world.src.data.drop (rs.map Ret.count).sum).take
            (bodyReadLen (e.Size - ((rs.map Ret.count).sum : Nat)) k
              (pr1.world.src.data.length - (rs.map Ret.count).sum))) = [] := by
        simp [hdata, xorFrom]
      have he : bodyReadErr (e.Size - ((rs.map Ret.count).sum : Nat)) k
          (pr1.world.deliver pr.skipUnread.2.aesReader.R false (rs.map Ret.count).sum).2
            = some Err.ErrUnexpectedEOF := by
        unfold bodyReadErr
        rw [if_neg hne, if_pos ⟨hk, by rw [deliver_data]; exact hdata⟩, deliver_fin, hfin]
        rfl
      rw [Reader.call, Read_bodyState_none pr1
        (⟨S, pr.skipUnread.2.aesReader.R, e.Size⟩ : regFileReader) _ k hd1,
        Option.map_some', hb, he]
      rfl
    · subst h
      have hs : shortBodyErr pr1.world.src.fin = Err.ErrUnexpectedEOF := by
        rw [hfin]; rfl
      rw [Reader.call, Read_bodyState_some, Option.map_some', hs]
      rfl

/-- C5 witness: a 4-byte file read with buffers of 3, 3 and 5 bytes. -/
theorem Read_bounded_by_Size_witness :
    ∃ rs pr2, (exReaderOneFile.skipUnread.2.entered exFile4
        ⟨exBlock, List.replicate 16 0, 0⟩).calls exEnv ([3, 3, 5].map Call.Read)
        = some (rs, pr2) ∧
      ((rs.map Ret.count).sum : Int) ≤ exFile4.Size ∧
      (((rs.map Ret.count).sum : Int) = exFile4.Size →
        ∀ k, pr2.call exEnv (Call.Read k) = some (Ret.bytes [] (some Err.EOF), pr2)) ∧
      (((rs.map Ret.count).sum : Int) < exFile4.Size → pr2.world.src.data = [] →
        pr2.world.src.fin = Err.EOF → ∀ k, 0 < k →
        (pr2.call exEnv (Call.Read k)).map Prod.fst
          = some (Ret.bytes [] (some Err.ErrUnexpectedEOF))) :=
  Read_bounded_by_Size exEnv exReaderOneFile _ exFile4 (by rfl) (by decide) [3, 3, 5]

/-- When the input ends before `skipUnread` has discarded what it was asked to, it
reports `io.ErrUnexpectedEOF` if the end falls inside the unread body and plain `io.EOF`
if it falls inside the padding. -/
theorem skipUnread_of_gt (pr : Reader) (hfin : pr.world.src.fin = Err.EOF)
    (h : pr.world.src.data.length < pr.pending.toNat) :
    pr.skipUnread.1 = some (if (pr.world.src.data.length : Int) < pr.numBytes
      then Err.ErrUnexpectedEOF else Err.EOF) := by
  unfold Reader.pending at h
  unfold Reader.skipUnread Reader.discard
  cases hr : pr.reader with
  | tap t =>
    simp only [hr]
    rw [copyN_of_gt _ _ _ _ h]
    simp only [hfin, true_and]
    split <;> rfl
  | aes =>
    simp only [hr]
    rw [copyN_of_gt _ _ _ _ h]
    simp only [hfin, true_and]
    split <;> rfl

theorem Next_of_skip_error (env : Env) (pr : Reader) (e : Err) (herr : pr.err = none)
    (hs : pr.skipUnread.1 = some e) :
    pr.Next env = some (Except.error e, { pr.skipUnread.2 with err := some e }) := by
  simp [Reader.Next, herr, Reader.next, hs]

/-- C7 (counterexample): the input of `exCutInPadding` ends inside the padding after the
first body (after `Next` and a complete `Read` of the 4-byte body, 12 bytes remain to be
discarded and only 6 are left); the following `Next` returns plain `io.EOF`, not
`io.ErrUnexpectedEOF`. -/
theorem Next_plain_EOF_in_padding :
    (exCutInPadding.calls exEnv [Call.Next, Call.Read 4]).map
        (fun r => (r.1.map Ret.err, r.2.pending, r.2.world.src.data.length))
      = some ([none, none], 12, 6) ∧
    (exCutInPadding.calls exEnv [Call.Next, Call.Read 4, Call.Next]).map
        (fun r => r.1.map Ret.err)
      = some [none, none, some Err.EOF] := by
  constructor <;> rfl

/-- C7 (amended): on a reader with no latched error whose input ends with `io.EOF` before
`Next` has discarded the unread body bytes and the padding after them, `Next` fails with
`io.ErrUnexpectedEOF` when the input ends inside the unread body, and returns plain
`io.EOF` when it ends inside the padding; either way the error is latched. -/
theorem Next_on_truncated_input (env : Env) (pr : Reader) (herr : pr.err = none)
    (hfin : pr.world.src.fin = Err.EOF) (hnb : 0 ≤ pr.numBytes) (hpad : 0 ≤ pr.pad)
    (hrange : pr.numBytes + pr.pad < 2 ^ 63)
    (hcut : (pr.world.src.data.length : Int) < pr.numBytes + pr.pad) :
    ((pr.world.src.data.length : Int) < pr.numBytes →
      pr.Next env = some (Except.error Err.ErrUnexpectedEOF,
        { pr.skipUnread.2 with err := some Err.ErrUnexpectedEOF })) ∧
    (pr.numBytes ≤ (pr.world.src.data.length : Int) →
      pr.Next env = some (Except.error Err.EOF,
        { pr.skipUnread.2 with err := some Err.EOF })) := by
  have hp : pr.pending = pr.numBytes + pr.pad := by
    unfold Reader.pending
    exact wrap64_of_range _ (by omega) hrange
  have hs := skipUnread_of_gt pr hfin (by rw [hp]; omega)
  constructor
  · intro hlt
    rw [if_pos hlt] at hs
    exact Next_of_skip_error env pr _ herr hs
  · intro hge
    rw [if_neg (by omega)] at hs
    exact Next_of_skip_error env pr _ herr hs

/-- C7 (amended) witness: `exCutEntered` has 4 unread body bytes, 12 bytes of padding and
10 bytes of input. -/
theorem Next_on_truncated_input_witness :
    ((exCutEntered.world.src.data.length : Int) < exCutEntered.numBytes →
      exCutEntered.Next exEnv = some (Except.error Err.ErrUnexpectedEOF,
        { exCutEntered.skipUnread.2 with err := some Err.ErrUnexpectedEOF })) ∧
    (exCutEntered.numBytes ≤ (exCutEntered.world.src.data.length : Int) →
      exCutEntered.Next exEnv = some (Except.error Err.EOF,
        { exCutEntered.skipUnread.2 with err := some Err.EOF })) :=
  Next_on_truncated_input exEnv exCutEntered rfl rfl (by decide) (by decide) (by decide)
    (by decide)

/-! ## Claims about `pkg/entries.go` -/

set_option maxRecDepth 100000 in
/-- C9 (failing input): a PSP package whose extended header has key type 2 and whose
item record has key type 0.  The variable `ps3ctr` is nil, so the key chosen for the
record is nil, not the AES cipher of `KeyPS3`, and `readFileIndex` panics in
`AESCTRDecrypt`. -/
theorem readFileIndex_nil_key_without_key_type_1 :
    exPreIndexKey2.pkgType = PackageTypePSP ∧
    exPreIndexKey2.extendedHeader.KeyType = 2 ∧
    exPreIndexKey2.itemRecords.map ItemRecord.KeyType = [0] ∧
    (match ps3Cipher exEnv exPreIndexKey2.extendedHeader with
      | Except.ok k => k.isNone
      | Except.error _ => false) = true ∧
    exPreIndexKey2.itemRecords.map
      (fun rec => (selectKey exPreIndexKey2.pkgType exPreIndexKey2.aesReader.block none
        rec).isSome) = [false] ∧
    (exPreIndexKey2.readFileIndex exEnv).isNone = true := by
  refine ⟨rfl, rfl, ?_, rfl, ?_, ?_⟩ <;> rfl

/-- The part of C9 that the code fulfils: whenever `readFileIndex` returns its entries,
each entry carries the flags of its item record and, as its key, the primary cipher `pr.aesReader.block` when
the package type is PSP or PSOne and the record's key type is `0x90`, the AES cipher of
`KeyPS3` when the package type is PSP or PSOne and the key type is not `0x90` (which
then requires the extended header's key type to be 1), and the primary cipher for every
other package type. -/
theorem readFileIndex_key_assignment (env : Env) (pr pr1 : Reader)
    (entries : List fileEntry)
    (h : pr.readFileIndex env = some (Except.ok entries, pr1)) :
    List.Forall₂ (fun rec e => e.Flags = rec.Flags ∧
      e.Key =
        (if pr.pkgType = PackageTypePSP ∨ pr.pkgType = PackageTypePSOne then
          (if rec.KeyType = 0x90 then some pr.aesReader.block
           else some (env.aes env.KeyPS3))
         else some pr.aesReader.block) ∧
      ((pr.pkgType = PackageTypePSP ∨ pr.pkgType = PackageTypePSOne) →
        rec.KeyType ≠ 0x90 → pr.extendedHeader.KeyType = 1)) pr.itemRecords entries := by
  obtain ⟨_, ⟨ps3ctr, tb, hps, hbuild⟩, _⟩ := readFileIndex_ok_inv env pr pr1 entries h
  refine List.Forall₂.imp ?_ (buildEntries_spec _ _ _ _ _ _ tb entries hbuild)
  intro rec e ⟨_, _, hflags, hkey, key, hsome, _⟩
  have hps3 : (pr.pkgType = PackageTypePSP ∨ pr.pkgType = PackageTypePSOne) →
      rec.KeyType ≠ 0x90 →
      pr.extendedHeader.KeyType = 1 ∧ ps3ctr = some (env.aes env.KeyPS3) := by
    intro hp hk
    rcases hps with hnone | hsome'
    · rw [hkey] at hsome
      simp [selectKey, EntryTypePSP, hp, hk, hnone] at hsome
    · exact hsome'
  refine ⟨hflags, ?_, fun hp hk => (hps3 hp hk).1⟩
  rw [hkey]
  unfold selectKey EntryTypePSP
  by_cases hp : pr.pkgType = PackageTypePSP ∨ pr.pkgType = PackageTypePSOne
  · by_cases hk : rec.KeyType = 0x90
    · simp [hp, hk]
    · simp only [hp, hk, if_true, if_false]
      exact (hps3 hp hk).2
  · simp [hp]

set_option maxRecDepth 100000 in
/-- An instance of the part of C9 that the code fulfils: the one-record PSP index of
`exIndexInput`, whose record has key type `0x90`, gets the primary cipher. -/
theorem readFileIndex_key_assignment_witness :
    List.Forall₂ (fun rec e => e.Flags = rec.Flags ∧
      e.Key =
        (if exPreIndex.pkgType = PackageTypePSP ∨ exPreIndex.pkgType = PackageTypePSOne then
          (if rec.KeyType = 0x90 then some exPreIndex.aesReader.block
           else some (exEnv.aes exEnv.KeyPS3))
         else some exPreIndex.aesReader.block) ∧
      ((exPreIndex.pkgType = PackageTypePSP ∨ exPreIndex.pkgType = PackageTypePSOne) →
        rec.KeyType ≠ 0x90 → exPreIndex.extendedHeader.KeyType = 1))
      exPreIndex.itemRecords [exIndexEntry] :=
  readFileIndex_key_assignment exEnv exPreIndex exPostIndex [exIndexEntry] (by rfl)

/-- C6: after a `readFileIndex` that returned its entries, on a fresh reader whose item
records have non-negative sizes and whose input holds every byte the calls ask for,
`ItemCount + 1` successive `Next` calls return exactly the `ItemCount` entries, the i-th
carrying the i-th item record's `DataOffset`, `DataSize` and `Flags`, and then `io.EOF`. -/
theorem Next_returns_index_in_order (env : Env) (pr0 pr1 : Reader)
    (entries : List fileEntry)
    (hidx : pr0.readFileIndex env = some (Except.ok entries, pr1))
    (hfresh : pr0.err = none ∧ pr0.current = none ∧ pr0.pad = 0)
    (hsize : ∀ rec ∈ pr0.itemRecords, 0 ≤ rec.DataSize)
    (hinput : skipDemand entries pr0.FileHeader.DataSize + tailDemand pr0.FileHeader
      ≤ pr1.world.src.data.length) :
    entries.length = pr0.FileHeader.ItemCount.toNat ∧
    List.Forall₂ (fun rec e => e.Offset = rec.DataOffset ∧ e.Size = rec.DataSize ∧
      e.Flags = rec.Flags) pr0.itemRecords entries ∧
    ∃ pr2, (pr1.installIndex entries).calls env
        (List.replicate (pr0.FileHeader.ItemCount.toNat + 1) Call.Next)
      = some (entries.map (fun e => Ret.entry (Except.ok e))
          ++ [Ret.entry (Except.error Err.EOF)], pr2) := by
  obtain ⟨_, ⟨ps3ctr, tb, _, hbuild⟩, herr, hcur, hpad, _, hfh⟩ :=
    readFileIndex_ok_inv env pr0 pr1 entries hidx
  have hspec := buildEntries_spec _ _ _ _ _ _ tb entries hbuild
  have hlen : entries.length = pr0.FileHeader.ItemCount.toNat := by
    rw [← hspec.length_eq, Reader.itemRecords, parseItemRecords_length]
  refine ⟨hlen, List.Forall₂.imp (fun _ _ h => ⟨h.1, h.2.1, h.2.2.1⟩) hspec, ?_⟩
  have hrun := nexts_enumerate env entries (pr1.installIndex entries)
    (by simp [Reader.installIndex, herr, hfresh.1])
    (by simp [Reader.installIndex])
    (by
      intro e he
      obtain ⟨rec, hrec, _, hsz, _, _, key, hkey, hctr⟩ := forall₂_mem_right hspec e he
      have hiv : pr0.FileHeader.DataIV.length = 16 := (NewCTR_isSome_iff _ _ _).mp hctr
      refine ⟨?_, ?_⟩
      · unfold fileEntry.bodySize
        split
        · exact le_refl _
        · rw [hsz]; exact hsize rec hrec
      · have hS : (NewCTR key pr0.FileHeader.DataIV (Int.tdiv e.Offset 16)).isSome = true :=
          (NewCTR_isSome_iff _ _ _).mpr hiv
        obtain ⟨S, hS'⟩ := Option.isSome_iff_exists.mp hS
        exact ⟨S, by simp [Reader.installIndex, hfh, hkey, hS']⟩)
    (by
      have hp : (pr1.installIndex entries).pending = 0 := by
        simp [Reader.pending, Reader.installIndex, Reader.numBytes, hcur, hpad, hfresh.2.1,
          hfresh.2.2, wrap64]
      rw [hp]
      simpa [Reader.installIndex, hfh] using hinput)
  rw [hlen] at hrun
  exact hrun

set_option maxRecDepth 100000 in
/-- C6 witness: the one-record index of `exIndexInput`; two `Next` calls return its entry
and then `io.EOF`. -/
theorem Next_returns_index_in_order_witness :
    [exIndexEntry].length = exPreIndex.FileHeader.ItemCount.toNat ∧
    List.Forall₂ (fun rec e => e.Offset = rec.DataOffset ∧ e.Size = rec.DataSize ∧
      e.Flags = rec.Flags) exPreIndex.itemRecords [exIndexEntry] ∧
    ∃ pr2, (exPostIndex.installIndex [exIndexEntry]).calls exEnv
        (List.replicate (exPreIndex.FileHeader.ItemCount.toNat + 1) Call.Next)
      = some ([exIndexEntry].map (fun e => Ret.entry (Except.ok e))
          ++ [Ret.entry (Except.error Err.EOF)], pr2) :=
  Next_returns_index_in_order exEnv exPreIndex exPostIndex [exIndexEntry] (by rfl)
    ⟨rfl, rfl, rfl⟩ (by decide) (by decide)

/-! ## Claims about `pkg/unpack.go` -/

theorem FileType_eq_mod (e : fileEntry) : e.FileType = e.Flags % 256 := by
  unfold fileEntry.FileType
  exact Nat.and_pow_two_sub_one_eq_mod e.Flags 8

/-- C10: with `FileType = Flags & 0xff` (the low byte of `Flags`), `IsFile` holds exactly
for the file types 0, 1, 2, 3, 5, 6, 14, 15, 16, 17, 19, 20, 21, 22, 24, `IsDirectory`
exactly for 4 and 18, never both; for every other file type both are false and the
extraction loop, on receiving the entry from `Next`, returns the unknown-entry error
without calling the sink. -/
theorem FileType_classification (e : fileEntry) :
    e.FileType = e.Flags % 256 ∧
    (e.IsFile = true ↔
      e.FileType ∈ [0, 1, 2, 3, 5, 6, 14, 15, 16, 17, 19, 20, 21, 22, 24]) ∧
    (e.IsDirectory = true ↔ e.FileType ∈ [4, 18]) ∧
    ¬ (e.IsFile = true ∧ e.IsDirectory = true) ∧
    (e.FileType ∉ [0, 1, 2, 3, 5, 6, 14, 15, 16, 17, 19, 20, 21, 22, 24] →
      e.FileType ∉ [4, 18] →
      e.IsFile = false ∧ e.IsDirectory = false ∧
      ∀ (σ : Type) (w : pkgWriter σ) (env : Env) (fuel : Nat) (sink : σ) (pr pr1 : Reader),
        pr.Next env = some (Except.ok e, pr1) →
        unpackLoop env w (fuel + 1) sink pr = some (some Err.unknownFile, sink, pr1)) := by
  have hf : e.IsFile = true ↔
      e.FileType ∈ [0, 1, 2, 3, 5, 6, 14, 15, 16, 17, 19, 20, 21, 22, 24] := by
    simp [fileEntry.IsFile, FileTypeFile0, FileTypeFile1, FileTypeFileEdat, FileTypeFile3,
      FileTypeFileDocinfo, FileTypeFilePbp, FileTypeFileModule, FileTypeFile15,
      FileTypeFileKeystone, FileTypeFilePfs, FileTypeFileTemp, FileTypeFileInst,
      FileTypeFileClearsign, FileTypeFileSys, FileTypeFileDigs]
  have hd : e.IsDirectory = true ↔ e.FileType ∈ [4, 18] := by
    simp [fileEntry.IsDirectory, FileTypeDirectory, FileTypeDirectoryPfs]
  refine ⟨FileType_eq_mod e, hf, hd, ?_, ?_⟩
  · rintro ⟨h1, h2⟩
    have h1' := hf.mp h1
    have h2' := hd.mp h2
    simp only [List.mem_cons, List.mem_singleton, List.not_mem_nil, or_false] at h1' h2'
    omega
  · intro hnf hnd
    have h1 : e.IsFile = false := by
      cases h : e.IsFile
      · rfl
      · exact absurd (hf.mp h) hnf
    have h2 : e.IsDirectory = false := by
      cases h : e.IsDirectory
      · rfl
      · exact absurd (hd.mp h) hnd
    refine ⟨h1, h2, ?_⟩
    intro σ w env fuel sink pr pr1 hN
    simp [unpackLoop, hN, h1, h2]

/-- C10 witness: the entry of file type 7 is neither file nor directory, and the loop
over `exReaderUnknown` stops with the unknown-entry error. -/
theorem FileType_classification_witness :
    exUnknownEntry.IsFile = false ∧ exUnknownEntry.IsDirectory = false ∧
    unpackLoop exEnv exSink 1 () exReaderUnknown
      = some (some Err.unknownFile, (),
          exReaderUnknown.skipUnread.2.entered exUnknownEntry ⟨exBlock, List.replicate 16 0, 0⟩) :=
  have h := (FileType_classification exUnknownEntry).2.2.2.2 (by decide) (by decide)
  ⟨h.1, h.2.1, h.2.2 Unit exSink exEnv 0 () exReaderUnknown _ (by rfl)⟩

set_option maxRecDepth 1000000 in
/-- C22 (failing input): the only entry of `exReaderSfo` is a file named `PARAM.SFO` and no
SFO has been read, so it is routed through `loadSFO`; the sink's `CreateFile` fails with
the error 2, `loadSFO` overwrites that error with the result of `readSFO` on the empty
copy, and `unpackLoop` returns `io.EOF` instead of the sink error.  The same sink error is
returned for the file of `exReaderOneFile`, whose name is not `PARAM.SFO`. -/
theorem unpackLoop_loses_sink_error_of_PARAM_SFO :
    (unpackLoop exEnv exFailingSink 2 () exReaderSfo).map (fun r => r.1)
      = some (some Err.EOF) ∧
    (unpackLoop exEnv exFailingSink 2 () exReaderOneFile).map (fun r => r.1)
      = some (some (Err.sink 2)) := by
  refine ⟨by rfl, by rfl⟩

/-! ## Claims about `pkg/reader.go` -/

/-- C4: for a package on which `init` succeeds and which is well formed (the index
satisfies the layout invariants, `init` has stopped at the first body, the data region is
followed by a tail of at least 0x20 bytes, and the input has `TotalSize` bytes or more),
a client that calls `Next` until end-of-stream, with any `Read` calls on each entry, gets
`io.EOF` from the last `Next`, and then `CalculatedHash` is the SHA-1 of the first
`TotalSize - 0x20` bytes of the input and `FileHash` is the first 20 of the bytes that
follow them. -/
theorem CalculatedHash_covers_prefix (env : Env) (input : List Nat) (fin : Err)
    (rif : List Nat) (pr : Reader) (plan : List (List Nat))
    (hinit : init env ⟨input, fin⟩ rif = some (Except.ok pr))
    (hpos : (pr.world.hashed.length : Int) = pr.FileHeader.DataOffset
      + headOffset pr.index.itemRecords pr.FileHeader.DataSize)
    (hlay : LayoutOk pr.index.itemRecords pr.FileHeader.DataSize)
    (htail : pr.FileHeader.DataOffset + pr.FileHeader.DataSize + 0x20
      ≤ pr.FileHeader.TotalSize)
    (htotal : pr.FileHeader.TotalSize ≤ (input.length : Int))
    (hint : pr.FileHeader.TotalSize < 2 ^ 63)
    (hplan : plan.length = pr.index.itemRecords.length) :
    ∃ rs q, pr.calls env (walk plan) = some (rs, q) ∧
      rs.getLast? = some (Ret.entry (Except.error Err.EOF)) ∧
      q.CalculatedHash = env.sha1 (input.take (pr.FileHeader.TotalSize - 0x20).toNat) ∧
      q.FileHash = (input.drop (pr.FileHeader.TotalSize - 0x20).toNat).take 20 := by
  obtain ⟨⟨N, hN⟩, herr, hcur, hpad, hidx, hrd, hR, _, _, _, hkeys⟩ :=
    init_ok_inv env _ rif pr hinit
  have hhashed : pr.world.hashed = input.take N := by rw [hN]; simp [World.deliver]
  have hdata : pr.world.src.data = input.drop N := by rw [hN]; simp [World.deliver]
  have hle := layout_head_le _ _ hlay
  generalize ho0 : headOffset pr.index.itemRecords pr.FileHeader.DataSize = o0 at hpos hle
  have hlenh : pr.world.hashed.length = min N input.length := by
    rw [hhashed, List.length_take]
  have hNle : N ≤ input.length := by omega
  have hNeq : (N : Int) = pr.FileHeader.DataOffset + o0 := by omega
  have htc := tailCopy_eq pr.FileHeader (by omega) htail hint
  have hpend : pr.pending = 0 := by
    simp [Reader.pending, Reader.numBytes, hcur, hpad, wrap64]
  have hinv : RunInv pr.world pr.index.itemRecords pr.FileHeader 0
      (headOffset pr.index.itemRecords pr.FileHeader.DataSize - o0) pr := by
    refine ⟨herr, ?_, rfl, hrd, hR, by rw [hpend], 0, (deliver_zero _ _ _).symm, ?_⟩
    · cases hi : pr.index
      rw [hi] at hidx
      simp only at hidx
      rw [hidx]
    · rw [hpend, ho0]; simp
  obtain ⟨rs, q, hrun, hlast, hw, hch, hfhash, _⟩ :=
    walk_spec env pr.world pr.index.itemRecords pr.FileHeader o0
      (by
        have : (tailDemand pr.FileHeader : Int) = (tailCopy pr.FileHeader : Int) + 0x20 := by
          unfold tailDemand tailCopy; push_cast; rfl
        rw [this, htc, hdata, List.length_drop]
        omega)
      pr.index.itemRecords plan pr 0 hplan rfl hlay hkeys hinv
  refine ⟨rs, q, hrun, hlast, ?_, ?_⟩
  · rw [hch, (hashedWorld_eq _ _ _).1, hhashed, hdata, ← List.take_add]
    congr 2
    omega
  · rw [hfhash, (hashedWorld_eq _ _ _).2, hdata, List.take_take, List.drop_drop]
    congr 2
    omega

set_option maxRecDepth 1000000 in
/-- C4 witness: the 384-byte package `exPackage`, whose single file is read with buffers
of 2 and 5 bytes. -/
theorem CalculatedHash_covers_prefix_witness :
    ∃ rs q, exInitReader.calls exEnv (walk [[2, 5]]) = some (rs, q) ∧
      rs.getLast? = some (Ret.entry (Except.error Err.EOF)) ∧
      q.CalculatedHash
        = exEnv.sha1 (exPackage.take (exInitReader.FileHeader.TotalSize - 0x20).toNat) ∧
      q.FileHash = (exPackage.drop (exInitReader.FileHeader.TotalSize - 0x20).toNat).take 20 :=
  CalculatedHash_covers_prefix exEnv exPackage Err.EOF [] exInitReader [[2, 5]] (by rfl)
    (by decide) ⟨⟨by decide, by decide, by decide, by decide, by decide⟩, trivial⟩
    (by decide) (by decide) (by decide) (by rfl)

/-- C11: `setupDecryption` fails with the unsupported-package-type error for every content
type outside `0x6, 0x7, 0xe, 0xf, 0x10, 0x15, 0x16, 0x18, 0x1c`; whenever it returns a
reader, the reader's package type is PSOne for content type `0x6`, PSP for `0x7`, `0xe`,
`0xf` and `0x10`, VitaDLC for `0x16`, PSM for `0x1c`, and for `0x15` it is VitaPatch
exactly when the SFO entry `CATEGORY` is `"gp"` and VitaApp otherwise; and for these
content types it does return a reader once the key set-up yields an AES key and the IV has
16 bytes. -/
theorem setupDecryption_content_type_mapping (env : Env) (w : World) (fh : FileHeader)
    (ext : ExtendedHeader) (meta : Metadata) (sfo : SfoMap) :
    (meta.ContentType ∉ [0x6, 0x7, 0xe, 0xf, 0x10, 0x15, 0x16, 0x18, 0x1c] →
      setupDecryption env w fh ext meta sfo
        = some (Except.error Err.unsupportedPackageType)) ∧
    (∀ pr, setupDecryption env w fh ext meta sfo = some (Except.ok pr) →
      (meta.ContentType = 0x6 → pr.pkgType = PackageTypePSOne) ∧
      (meta.ContentType ∈ [0x7, 0xe, 0xf, 0x10] → pr.pkgType = PackageTypePSP) ∧
      (meta.ContentType = 0x15 →
        (pr.pkgType = PackageTypeVitaPatch ↔ sfo.get (str "CATEGORY") = str "gp") ∧
        (sfo.get (str "CATEGORY") ≠ str "gp" → pr.pkgType = PackageTypeVitaApp)) ∧
      (meta.ContentType = 0x16 → pr.pkgType = PackageTypeVitaDLC) ∧
      (meta.ContentType = 0x1c → pr.pkgType = PackageTypePSM)) ∧
    (meta.ContentType ∈ [0x6, 0x7, 0xe, 0xf, 0x10, 0x15, 0x16, 0x1c] →
      ∀ ctrKey, ctrKeyOf env ext.KeyType fh.DataIV = Except.ok ctrKey →
        (ctrKey.length = 16 ∨ ctrKey.length = 24 ∨ ctrKey.length = 32) →
        fh.DataIV.length = 16 →
        ∃ pr, setupDecryption env w fh ext meta sfo = some (Except.ok pr)) := by
  refine ⟨?_, ?_, ?_⟩
  · intro hc
    simp only [List.mem_cons, List.mem_singleton, List.not_mem_nil, or_false, not_or] at hc
    obtain ⟨h1, h2, h3, h4, h5, h6, h7, h8, h9⟩ := hc
    simp [setupDecryption, pkgTypeOfContent, ContentTypePS1, ContentTypePSP, ContentTypePSPGo,
      ContentTypeMinis, ContentTypeNeoGeo, ContentTypeVitaApp, ContentTypeVitaDLC,
      ContentTypePSM1, ContentTypePSM2, h1, h2, h3, h4, h5, h6, h7, h8, h9]
  · intro pr hpr
    obtain ⟨t, _, ht, _, hty, _⟩ := setupDecryption_eq env w fh ext meta sfo pr hpr
    rw [hty]
    refine ⟨?_, ?_, ?_, ?_, ?_⟩
    · intro hc
      simp [pkgTypeOfContent, ContentTypePS1, hc] at ht
      subst ht
      simp [PackageTypePSOne, PackageTypeVitaApp]
    · intro hc
      simp only [List.mem_cons, List.mem_singleton, List.not_mem_nil, or_false] at hc
      have : t = PackageTypePSP := by
        rcases hc with hc | hc | hc | hc <;>
          simp [pkgTypeOfContent, ContentTypePS1, ContentTypePSP, ContentTypePSPGo,
            ContentTypeMinis, ContentTypeNeoGeo, hc] at ht <;> exact ht.symm
      subst this
      simp [PackageTypePSP, PackageTypeVitaApp]
    · intro hc
      simp [pkgTypeOfContent, ContentTypePS1, ContentTypePSP, ContentTypePSPGo,
        ContentTypeMinis, ContentTypeNeoGeo, ContentTypeVitaApp, hc] at ht
      subst ht
      by_cases hg : sfo.get (str "CATEGORY") = str "gp"
      · simp [hg]
      · simp [hg, PackageTypeVitaApp, PackageTypeVitaPatch]
    · intro hc
      simp [pkgTypeOfContent, ContentTypePS1, ContentTypePSP, ContentTypePSPGo,
        ContentTypeMinis, ContentTypeNeoGeo, ContentTypeVitaApp, ContentTypeVitaDLC, hc] at ht
      subst ht
      simp [PackageTypeVitaDLC, PackageTypeVitaApp]
    · intro hc
      simp [pkgTypeOfContent, ContentTypePS1, ContentTypePSP, ContentTypePSPGo,
        ContentTypeMinis, ContentTypeNeoGeo, ContentTypeVitaApp, ContentTypeVitaDLC,
        ContentTypePSM1, ContentTypePSM2, hc] at ht
      subst ht
      simp [PackageTypePSM, PackageTypeVitaApp]
  · intro hc ctrKey hk hlen hiv
    have : ∃ t, pkgTypeOfContent meta.ContentType = Except.ok t := by
      simp only [List.mem_cons, List.mem_singleton, List.not_mem_nil, or_false] at hc
      rcases hc with hc | hc | hc | hc | hc | hc | hc | hc <;>
        simp [pkgTypeOfContent, ContentTypePS1, ContentTypePSP, ContentTypePSPGo,
          ContentTypeMinis, ContentTypeNeoGeo, ContentTypeVitaApp, ContentTypeVitaDLC,
          ContentTypePSM1, ContentTypePSM2, hc]
    obtain ⟨t, ht⟩ := this
    exact setupDecryption_returns env w fh ext meta sfo t ctrKey ht hk hlen hiv

set_option maxRecDepth 100000 in
/-- C11 witness: a package with content type `0x15`, key type 1 and the SFO entry
`CATEGORY = "gp"` gets the package type VitaPatch. -/
theorem setupDecryption_content_type_mapping_witness :
    ∃ pr, exSetup 0x15 1 [(str "CATEGORY", str "gp")] = some (Except.ok pr) ∧
      pr.pkgType = PackageTypeVitaPatch :=
  have h := setupDecryption_content_type_mapping exEnv exEmptyWorld (exFileHeader 1 384 256 64)
    (exExtendedHeader 1) (exMeta 0x15) [(str "CATEGORY", str "gp")]
  match h.2.2 (by decide) (List.replicate 16 0) (by rfl) (by decide) (by decide) with
  | ⟨pr, hpr⟩ => ⟨pr, hpr, ((h.2.1 pr hpr).2.2.1 rfl).1.mpr (by decide)⟩

set_option maxRecDepth 100000 in
/-- C12 (failing input): for content type `0x18` the `case ContentTypePSM1:` of the switch
has no body, so the package type keeps its zero value, whereas content type `0x1c` gives
PSM. -/
theorem setupDecryption_PSM1_keeps_zero_pkgType :
    ∃ pr1 pr2, exSetup 0x18 2 [] = some (Except.ok pr1) ∧
      exSetup 0x1c 2 [] = some (Except.ok pr2) ∧
      pr1.pkgType = 0 ∧ pr2.pkgType = PackageTypePSM ∧ pr1.pkgType ≠ pr2.pkgType :=
  ⟨_, _, rfl, rfl, rfl, rfl, by decide⟩

/-- C13: for a supported content type (and the 16-byte IV of a file header), with
`KeyType = DataType2 & 7`, `setupDecryption` fails with the unknown-key-type error exactly
when the key type is not 1, 2, 3 or 4; whenever it returns a reader, the reader's cipher is
the AES cipher of `KeyPSP` for key type 1 and the AES cipher of the encryption of `DataIV`
under `VitaKey2`, `KeyVita3`, `KeyVita4` for key types 2, 3, 4; and it does return a
reader for key types 1 to 4 when the four keys have 16 bytes. -/
theorem setupDecryption_key_type (env : Env) (w : World) (fh : FileHeader)
    (ext : ExtendedHeader) (meta : Metadata) (sfo : SfoMap)
    (hct : meta.ContentType ∈ [0x6, 0x7, 0xe, 0xf, 0x10, 0x15, 0x16, 0x18, 0x1c])
    (hiv : fh.DataIV.length = 16) :
    ext.KeyType = ext.DataType2 &&& 7 ∧
    ((∃ k, setupDecryption env w fh ext meta sfo
        = some (Except.error (Err.unknownKeyType k))) ↔ ext.KeyType ∉ [1, 2, 3, 4]) ∧
    (ext.KeyType ∉ [1, 2, 3, 4] → setupDecryption env w fh ext meta sfo
        = some (Except.error (Err.unknownKeyType ext.KeyType))) ∧
    (∀ pr, setupDecryption env w fh ext meta sfo = some (Except.ok pr) →
      (ext.KeyType = 1 → pr.aesReader.block = env.aes env.KeyPSP) ∧
      (ext.KeyType = 2 → pr.aesReader.block
        = env.aes (fit16 ((env.aes env.VitaKey2).encrypt fh.DataIV))) ∧
      (ext.KeyType = 3 → pr.aesReader.block
        = env.aes (fit16 ((env.aes env.KeyVita3).encrypt fh.DataIV))) ∧
      (ext.KeyType = 4 → pr.aesReader.block
        = env.aes (fit16 ((env.aes env.KeyVita4).encrypt fh.DataIV)))) ∧
    (ext.KeyType ∈ [1, 2, 3, 4] →
      env.KeyPSP.length = 16 ∧ env.VitaKey2.length = 16 ∧ env.KeyVita3.length = 16 ∧
        env.KeyVita4.length = 16 →
      ∃ pr, setupDecryption env w fh ext meta sfo = some (Except.ok pr)) := by
  obtain ⟨t, ht⟩ := pkgTypeOfContent_supported _ hct
  obtain ⟨hbad, hgood, hpsp, hvita⟩ := ctrKeyOf_cases env ext.KeyType fh.DataIV
  have htake : fh.DataIV.take 16 = fh.DataIV := List.take_of_length_le (by omega)
  rw [htake] at hvita
  have hfail : ext.KeyType ∉ [1, 2, 3, 4] → setupDecryption env w fh ext meta sfo
      = some (Except.error (Err.unknownKeyType ext.KeyType)) := by
    intro h
    unfold setupDecryption
    rw [ht]
    simp only [hbad h]
  refine ⟨rfl, ⟨?_, fun h => ⟨_, hfail h⟩⟩, hfail, ?_, ?_⟩
  · rintro ⟨k, hk⟩ hmem
    unfold setupDecryption at hk
    rw [ht] at hk
    simp only at hk
    split at hk
    · rename_i e he
      simp only [Option.some.injEq, Except.error.injEq] at hk
      rw [hk] at he
      exact hgood hmem k he
    · split at hk
      · rename_i e he
        simp only [Option.some.injEq, Except.error.injEq] at hk
        rw [hk] at he
        unfold NewCipher at he
        split at he <;> simp at he
      · simp only [Option.map_eq_some'] at hk
        obtain ⟨_, _, hk⟩ := hk
        simp at hk
  · intro pr hpr
    obtain ⟨_, ctrKey, _, hkey, _, hblock⟩ := setupDecryption_eq env w fh ext meta sfo pr hpr
    rw [hblock]
    obtain ⟨h2, h3, h4⟩ := hvita ctrKey hkey
    refine ⟨fun h => ?_, fun h => by rw [h2 h], fun h => by rw [h3 h], fun h => by rw [h4 h]⟩
    rw [hpsp h] at hkey
    simp only [Except.ok.injEq] at hkey
    rw [hkey]
  · intro hmem ⟨l1, l2, l3, l4⟩
    simp only [List.mem_cons, List.mem_singleton, List.not_mem_nil, or_false] at hmem
    have : ∃ ctrKey, ctrKeyOf env ext.KeyType fh.DataIV = Except.ok ctrKey ∧
        ctrKey.length = 16 := by
      by_cases h1 : ext.KeyType = 1
      · exact ⟨_, hpsp h1, l1⟩
      · rw [ctrKeyOf_base env _ _ h1, if_pos (by tauto)]
        rcases hmem with h | h | h | h
        · exact absurd h h1
        · simp [h, l2, fit16_length]
        · simp [h, l3, fit16_length]
        · simp [h, l4, fit16_length]
    obtain ⟨ctrKey, hk, hl⟩ := this
    exact setupDecryption_returns env w fh ext meta sfo t ctrKey ht hk (Or.inl hl) hiv

set_option maxRecDepth 100000 in
/-- C13 witness: a Vita package with key type 2 gets the cipher of the encrypted IV. -/
theorem setupDecryption_key_type_witness :
    ∃ pr, exSetup 0x15 2 [] = some (Except.ok pr) ∧
      pr.aesReader.block = exEnv.aes
        (fit16 ((exEnv.aes exEnv.VitaKey2).encrypt (exFileHeader 1 384 256 64).DataIV)) :=
  have h := setupDecryption_key_type exEnv exEmptyWorld (exFileHeader 1 384 256 64)
    (exExtendedHeader 2) (exMeta 0x15) [] (by decide) (by decide)
  match h.2.2.2.2 (by decide) (by decide) with
  | ⟨pr, hpr⟩ => ⟨pr, hpr, (h.2.2.2.1 pr hpr).2.1 (by decide)⟩

set_option maxRecDepth 1000000 in
/-- C19 (counterexample): on the 384-byte package `exPackage` (`DataOffset + DataSize =
336`, `TotalSize = 384`) the tail buffer after the last `Next` holds 48 bytes, the input
from offset 336 to its end with the 0x20-byte hash trailer, and not the 16 bytes in front
of the trailer. -/
theorem tailBuffer_includes_hash_trailer :
    init exEnv ⟨exPackage, Err.EOF⟩ [] = some (Except.ok exInitReader) ∧
    exInitReader.FileHeader.TotalSize
      - (exInitReader.FileHeader.DataOffset + exInitReader.FileHeader.DataSize) - 0x20 = 16 ∧
    ∃ rs q, exInitReader.calls exEnv (walk [[2, 5]]) = some (rs, q) ∧
      rs.getLast? = some (Ret.entry (Except.error Err.EOF)) ∧
      q.world.tailBuffer = exPackage.drop 336 ∧ q.world.tailBuffer.length = 48 ∧
      q.world.tailBuffer ≠ (exPackage.drop 336).take 16 := by
  refine ⟨by rfl, by decide, ?_⟩
  obtain ⟨rs, q, hrun, hlast, _, ht⟩ :=
    walk_after_init exEnv exPackage Err.EOF [] exInitReader [[2, 5]] (by rfl)
      (by decide) ⟨⟨by decide, by decide, by decide, by decide, by decide⟩, trivial⟩
      (by decide) (by decide) (by decide) (by rfl)
  refine ⟨rs, q, hrun, hlast, ?_, ?_, ?_⟩
  · rw [ht]; decide
  · rw [ht]; decide
  · rw [ht]; decide

/-- C19 (amended): for a package on which `init` succeeds and which is well formed (as in
C4), after the `Next` that returns `io.EOF` the tail buffer holds exactly
`TotalSize - (DataOffset + DataSize)` bytes: the input from offset `DataOffset + DataSize`
up to offset `TotalSize`, the 0x20-byte hash trailer included. -/
theorem tailBuffer_holds_tail_and_trailer (env : Env) (input : List Nat) (fin : Err)
    (rif : List Nat) (pr : Reader) (plan : List (List Nat))
    (hinit : init env ⟨input, fin⟩ rif = some (Except.ok pr))
    (hpos : (pr.world.hashed.length : Int) = pr.FileHeader.DataOffset
      + headOffset pr.index.itemRecords pr.FileHeader.DataSize)
    (hlay : LayoutOk pr.index.itemRecords pr.FileHeader.DataSize)
    (htail : pr.FileHeader.DataOffset + pr.FileHeader.DataSize + 0x20
      ≤ pr.FileHeader.TotalSize)
    (htotal : pr.FileHeader.TotalSize ≤ (input.length : Int))
    (hint : pr.FileHeader.TotalSize < 2 ^ 63)
    (hplan : plan.length = pr.index.itemRecords.length) :
    ∃ rs q, pr.calls env (walk plan) = some (rs, q) ∧
      rs.getLast? = some (Ret.entry (Except.error Err.EOF)) ∧
      q.world.tailBuffer
        = (input.drop (pr.FileHeader.DataOffset + pr.FileHeader.DataSize).toNat).take
          (pr.FileHeader.TotalSize
            - (pr.FileHeader.DataOffset + pr.FileHeader.DataSize)).toNat ∧
      (q.world.tailBuffer.length : Int)
        = pr.FileHeader.TotalSize - (pr.FileHeader.DataOffset + pr.FileHeader.DataSize) := by
  obtain ⟨rs, q, hrun, hlast, _, ht⟩ :=
    walk_after_init env input fin rif pr plan hinit hpos hlay htail htotal hint hplan
  have hle := layout_head_le _ _ hlay
  refine ⟨rs, q, hrun, hlast, ht, ?_⟩
  rw [ht, List.length_take, List.length_drop]
  omega

set_option maxRecDepth 1000000 in
/-- C19 (amended) witness: the package `exPackage`, whose file is read with buffers of 2
and 5 bytes. -/
theorem tailBuffer_holds_tail_and_trailer_witness :
    ∃ rs q, exInitReader.calls exEnv (walk [[2, 5]]) = some (rs, q) ∧
      rs.getLast? = some (Ret.entry (Except.error Err.EOF)) ∧
      q.world.tailBuffer
        = (exPackage.drop (exInitReader.FileHeader.DataOffset
            + exInitReader.FileHeader.DataSize).toNat).take
          (exInitReader.FileHeader.TotalSize
            - (exInitReader.FileHeader.DataOffset + exInitReader.FileHeader.DataSize)).toNat ∧
      (q.world.tailBuffer.length : Int)
        = exInitReader.FileHeader.TotalSize
          - (exInitReader.FileHeader.DataOffset + exInitReader.FileHeader.DataSize) :=
  tailBuffer_holds_tail_and_trailer exEnv exPackage Err.EOF [] exInitReader [[2, 5]] (by rfl)
    (by decide) ⟨⟨by decide, by decide, by decide, by decide, by decide⟩, trivial⟩
    (by decide) (by decide) (by decide) (by rfl)

set_option maxRecDepth 1000000 in
/-- C20 (counterexample): on the package `exPackage` (`DataOffset = 272`, `DataSize = 64`,
`TotalSize = 384`) the head buffer holds 320 bytes, the 272 in front of the data region
and the 48 bytes of the file index that `init` reads from it, and the tail buffer holds 48
bytes; head buffer, data region and tail buffer together have 432 bytes and are not the
first `TotalSize - 0x20 = 352` bytes of the input. -/
theorem buffers_overlap_region_and_trailer :
    init exEnv ⟨exPackage, Err.EOF⟩ [] = some (Except.ok exInitReader) ∧
    exInitReader.FileHeader.DataOffset = 272 ∧ exInitReader.FileHeader.DataSize = 64 ∧
    exInitReader.FileHeader.TotalSize = 384 ∧
    ∃ rs q, exInitReader.calls exEnv (walk [[2, 5]]) = some (rs, q) ∧
      rs.getLast? = some (Ret.entry (Except.error Err.EOF)) ∧
      q.world.headBuffer.length = 320 ∧ q.world.tailBuffer.length = 48 ∧
      q.world.headBuffer.length + 64 + q.world.tailBuffer.length ≠ 384 - 0x20 ∧
      q.world.headBuffer ++ (exPackage.drop 272).take 64 ++ q.world.tailBuffer
        ≠ exPackage.take (384 - 0x20) := by
  refine ⟨by rfl, by decide, by decide, by decide, ?_⟩
  obtain ⟨rs, q, hrun, hlast, hh, ht⟩ :=
    walk_after_init exEnv exPackage Err.EOF [] exInitReader [[2, 5]] (by rfl)
      (by decide) ⟨⟨by decide, by decide, by decide, by decide, by decide⟩, trivial⟩
      (by decide) (by decide) (by decide) (by rfl)
  refine ⟨rs, q, hrun, hlast, ?_, ?_, ?_, ?_⟩
  · rw [hh]; decide
  · rw [ht]; decide
  · rw [hh, ht]; decide
  · rw [hh, ht]; decide

/-- C20 (amended): for a package on which `init` succeeds and which is well formed (as in
C4), after the `Next` that returns `io.EOF` the head buffer is the input in front of the
first entry body (offset `DataOffset + o`, where `o` is the offset of the first body in
the data region), the concatenation of the head buffer, the remaining `DataSize - o`
bytes of the data region and the tail buffer is exactly the first `TotalSize` bytes of the
input, and the three lengths add up to `TotalSize`. -/
theorem buffers_cover_input (env : Env) (input : List Nat) (fin : Err)
    (rif : List Nat) (pr : Reader) (plan : List (List Nat))
    (hinit : init env ⟨input, fin⟩ rif = some (Except.ok pr))
    (hpos : (pr.world.hashed.length : Int) = pr.FileHeader.DataOffset
      + headOffset pr.index.itemRecords pr.FileHeader.DataSize)
    (hlay : LayoutOk pr.index.itemRecords pr.FileHeader.DataSize)
    (htail : pr.FileHeader.DataOffset + pr.FileHeader.DataSize + 0x20
      ≤ pr.FileHeader.TotalSize)
    (htotal : pr.FileHeader.TotalSize ≤ (input.length : Int))
    (hint : pr.FileHeader.TotalSize < 2 ^ 63)
    (hplan : plan.length = pr.index.itemRecords.length) :
    ∃ rs q, pr.calls env (walk plan) = some (rs, q) ∧
      rs.getLast? = some (Ret.entry (Except.error Err.EOF)) ∧
      q.world.headBuffer = input.take (pr.FileHeader.DataOffset
        + headOffset pr.index.itemRecords pr.FileHeader.DataSize).toNat ∧
      q.world.headBuffer
        ++ (input.drop (pr.FileHeader.DataOffset
              + headOffset pr.index.itemRecords pr.FileHeader.DataSize).toNat).take
            (pr.FileHeader.DataSize
              - headOffset pr.index.itemRecords pr.FileHeader.DataSize).toNat
        ++ q.world.tailBuffer = input.take pr.FileHeader.TotalSize.toNat ∧
      (q.world.headBuffer.length : Int)
        + (pr.FileHeader.DataSize - headOffset pr.index.itemRecords pr.FileHeader.DataSize)
        + q.world.tailBuffer.length = pr.FileHeader.TotalSize := by
  obtain ⟨rs, q, hrun, hlast, hh, ht⟩ :=
    walk_after_init env input fin rif pr plan hinit hpos hlay htail htotal hint hplan
  have hle := layout_head_le _ _ hlay
  generalize headOffset pr.index.itemRecords pr.FileHeader.DataSize = o0 at hpos hle hh ⊢
  have h0 : 0 ≤ pr.FileHeader.DataOffset + o0 := by omega
  refine ⟨rs, q, hrun, hlast, hh, ?_, ?_⟩
  · rw [hh, ht, ← List.take_add]
    have e1 : (pr.FileHeader.DataOffset + pr.FileHeader.DataSize).toNat
        = (pr.FileHeader.DataOffset + o0).toNat + (pr.FileHeader.DataSize - o0).toNat := by
      omega
    rw [e1, ← List.take_add]
    congr 1
    omega
  · rw [hh, ht, List.length_take, List.length_take, List.length_drop]
    omega

set_option maxRecDepth 1000000 in
/-- C20 (amended) witness: the package `exPackage`, whose file is read with buffers of 2
and 5 bytes. -/
theorem buffers_cover_input_witness :
    ∃ rs q, exInitReader.calls exEnv (walk [[2, 5]]) = some (rs, q) ∧
      rs.getLast? = some (Ret.entry (Except.error Err.EOF)) ∧
      q.world.headBuffer = exPackage.take (exInitReader.FileHeader.DataOffset
        + headOffset exInitReader.index.itemRecords exInitReader.FileHeader.DataSize).toNat ∧
      q.world.headBuffer
        ++ (exPackage.drop (exInitReader.FileHeader.DataOffset
              + headOffset exInitReader.index.itemRecords
                  exInitReader.FileHeader.DataSize).toNat).take
            (exInitReader.FileHeader.DataSize
              - headOffset exInitReader.index.itemRecords
                  exInitReader.FileHeader.DataSize).toNat
        ++ q.world.tailBuffer = exPackage.take exInitReader.FileHeader.TotalSize.toNat ∧
      (q.world.headBuffer.length : Int)
        + (exInitReader.FileHeader.DataSize
            - headOffset exInitReader.index.itemRecords exInitReader.FileHeader.DataSize)
        + q.world.tailBuffer.length = exInitReader.FileHeader.TotalSize :=
  buffers_cover_input exEnv exPackage Err.EOF [] exInitReader [[2, 5]] (by rfl)
    (by decide) ⟨⟨by decide, by decide, by decide, by decide, by decide⟩, trivial⟩
    (by decide) (by decide) (by decide) (by rfl)

/-- The part of C14 that the code fulfils.  With a non-empty zRIF license, (a) whenever
`init` returns a reader whose package type is VitaApp, VitaDLC, VitaPatch or PSM, the
license decoded for that package type is the reader's `rif`, it has the 36 bytes at offset
`0x50` (PSM) or `0x10` (other types), and they equal `FileHeader.ContentID`; (b) on a
package that `init` accepts without a license, with a package type other than PSOne and
PSP, a license that decodes and whose 36 bytes at that offset differ from
`FileHeader.ContentID` makes `init` fail with the license-mismatch error. -/
theorem init_license_content_id (env : Env) (src : Source) (rif : List Nat)
    (hrif : rif ≠ []) :
    (∀ pr, init env src rif = some (Except.ok pr) →
      pr.pkgType ∈ [PackageTypeVitaApp, PackageTypeVitaDLC, PackageTypeVitaPatch,
        PackageTypePSM] →
      DecodeLicense env rif pr.pkgType = Except.ok pr.rif ∧
      (if pr.pkgType = PackageTypePSM then 0x50 else 0x10) + 36 ≤ pr.rif.length ∧
      (pr.rif.drop (if pr.pkgType = PackageTypePSM then 0x50 else 0x10)).take 36
        = pr.FileHeader.ContentID) ∧
    (∀ pr0 lic, init env src [] = some (Except.ok pr0) →
      pr0.pkgType ≠ PackageTypePSOne → pr0.pkgType ≠ PackageTypePSP →
      DecodeLicense env rif pr0.pkgType = Except.ok lic →
      (if pr0.pkgType = PackageTypePSM then 0x50 else 0x10) + 36 ≤ lic.length →
      (lic.drop (if pr0.pkgType = PackageTypePSM then 0x50 else 0x10)).take 36
        ≠ pr0.FileHeader.ContentID →
      init env src rif = some (Except.error Err.licenseMismatch)) := by
  constructor
  · intro pr h hty
    obtain ⟨pr0, pr1, hcl, hpt, hfh, hr, _⟩ := init_ok_stages env src rif pr h
    rw [hpt] at hty
    have h1 : pr0.pkgType ≠ PackageTypePSOne := by
      intro h0; rw [h0] at hty; revert hty; decide
    have h2 : pr0.pkgType ≠ PackageTypePSP := by
      intro h0; rw [h0] at hty; revert hty; decide
    obtain ⟨lic, hlic, hid, hpr1⟩ := checkLicense_checked env pr0 pr1 rif hcl hrif h1 h2
    have hrl : pr.rif = lic := by rw [hr, hpr1]
    have hpos : ((pr0.pkgType : Nat) : Int) > 0 := by
      simp only [List.mem_cons, List.mem_singleton, List.not_mem_nil, or_false] at hty
      rcases hty with h0 | h0 | h0 | h0 <;> rw [h0] <;> decide
    have hlen := DecodeLicense_ok_length env rif lic _ hlic hpos
    have hbound : (if pr0.pkgType = PackageTypePSM then 0x50 else 0x10) + 36 ≤ lic.length := by
      rw [hlen]
      simp only [List.mem_cons, List.mem_singleton, List.not_mem_nil, or_false] at hty
      rcases hty with h0 | h0 | h0 | h0 <;> rw [h0] <;> decide
    rw [hpt, hfh, hrl]
    exact ⟨hlic, hbound, by rw [← rifContentID_eq lic _ hbound, hid]⟩
  · intro pr hlic' h h1 h2 hlic hlen hne
    obtain ⟨pr0, _, _, hpt, hfh, _, hfail⟩ := init_ok_stages env src [] pr h
    rw [hpt] at h1 h2 hlic hlen hne
    rw [hfh] at hne
    exact hfail rif _ (checkLicense_mismatch env pr0 rif hlic' hrif h1 h2 hlic
      (by rw [rifContentID_eq _ _ hlen]; exact hne))

set_option maxRecDepth 1000000 in
/-- An instance of the part of C14 that the code fulfils: the Vita package `exVitaPackage`
with a license for its content ID and with a license for another one. -/
theorem init_license_content_id_witness :
    ∃ pr, init exEnv ⟨exVitaPackage, Err.EOF⟩ exRif = some (Except.ok pr) ∧
      pr.pkgType = PackageTypeVitaApp ∧
      (pr.rif.drop 0x10).take 36 = pr.FileHeader.ContentID ∧
      init exEnv ⟨exVitaPackage, Err.EOF⟩ exRifOther = some (Except.error Err.licenseMismatch) :=
  have hinit : ∃ pr, init exEnv ⟨exVitaPackage, Err.EOF⟩ exRif = some (Except.ok pr) ∧
      pr.pkgType = PackageTypeVitaApp := ⟨_, rfl, rfl⟩
  have hplain : ∃ pr0, init exEnv ⟨exVitaPackage, Err.EOF⟩ [] = some (Except.ok pr0) ∧
      pr0.pkgType = PackageTypeVitaApp ∧ pr0.FileHeader.ContentID = List.replicate 36 0 :=
    ⟨_, rfl, rfl, rfl⟩
  match hinit, hplain with
  | ⟨pr, h, ht⟩, ⟨pr0, h0, ht0, hc0⟩ =>
    ⟨pr, h, ht,
      by
        have h3 := ((init_license_content_id exEnv ⟨exVitaPackage, Err.EOF⟩ exRif
          (by decide)).1 pr h (by rw [ht]; decide)).2.2
        rw [ht] at h3
        exact h3,
      (init_license_content_id exEnv ⟨exVitaPackage, Err.EOF⟩ exRifOther (by decide)).2 pr0
        (List.replicate 16 0 ++ 1 :: List.replicate 495 0) h0 (by rw [ht0]; decide)
        (by rw [ht0]; decide) (by rw [ht0]; rfl) (by rw [ht0]; decide)
        (by rw [ht0, hc0]; decide)⟩

set_option maxRecDepth 1000000 in
/-- C14 (failing input): the package `exPSM1Package` has the content type `0x18`, for which
`setupDecryption` leaves the package type 0, and an all-zero content ID; the zRIF `exZrif`
decodes to the one-byte license `[7]`.  `DecodeLicense` makes no length check for the
package type 0, `rifContentID` reads the 36 bytes at offset `0x10` from the spare capacity
of the slice, which is zero, and `init` returns a reader whose license has one byte and no
byte at offset `0x10`. -/
theorem init_accepts_one_byte_license :
    ∃ pr, init exEnv ⟨exPSM1Package, Err.EOF⟩ exZrif = some (Except.ok pr) ∧
      pr.pkgType = 0 ∧ pr.pkgType ≠ PackageTypePSOne ∧ pr.pkgType ≠ PackageTypePSP ∧
      DecodeLicense exEnv exZrif pr.pkgType = Except.ok [7] ∧ pr.rif = [7] ∧
      pr.rif.length < 0x10 + 36 ∧ pr.FileHeader.ContentID = List.replicate 36 0 :=
  ⟨_, rfl, rfl, by decide, by decide, rfl, rfl, by decide, rfl⟩

set_option maxRecDepth 1000000 in
/-- C21 (failing input): the package `exNegativeItemCount` has the header size 256 and the
item count `-1`; `init` does not reject it with an error: the check `ItemCount == 0` lets
it pass, the extended header and the metadata are read, and `readFileIndex` panics in
`make([]ItemRecord, pr.FileHeader.ItemCount)`. -/
theorem init_negative_ItemCount_not_rejected :
    (parseFileHeader (exNegativeItemCount.take 192)).HeaderSize = 256 ∧
    (parseFileHeader (exNegativeItemCount.take 192)).ItemCount = -1 ∧
    init exEnv ⟨exNegativeItemCount, Err.EOF⟩ [] = none ∧
    ∃ pr, initBody exEnv ((exWorld exNegativeItemCount).deliver Tap.headHash false 256).2
        (parseFileHeader (exNegativeItemCount.take 192))
        (parseExtendedHeader ((exNegativeItemCount.drop 192).take 64)) = some (Except.ok pr) ∧
      pr.readFileIndex exEnv = none := by
  refine ⟨by decide, by decide, by rfl, _, by rfl, by rfl⟩

set_option maxRecDepth 1000000 in
/-- C24 (failing input): a record of the unrecognised type 5 with the declared size 5, read
at position 0 from an input of 16 bytes: `readMetadata` takes 12 bytes off the input (the
8 header bytes and one 4-byte word) and returns the position 13. -/
theorem readMetadata_size_5_consumes_12 :
    (readMetadataLoop 1 (exWorld [0, 0, 0, 5, 0, 0, 0, 5, 1, 2, 3, 4, 5, 6, 7, 8]) 0
        exMeta0).map (fun r => (r.pos, r.err, r.world.src.data, r.meta))
      = some (13, none, [5, 6, 7, 8], exMeta0) := by
  rfl

set_option maxRecDepth 1000000 in
/-- C27 (failing input): a record of the recognised type 2 with the declared size 0 leaves
`buf` nil and `buf[0]` is out of range, on the record alone and in `init` on the package
`exZeroSizeRecord`; a record of the two-word type `0xd` with the declared size 4 fails at
`buf[1]`. -/
theorem readMetadata_indexes_empty_buf :
    readMetadataLoop 1 (exWorld [0, 0, 0, 2, 0, 0, 0, 0]) 0 exMeta0 = none ∧
    readMetadataLoop 1 (exWorld [0, 0, 0, 0xd, 0, 0, 0, 4, 0, 0, 0, 1]) 0 exMeta0 = none ∧
    init exEnv ⟨exZeroSizeRecord, Err.EOF⟩ [] = none := by
  refine ⟨by rfl, by rfl, by rfl⟩

set_option maxRecDepth 1000000 in
/-- C26 (counterexample): the package `exPackage` cut off in front of its 0x20-byte hash
trailer.  `init` succeeds, the walk ends with a `Next` that returns `io.EOF` (the result of
the failed trailer read, so `readTail` has not completed), and then `FileHash` is empty
but `CalculatedHash` holds 20 bytes and `Valid()` is false. -/
theorem Valid_false_when_trailer_is_missing :
    ∃ pr rs q, init exEnv20 ⟨exPackage.take 352, Err.EOF⟩ [] = some (Except.ok pr) ∧
      pr.calls exEnv20 (walk [[2, 5]]) = some (rs, q) ∧
      rs.getLast? = some (Ret.entry (Except.error Err.EOF)) ∧
      q.FileHash = [] ∧ q.CalculatedHash.length = 20 ∧ q.Valid = false :=
  ⟨_, _, _, rfl, rfl, rfl, rfl, rfl, rfl⟩

/-- C26 (amended): right after `init` succeeds both hashes are empty and `Valid()` is true.
After any calls of `Next` and `Read` of which no `Next` completed the copy of the tail,
both hashes are still empty and `Valid()` is true; in particular after a `Next` whose
`skipUnread` failed, or whose copy of the tail in `readTail` failed, an error is latched
and the hashes are empty.  Once a `Next` has completed the copy of the tail, an error or
`io.EOF` is latched, `CalculatedHash` is the 20-byte hash of everything hashed up to the
end of that copy, and `FileHash` is empty if the trailer could not be read in full (then
`Valid()` is false) and the first 20 bytes of the trailer otherwise (then `Valid()` is
false exactly when the two hashes differ).  So `Valid()` is false only after a `Next` that
completed the copy of the tail, with hashes that differ. -/
theorem Valid_false_only_after_tail_copy (env : Env) (src : Source) (rif : List Nat)
    (pr q : Reader) (cs : List Call) (rs : List Ret)
    (hsha : ∀ x, (env.sha1 x).length = 20)
    (hinit : init env src rif = some (Except.ok pr))
    (hcalls : pr.calls env cs = some (rs, q)) :
    (pr.CalculatedHash = [] ∧ pr.FileHash = [] ∧ pr.Valid = true) ∧
    ((∀ cs1 cs2 rs1 p, cs = cs1 ++ Call.Next :: cs2 → pr.calls env cs1 = some (rs1, p) →
        ¬ TailCopyCompletes p) →
      q.CalculatedHash = [] ∧ q.FileHash = [] ∧ q.Valid = true) ∧
    (∀ cs1 cs2 rs1 p, cs = cs1 ++ Call.Next :: cs2 → pr.calls env cs1 = some (rs1, p) →
      p.err = none →
      (p.skipUnread.1 ≠ none ∨
       (p.skipUnread.2.index.itemRecords[p.skipUnread.2.index.idx]? = none ∧
        p.skipUnread.2.copyTail.2.1 ≠ none)) →
      q.err ≠ none ∧ q.CalculatedHash = [] ∧ q.FileHash = [] ∧ q.Valid = true) ∧
    (∀ cs1 cs2 rs1 p, cs = cs1 ++ Call.Next :: cs2 → pr.calls env cs1 = some (rs1, p) →
      TailCopyCompletes p →
      q.err ≠ none ∧
      q.CalculatedHash = env.sha1 p.skipUnread.2.copyTail.2.2.hashed ∧
      q.CalculatedHash = env.sha1 q.world.hashed ∧ q.CalculatedHash.length = 20 ∧
      (p.skipUnread.2.readTrailer.2.1 ≠ none → q.FileHash = [] ∧ q.Valid = false) ∧
      (p.skipUnread.2.readTrailer.2.1 = none →
        q.FileHash = p.skipUnread.2.readTrailer.1.take 20 ∧ q.FileHash.length = 20 ∧
        (q.Valid = false ↔ q.CalculatedHash ≠ q.FileHash))) ∧
    (q.Valid = false →
      q.CalculatedHash ≠ q.FileHash ∧
      ∃ cs1 cs2 rs1 p, cs = cs1 ++ Call.Next :: cs2 ∧ pr.calls env cs1 = some (rs1, p) ∧
        TailCopyCompletes p) := by
  obtain ⟨_, _, _, _, _, _, _, hf0, hc0, _⟩ := init_ok_inv env src rif pr hinit
  have hv : ∀ p : Reader, p.Valid = false ↔ p.CalculatedHash ≠ p.FileHash := by
    intro p
    have h := Valid_iff p
    cases hp : p.Valid
    · simp only [hp, Bool.false_eq_true, false_iff] at h
      simp [h]
    · simp only [hp, true_iff] at h
      simp [h]
  have hempty : ∀ (cs1 : List Call) (rs1 : List Ret) (p : Reader),
      pr.calls env cs1 = some (rs1, p) → p.err = none →
      p.CalculatedHash = [] ∧ p.FileHash = [] := by
    intro cs1 rs1 p hp herr
    rcases calls_hashState env cs1 pr p rs1 (Or.inl ⟨hc0, hf0⟩) hp with hs | hs
    · exact hs
    · exact absurd herr hs.1
  have hA : (∀ cs1 cs2 rs1 p, cs = cs1 ++ Call.Next :: cs2 →
      pr.calls env cs1 = some (rs1, p) → ¬ TailCopyCompletes p) →
      q.CalculatedHash = [] ∧ q.FileHash = [] ∧ q.Valid = true := by
    intro hno
    obtain ⟨h1, h2⟩ := calls_no_tail_copy env cs pr q rs hc0 hf0 hcalls hno
    exact ⟨h1, h2, (Valid_iff q).mpr (by rw [h1, h2])⟩
  refine ⟨⟨hc0, hf0, (Valid_iff pr).mpr (by rw [hc0, hf0])⟩, hA, ?_, ?_, ?_⟩
  · intro cs1 cs2 rs1 p hsplit hp herr hfail
    obtain ⟨hpc, hpf⟩ := hempty cs1 rs1 p hp herr
    obtain ⟨r, p1, hnext, hq⟩ := calls_after_Next env pr p q cs cs1 cs2 rs rs1 hcalls hsplit hp
    obtain ⟨hkeep, hlatch, _⟩ := Next_tail env p p1 r herr hpc hpf hnext
    have hne : p1.err ≠ none := by
      rcases hfail with hfail | hfail
      · exact hlatch (Or.inl hfail)
      · exact hlatch (Or.inr hfail.1)
    have hnt : ¬ TailCopyCompletes p := by
      intro ht
      rcases hfail with hfail | hfail
      · exact hfail ht.2.1
      · exact hfail.2 ht.2.2.2
    rw [hq hne]
    obtain ⟨h1, h2⟩ := hkeep hnt
    exact ⟨hne, h1, h2, (Valid_iff p1).mpr (by rw [h1, h2])⟩
  · intro cs1 cs2 rs1 p hsplit hp ht
    obtain ⟨hpc, hpf⟩ := hempty cs1 rs1 p hp ht.1
    obtain ⟨r, p1, hnext, hq⟩ := calls_after_Next env pr p q cs cs1 cs2 rs rs1 hcalls hsplit hp
    obtain ⟨_, hlatch, hset⟩ := Next_tail env p p1 r ht.1 hpc hpf hnext
    have hne : p1.err ≠ none := hlatch (Or.inr ht.2.2.1)
    rw [hq hne]
    obtain ⟨h1, h2, h3⟩ := hset ht
    have h20 : p1.CalculatedHash.length = 20 := by rw [h1]; exact hsha _
    refine ⟨hne, h1, by rw [h2]; exact h1, h20, fun hbad => ?_, fun hok => ?_⟩
    · rw [if_neg hbad] at h3
      refine ⟨h3, (hv p1).mpr ?_⟩
      intro heq
      rw [heq, h3] at h20
      simp at h20
    · rw [if_pos hok] at h3
      refine ⟨h3, ?_, hv p1⟩
      obtain ⟨hle, htake⟩ := readFull_none _ _ _ _ hok
      rw [h3]
      show (p.skipUnread.2.readTrailer.1.take 20).length = 20
      unfold Reader.readTrailer
      rw [htake, List.length_take, List.length_take]
      omega
  · intro hfalse
    refine ⟨(hv q).mp hfalse, ?_⟩
    by_contra hex
    have hno : ∀ cs1 cs2 rs1 p, cs = cs1 ++ Call.Next :: cs2 →
        pr.calls env cs1 = some (rs1, p) → ¬ TailCopyCompletes p :=
      fun cs1 cs2 rs1 p hsplit hp ht => hex ⟨cs1, cs2, rs1, p, hsplit, hp, ht⟩
    rw [(hA hno).2.2] at hfalse
    exact absurd hfalse (by decide)

set_option maxRecDepth 1000000 in
/-- C26 (amended) witness: on the complete package `exPackage`, walked to the end, the last
`Next` completes the copy of the tail and reads the trailer; on `exPackage` cut off four
bytes into its tail the copy of the tail of the last `Next` fails with `io.EOF` and the
hashes stay empty. -/
theorem Valid_false_only_after_tail_copy_witness :
    (∃ pr rs q rs1 p, init exEnv20 ⟨exPackage, Err.EOF⟩ [] = some (Except.ok pr) ∧
      pr.calls exEnv20 (walk [[2, 5]]) = some (rs, q) ∧
      pr.calls exEnv20 [Call.Next, Call.Read 2, Call.Read 5] = some (rs1, p) ∧
      TailCopyCompletes p ∧ p.skipUnread.2.readTrailer.2.1 = none ∧
      q.err ≠ none ∧
      q.CalculatedHash = exEnv20.sha1 p.skipUnread.2.copyTail.2.2.hashed ∧
      q.CalculatedHash.length = 20 ∧
      q.FileHash = p.skipUnread.2.readTrailer.1.take 20 ∧ q.FileHash.length = 20 ∧
      (q.Valid = false ↔ q.CalculatedHash ≠ q.FileHash)) ∧
    (∃ pr rs q rs1 p, init exEnv20 ⟨exPackage.take 340, Err.EOF⟩ [] = some (Except.ok pr) ∧
      pr.calls exEnv20 (walk [[2, 5]]) = some (rs, q) ∧
      pr.calls exEnv20 [Call.Next, Call.Read 2, Call.Read 5] = some (rs1, p) ∧
      p.err = none ∧ p.skipUnread.1 = none ∧
      p.skipUnread.2.index.itemRecords[p.skipUnread.2.index.idx]? = none ∧
      p.skipUnread.2.copyTail.2.1 = some Err.EOF ∧
      q.err ≠ none ∧ q.CalculatedHash = [] ∧ q.FileHash = [] ∧ q.Valid = true) :=
  have hfull : ∃ pr, init exEnv20 ⟨exPackage, Err.EOF⟩ [] = some (Except.ok pr) ∧
      ∃ rs q, pr.calls exEnv20 (walk [[2, 5]]) = some (rs, q) ∧
      ∃ rs1 p, pr.calls exEnv20 [Call.Next, Call.Read 2, Call.Read 5] = some (rs1, p) ∧
        TailCopyCompletes p ∧ p.skipUnread.2.readTrailer.2.1 = none :=
    ⟨_, rfl, _, _, rfl, _, _, rfl, ⟨rfl, rfl, rfl, rfl⟩, rfl⟩
  have hcut : ∃ pr, init exEnv20 ⟨exPackage.take 340, Err.EOF⟩ [] = some (Except.ok pr) ∧
      ∃ rs q, pr.calls exEnv20 (walk [[2, 5]]) = some (rs, q) ∧
      ∃ rs1 p, pr.calls exEnv20 [Call.Next, Call.Read 2, Call.Read 5] = some (rs1, p) ∧
        p.err = none ∧ p.skipUnread.1 = none ∧
        p.skipUnread.2.index.itemRecords[p.skipUnread.2.index.idx]? = none ∧
        p.skipUnread.2.copyTail.2.1 = some Err.EOF :=
    ⟨_, rfl, _, _, rfl, _, _, rfl, rfl, rfl, rfl, rfl⟩
  match hfull, hcut with
  | ⟨pr, h, rs, q, hc, rs1, p, hp, ht, htr⟩, ⟨pr2, h2, rs2, q2, hc2, rs3, p2, hp2, he, hs, hi, hcp⟩ =>
    have hthm := (Valid_false_only_after_tail_copy exEnv20 ⟨exPackage, Err.EOF⟩ [] pr q
      (walk [[2, 5]]) rs (fun x => by simp [exEnv20]) h hc).2.2.2.1
      [Call.Next, Call.Read 2, Call.Read 5] [] rs1 p rfl hp ht
    have hthm2 := (Valid_false_only_after_tail_copy exEnv20 ⟨exPackage.take 340, Err.EOF⟩
      [] pr2 q2 (walk [[2, 5]]) rs2 (fun x => by simp [exEnv20]) h2 hc2).2.2.1
      [Call.Next, Call.Read 2, Call.Read 5] [] rs3 p2 rfl hp2 he
      (Or.inr ⟨hi, by rw [hcp]; exact Option.some_ne_none _⟩)
    ⟨⟨pr, rs, q, rs1, p, h, hc, hp, ht, htr, hthm.1, hthm.2.1, hthm.2.2.2.1,
        (hthm.2.2.2.2.2 htr).1, (hthm.2.2.2.2.2 htr).2.1, (hthm.2.2.2.2.2 htr).2.2⟩,
      ⟨pr2, rs2, q2, rs3, p2, h2, hc2, hp2, he, hs, hi, hcp, hthm2⟩⟩

/-! ## Claims about `pkg/license.go` -/

/-- C15 (counterexample): in the toy environment the zRIF `exZrif` decodes to the one-byte
payload `[7]`; with the package type PSP as second argument no expected size greater than 0
is in force (`licenseSize` is 0), yet `DecodeLicense` fails with the invalid-length
error. -/
theorem DecodeLicense_rejects_for_PSP :
    DecodeLicense exEnv exZrif 0 = Except.ok [7] ∧
    licenseSize PackageTypePSP = 0 ∧
    DecodeLicense exEnv exZrif PackageTypePSP = Except.error Err.invalidLicenseLength := by
  refine ⟨by rfl, by rfl, by rfl⟩

/-- C15 (amended): for a zRIF string that Base64- and zlib-decodes to the payload `lic`,
`DecodeLicense` fails with the invalid-length error exactly when its second argument is
greater than 0 and the length of `lic` differs from `licenseSize` of it, and returns `lic`
unchanged otherwise, in particular for the second argument 0; `licenseSize` is 512 for
VitaApp, VitaDLC and VitaPatch, 1024 for PSM and 0 for every other package type. -/
theorem DecodeLicense_length_check (env : Env) (src data lic : List Nat) (pkgType : Int)
    (hb : env.base64Decode src = Except.ok data)
    (hz : zlibDecompress env env.rifDict data = Except.ok lic) :
    (DecodeLicense env src pkgType = Except.error Err.invalidLicenseLength ↔
      (pkgType > 0 ∧ lic.length ≠ licenseSize pkgType)) ∧
    (¬ (pkgType > 0 ∧ lic.length ≠ licenseSize pkgType) →
      DecodeLicense env src pkgType = Except.ok lic) ∧
    DecodeLicense env src 0 = Except.ok lic ∧
    licenseSize PackageTypeVitaApp = 512 ∧ licenseSize PackageTypeVitaDLC = 512 ∧
    licenseSize PackageTypeVitaPatch = 512 ∧ licenseSize PackageTypePSM = 1024 ∧
    (pkgType ≠ PackageTypeVitaApp → pkgType ≠ PackageTypeVitaDLC →
      pkgType ≠ PackageTypeVitaPatch → pkgType ≠ PackageTypePSM → licenseSize pkgType = 0) := by
  refine ⟨?_, ?_, ?_, by rfl, by rfl, by rfl, by rfl, ?_⟩
  · unfold DecodeLicense
    rw [hb]
    simp only [hz]
    split_ifs with h
    · simp [h]
    · simp [h]
  · intro h
    unfold DecodeLicense
    rw [hb]
    simp only [hz]
    rw [if_neg h]
  · unfold DecodeLicense
    rw [hb]
    simp only [hz]
    simp
  · intro h1 h2 h3 h4
    simp [licenseSize, h1, h2, h3, h4]

/-- C15 (amended) witness: `exZrif` and the package types PSP and 0. -/
theorem DecodeLicense_length_check_witness :
    (DecodeLicense exEnv exZrif PackageTypePSP = Except.error Err.invalidLicenseLength ↔
      (((PackageTypePSP : Nat) : Int) > 0 ∧
        [7].length ≠ licenseSize ((PackageTypePSP : Nat) : Int))) ∧
    DecodeLicense exEnv exZrif 0 = Except.ok [7] :=
  have h := DecodeLicense_length_check exEnv exZrif exZrif [7] PackageTypePSP (by rfl) (by rfl)
  ⟨h.1, h.2.2.1⟩

/-- C16: when Base64 decoding inverts Base64 encoding and the decompressor inverts the
compressor (with the dictionary `rifDict`, whatever follows the compressed stream),
`EncodeLicense(b)` returns a string for every byte string `b`, and `DecodeLicense` of that
string with second argument 0 returns exactly `b`. -/
theorem DecodeLicense_EncodeLicense (env : Env) (b : List Nat)
    (hb64 : ∀ x, env.base64Decode (env.base64Encode x) = Except.ok x)
    (hflate : ∀ data rest, env.inflate (some env.rifDict)
      (env.deflate env.rifDict data ++ rest) = Except.ok (data, rest)) :
    ∃ s, EncodeLicense env b = some (Except.ok s) ∧ DecodeLicense env s 0 = Except.ok b := by
  refine ⟨_, by rw [EncodeLicense, encodeLicenseStream_eq]; rfl, ?_⟩
  unfold DecodeLicense
  rw [hb64]
  simp only [zlibDecompress_fixed env env.rifDict b (hflate b)]
  simp

/-- C16 witness: the toy environment and the license `[7]`. -/
theorem DecodeLicense_EncodeLicense_witness :
    ∃ s, EncodeLicense exEnv [7] = some (Except.ok s) ∧
      DecodeLicense exEnv s 0 = Except.ok [7] :=
  DecodeLicense_EncodeLicense exEnv [7] (fun _ => rfl) (fun data rest => by
    simp [exEnv])

/-- C17: for every input the stream that `EncodeLicense` encodes starts with two bytes
`CMF`, `FLG` with `CM = 8` (low nibble of `CMF`), `CINFO = 2` (high nibble), `FLEVEL = 3`
(top two bits of `FLG`), `FDICT = 1` (bit 5) and `(CMF * 256 + FLG) mod 31 = 0`; the check
bits added to `FLG` are below 32 and leave the upper three bits as they were set. -/
theorem EncodeLicense_header_fields (env : Env) (data : List Nat) :
    ∃ cmf flg rest, encodeLicenseStream env data = some (cmf :: flg :: rest) ∧
      EncodeLicense env data = some (Except.ok (env.base64Encode (cmf :: flg :: rest))) ∧
      cmf < 256 ∧ flg < 256 ∧
      cmf % 16 = 8 ∧ cmf / 16 = 2 ∧ flg / 64 = 3 ∧ flg / 32 % 2 = 1 ∧
      (cmf * 256 + flg) % 31 = 0 ∧
      flg = (3 <<< 6 ||| 1 <<< 5) + (31 - (cmf * 256 + (3 <<< 6 ||| 1 <<< 5)) % 31) ∧
      31 - (cmf * 256 + (3 <<< 6 ||| 1 <<< 5)) % 31 < 32 ∧
      flg &&& 0xE0 = (3 <<< 6 ||| 1 <<< 5) := by
  refine ⟨0x28, 0xEE, _, encodeLicenseStream_eq env data, ?_, by decide, by decide, by decide,
    by decide, by decide, by decide, by decide, by decide, by decide, by decide⟩
  rw [EncodeLicense, encodeLicenseStream_eq]
  rfl

/-- C18 (counterexample): for a 512-byte payload the stream that `EncodeLicense` encodes
begins with `0x28 0xEE`, not with `0x78 0xBB`. -/
theorem EncodeLicense_header_is_not_78_BB :
    (encodeLicenseStream exEnv (List.replicate 512 0)).map (List.take 2) = some [0x28, 0xEE] ∧
    (encodeLicenseStream exEnv (List.replicate 512 0)).map (List.take 2)
      ≠ some [0x78, 0xBB] := by
  have h : (encodeLicenseStream exEnv (List.replicate 512 0)).map (List.take 2)
      = some [0x28, 0xEE] := by
    rw [encodeLicenseStream_eq]
    rfl
  exact ⟨h, by rw [h]; decide⟩

/-- C18 (amended): for every payload the zlib stream that `EncodeLicense` Base64-encodes
begins with the two header bytes `0x28 0xEE`. -/
theorem EncodeLicense_header_bytes (env : Env) (data : List Nat) :
    (encodeLicenseStream env data).map (List.take 2) = some [0x28, 0xEE] ∧
    ∃ s, EncodeLicense env data = some (Except.ok (env.base64Encode s)) ∧
      s.take 2 = [0x28, 0xEE] := by
  refine ⟨by rw [encodeLicenseStream_eq]; rfl,
    0x28 :: 0xEE :: (natToBE 4 (adler32 env.rifDict) ++ env.deflate env.rifDict data
      ++ natToBE 4 (adler32 data)), ?_, rfl⟩
  rw [EncodeLicense, encodeLicenseStream_eq]
  rfl

/-! ## Claims about `pkg/headers.go` -/

/-- C23: for every file header (whose `ContentID` has its 36 bytes) `GetTitleID()` returns
the 9 bytes `ContentID[7:16]` and `GetContentName()` the 16 bytes `ContentID[20:36]`, byte
for byte. -/
theorem GetTitleID_GetContentName (h : FileHeader) (hlen : h.ContentID.length = 36) :
    ∃ t nm, h.GetTitleID = some t ∧ h.GetContentName = some nm ∧
      t.length = 9 ∧ nm.length = 16 ∧
      (∀ i, i < 9 → t[i]? = h.ContentID[7 + i]?) ∧
      (∀ i, i < 16 → nm[i]? = h.ContentID[20 + i]?) := by
  refine ⟨(h.ContentID.drop 7).take 9, h.ContentID.drop 20, ?_, ?_, ?_, ?_, ?_, ?_⟩
  · simp [FileHeader.GetTitleID, sliceOf, hlen]
  · simp [FileHeader.GetContentName, FileHeader.GetContentID, sliceOf, hlen]
  · simp [hlen]
  · simp [hlen]
  · intro i hi
    rw [List.getElem?_take_of_lt hi, List.getElem?_drop]
  · intro i _
    rw [List.getElem?_drop]

/-- C23 witness: a header whose content ID is `0, 1, …, 35`. -/
theorem GetTitleID_GetContentName_witness :
    ∃ t nm, ({ exFileHeader 1 384 256 64 with ContentID := List.range 36 }).GetTitleID = some t ∧
      ({ exFileHeader 1 384 256 64 with ContentID := List.range 36 }).GetContentName = some nm ∧
      t.length = 9 ∧ nm.length = 16 ∧
      (∀ i, i < 9 → t[i]? = (List.range 36)[7 + i]?) ∧
      (∀ i, i < 16 → nm[i]? = (List.range 36)[20 + i]?) :=
  GetTitleID_GetContentName { exFileHeader 1 384 256 64 with ContentID := List.range 36 }
    (by decide)

/-! ## Claims about `pkg/sfo.go` -/

/-- C25: for a well-formed SFO image (the magic, at least one index entry, NUL-terminated
keys, entries in data-offset order with their values inside their slots) `readSFO` returns
without an error, and the map it builds sends every key to the value of the last index
entry of a recognised format with that NUL-terminated key: the `ParamLength` bytes at
`DataOffset` for format `0x0004`, the `ParamLength - 1` bytes at `DataOffset` for format
`0x0204`, the decimal rendering of the little-endian 32-bit integer at `DataOffset` for
format `0x0404`; entries of any other format add no key, and a key that no entry of a
recognised format carries is absent. -/
theorem readSFO_builds_map (w : World) (t : Tap) (old : SfoMap) (hok : SfoOk w.src.data) :
    ∃ r, readSFO w t old = some r ∧ r.err = none ∧
      ∀ key, r.entries.lookup key
        = sfoSpecMap (sfoKeysOf w.src.data) (sfoValuesOf w.src.data)
            (sfoIndexOf w.src.data) key := by
  obtain ⟨last, hlast, hend, hvl, hread⟩ := readSFO_eq w t old hok
  obtain ⟨_, _, _, _, hchain, h32, hent⟩ := hok
  have hslot := sfo_slot_le_last _ last hchain hlast
  obtain ⟨m, hm, hlook⟩ := sfoEntriesLoop_spec (sfoKeysOf w.src.data) (sfoValuesOf w.src.data)
    (by rw [hvl]; exact h32) (sfoIndexOf w.src.data) []
    (by
      intro e he hf
      obtain ⟨h1, h2, h3, h4, h5⟩ := hent e he hf
      have := hslot e he
      exact ⟨h1, h2, by rw [hvl, hend]; omega, h4, h5⟩)
  obtain ⟨r, hr, herr, hre⟩ := hread m hm
  refine ⟨r, hr, herr, fun key => ?_⟩
  rw [hre, hlook key]
  cases sfoSpecMap (sfoKeysOf w.src.data) (sfoValuesOf w.src.data)
    (sfoIndexOf w.src.data) key <;> rfl

set_option maxRecDepth 1000000 in
/-- C25 witness: the image `exSfoImage`: `A` is sent to the bytes 1, 2 of its later entry,
`B` to the digits of 42, and `C` is absent. -/
theorem readSFO_builds_map_witness :
    ∃ r, readSFO (exWorld exSfoImage) Tap.raw [] = some r ∧ r.err = none ∧
      r.entries.lookup [0x41] = some [1, 2] ∧
      r.entries.lookup [0x42] = some [0x34, 0x32] ∧
      r.entries.lookup [0x43] = none :=
  match readSFO_builds_map (exWorld exSfoImage) Tap.raw []
    ⟨by decide, by decide, by decide, by decide,
      List.Chain'.cons (by decide) (List.Chain'.cons (by decide) (List.chain'_singleton _)),
      by decide, by decide⟩ with
  | ⟨r, hr, herr, h⟩ =>
    ⟨r, hr, herr, (h [0x41]).trans (by rfl), (h [0x42]).trans (by rfl),
      (h [0x43]).trans (by rfl)⟩

/-! ## Claims about `pkg/aes.go` -/

/-- C2: for a block cipher, a 16-byte IV, a ciphertext region whose length is a Go `int64`
and a block index `0 ≤ c`, decrypting the region from offset `16 * c` with the stream
`NewCTR(block, iv, c)` gives the suffix from offset `16 * c` of the decryption of the whole
region with the stream `NewCTR(block, iv, 0)`. -/
theorem NewCTR_seek_eq_continuous_suffix (b : Block) (iv region : List Nat) (c : Int)
    (hlen : iv.length = 16) (hb : ∀ x ∈ iv, x < 256) (hc0 : 0 ≤ c) (hc1 : c < 2 ^ 63)
    (hreg : region.length < 2 ^ 63) :
    ∃ s0 sc, NewCTR b iv 0 = some s0 ∧ NewCTR b iv c = some sc ∧
      (sc.xorKeyStream (region.drop (16 * c.toNat))).1
        = ((s0.xorKeyStream region).1).drop (16 * c.toNat) := by
  have h0 : NewCTR b iv 0 = some { block := b, iv := iv, pos := 0 } := by
    simp [NewCTR, cipherNewCTR, hlen]
  refine ⟨⟨b, iv, 0⟩, ?_⟩
  by_cases hz : c = 0
  · subst hz
    exact ⟨⟨b, iv, 0⟩, h0, h0, by simp⟩
  · have hpos : c > 0 := by omega
    obtain ⟨k, rfl⟩ := Int.eq_ofNat_of_zero_le hc0
    by_cases hbig : region.length ≤ 16 * k
    · refine ⟨⟨b, addCTRCounterLoop 16 iv (k : Int), 0⟩, h0, ?_, ?_⟩
      · simp [NewCTR, hpos, addCTRCounter, cipherNewCTR, hlen, addCTRCounterLoop_length]
      · simp [CtrStream.xorKeyStream, List.drop_eq_nil_of_le hbig, xorFrom_drop, xorFrom]
    · have hk : k + 255 < 2 ^ 63 := by omega
      refine ⟨⟨b, natToBE 16 ((beToNat iv + k) % 2 ^ 128), 0⟩, h0, ?_, ?_⟩
      · simp [NewCTR, hpos, addCTRCounter_small iv k hlen hb hk, cipherNewCTR, natToBE_length]
      · simp only [CtrStream.xorKeyStream, Int.toNat_ofNat]
        rw [xorFrom_drop, xorFrom_congr b _ iv (16 * k) (keystreamByte_shift b iv k)]
        simp

/-- C2 witness: the identity "cipher", the IV `00…07`, block index 1 and a 20-byte region. -/
theorem NewCTR_seek_eq_continuous_suffix_witness :
    ∃ s0 sc, NewCTR ⟨id⟩ (List.replicate 15 0 ++ [7]) 0 = some s0 ∧
      NewCTR ⟨id⟩ (List.replicate 15 0 ++ [7]) 1 = some sc ∧
      (sc.xorKeyStream ((List.range 20).drop (16 * (1 : Int).toNat))).1
        = ((s0.xorKeyStream (List.range 20)).1).drop (16 * (1 : Int).toNat) :=
  NewCTR_seek_eq_continuous_suffix ⟨id⟩ (List.replicate 15 0 ++ [7]) (List.range 20) 1
    (by decide) (by decide) (by decide) (by decide) (by simp)

set_option maxRecDepth 100000 in
/-- C3 (failing input): for the IV `00…01` and the counter `2^63 - 1` the running `int64`
sum overflows at byte 15, the arithmetic shift sign-extends it, and `addCTRCounter`
returns `ff ff ff ff ff ff ff ff 80 00 00 00 00 00 00 00`, whose big-endian value is not
`(iv + counter) mod 2^128 = 2^63`. -/
theorem addCTRCounter_overflow_at_maxInt64 :
    addCTRCounter (List.replicate 15 0 ++ [1]) (2 ^ 63 - 1)
      = some [255, 255, 255, 255, 255, 255, 255, 255, 128, 0, 0, 0, 0, 0, 0, 0] ∧
    beToNat [255, 255, 255, 255, 255, 255, 255, 255, 128, 0, 0, 0, 0, 0, 0, 0]
      ≠ (beToNat (List.replicate 15 0 ++ [1]) + (2 ^ 63 - 1)) % 2 ^ 128 := by
  decide

end Pkgdec
